import Mathlib

/-!
Shallow embedding of the 2D ray-tracing engine of the csci-716 project:
the optics math (`LightCalculator.js`), the geometric intersection
routines (`GeometryMath.js`), the `Intersection` record, the BVH
(`BVHNode.js` / `BVH.js`) and the ray tracer (`RayTracer.js`, the final
variant that combines BVH acceleration, target handling and
`markPathToTarget`).

Modelling conventions, used throughout:
* IEEE-754 doubles are idealised as exact field elements.  `ℚ`
  instantiates the executable development (geometry, BVH, tracer), `ℝ`
  the analytic optics claims that mention `arcsin` and genuine square
  roots.
* `Math.sqrt` is abstracted as a function parameter `sq : F → F`
  wherever the source calls it (edge-normal normalisation, ray
  normalisation, the refracted direction).  Every claim proved below is
  either independent of `sq` or quantifies over it; the real-valued
  optics claims instantiate it with `Real.sqrt`.
* The polygonal fragment of the shape universe is embedded (Rectangle /
  Square / Triangle / Target, i.e. everything whose intersection goes
  through `rayPolygonIntersection`); a shape carries its `getVertices()`
  result, its `getBoundingBox()` result and its `containsPoint` test as
  data.  The ellipse solver's transcendental frame change is outside the
  claims' needs.
* JavaScript `null` sentinels are modelled with `Option`; the `Infinity`
  distance of the no-hit `Intersection` is modelled with `⊤ : WithTop ℚ`.
-/

namespace RayTrace

/-- 2D vector over a field, mirroring the `{x, y}` pairs used everywhere
in the source (`Vector2`). -/
structure Vec2 (F : Type) where
  x : F
  y : F
deriving DecidableEq

/-- Dot product of two vectors. -/
def dotV {F : Type} [Field F] (a b : Vec2 F) : F :=
  a.x * b.x + a.y * b.y

/-- Squared Euclidean norm. -/
def normSq {F : Type} [Field F] (a : Vec2 F) : F :=
  a.x * a.x + a.y * a.y

namespace LightCalculator

/-- `LightCalculator.reflect`: `R = I - 2(I·N)N`, computed componentwise
exactly as in the source. -/
def reflect {F : Type} [Field F] (incident normal : Vec2 F) : Vec2 F :=
  let dot := incident.x * normal.x + incident.y * normal.y
  ⟨incident.x - 2 * dot * normal.x, incident.y - 2 * dot * normal.y⟩

/-- `LightCalculator.refract`: Snell refraction.  Computes
`eta = n1/n2`, `dot = -(I·N)`, `k = 1 - eta²(1 - dot²)`; returns `none`
(total internal reflection) when `k < 0`, otherwise the direction
`eta·I + (eta·dot - sqrt k)·N`.  `sq` stands for `Math.sqrt`. -/
def refract {F : Type} [LinearOrderedField F] (sq : F → F)
    (incident normal : Vec2 F) (n1 n2 : F) : Option (Vec2 F) :=
  let eta := n1 / n2
  let dot := -(incident.x * normal.x + incident.y * normal.y)
  let k := 1 - eta * eta * (1 - dot * dot)
  if k < 0 then
    none
  else
    let sqrtK := sq k
    some ⟨eta * incident.x + (eta * dot - sqrtK) * normal.x,
          eta * incident.y + (eta * dot - sqrtK) * normal.y⟩

end LightCalculator

/-! ### The rational instantiation used by the executable engine -/

/-- The executable development runs over `ℚ`. -/
abbrev V : Type := Vec2 ℚ

/-- `GeometryMath.EPSILON = 0.0001`, the single shared numeric guard. -/
def EPSILON : ℚ := 1 / 10000

/-- `Material`: the two optical coefficients the tracer reads
(`Material.js`; `absorptance` does not exist in the source class). -/
structure Material where
  reflectivity : ℚ
  refractiveIndex : ℚ
deriving DecidableEq

/-- Axis-aligned bounding box, the `{minX, minY, maxX, maxY}` records
produced by every shape's `getBoundingBox()`. -/
structure AABB where
  minX : ℚ
  minY : ℚ
  maxX : ℚ
  maxY : ℚ
deriving DecidableEq

/-- Membership of a point in an AABB. -/
def inAABB (p : V) (bb : AABB) : Prop :=
  bb.minX ≤ p.x ∧ p.x ≤ bb.maxX ∧ bb.minY ≤ p.y ∧ p.y ≤ bb.maxY

instance (p : V) (bb : AABB) : Decidable (inAABB p bb) := by
  unfold inAABB; infer_instance

/-- A scene shape as the engine observes it: identity (`id`), the
`type === 'Target'` test, the polygon returned by `getVertices()`, the
box returned by `getBoundingBox()`, the `containsPoint` capability and
the attached `Material`.  The polygonal shapes (Rectangle, Square,
Triangle, EquilateralTriangle, Target) all present exactly this
interface to `GeometryMath.rayPolygonIntersection`. -/
structure Shape where
  id : ℕ
  isTarget : Bool
  vertices : List V
  bbox : AABB
  material : Material
  contains : V → Bool

/-- Placeholder shape standing for JavaScript's `undefined` dereference:
it is only ever read behind guards that the source also relies on. -/
def dummyShape : Shape :=
  ⟨0, false, [], ⟨0, 0, 0, 0⟩, ⟨0, 0⟩, fun _ => false⟩

/-- `Ray.normalize`: divide by `Math.sqrt(x² + y²)` (abstracted as
`sq`), returning the zero vector when the computed length is zero. -/
def normalizeV (sq : ℚ → ℚ) (v : V) : V :=
  let length := sq (v.x * v.x + v.y * v.y)
  if length = 0 then ⟨0, 0⟩ else ⟨v.x / length, v.y / length⟩

/-- `Ray`: origin, normalized direction, intensity, generation. -/
structure Ray where
  origin : V
  direction : V
  intensity : ℚ
  generation : ℕ
deriving DecidableEq

/-- The `Ray` constructor: copies the origin and normalizes the
direction. -/
def Ray.make (sq : ℚ → ℚ) (origin direction : V) (intensity : ℚ)
    (generation : ℕ) : Ray :=
  ⟨⟨origin.x, origin.y⟩, normalizeV sq direction, intensity, generation⟩

/-- `Ray.pointAt`: the point `origin + t·direction`. -/
def Ray.pointAt (r : Ray) (t : ℚ) : V :=
  ⟨r.origin.x + r.direction.x * t, r.origin.y + r.direction.y * t⟩

/-- `Ray.spawn`: child ray with `intensity = parent × multiplier` and
`generation = parent + 1` (built through the constructor, so the
direction is normalized again). -/
def Ray.spawn (sq : ℚ → ℚ) (r : Ray) (newOrigin newDirection : V)
    (intensityMultiplier : ℚ) : Ray :=
  Ray.make sq newOrigin newDirection (r.intensity * intensityMultiplier)
    (r.generation + 1)

/-- The `Intersection` record.  `hit=false` carries `distance=Infinity`
(modelled `⊤`) and `null` point/normal/object (modelled by dummy values
and `none`; every read in the engine is guarded by `hit`). -/
structure Intersection where
  hit : Bool
  distance : WithTop ℚ
  point : V
  normal : V
  obj : Option Shape

/-- `Intersection.noHit()`, the algebraic identity of `closest`. -/
def Intersection.noHit : Intersection :=
  ⟨false, ⊤, ⟨0, 0⟩, ⟨0, 0⟩, none⟩

/-- `Intersection.closest`: the `reduce` over an intersection list that
keeps the closest hit, starting from `noHit`. -/
def Intersection.closest (l : List Intersection) : Intersection :=
  l.foldl
    (fun closest current =>
      if current.hit = false then closest
      else if closest.hit = false then current
      else if current.distance < closest.distance then current else closest)
    Intersection.noHit

/-- Result record of `rayLineSegmentIntersection`: `{t, point, normal}`. -/
structure LineHit where
  t : ℚ
  point : V
  normal : V

/-- `GeometryMath.rayLineSegmentIntersection`: 2×2 Cramer solve of
`origin + t·dir = p1 + u·(p2 - p1)`; `none` when near-parallel
(`|det| < EPSILON`) or when `t < EPSILON` or `u ∉ [0,1]`.  The edge
normal is the edge's perpendicular normalized by `sq`, flipped to oppose
the ray. -/
def rayLineSegmentIntersection (sq : ℚ → ℚ) (rayOrigin rayDir p1 p2 : V) :
    Option LineHit :=
  let dx := p2.x - p1.x
  let dy := p2.y - p1.y
  let toSegX := p1.x - rayOrigin.x
  let toSegY := p1.y - rayOrigin.y
  let det := rayDir.x * dy - rayDir.y * dx
  if |det| < EPSILON then none
  else
    let t := (toSegX * dy - toSegY * dx) / det
    let u := (toSegX * rayDir.y - toSegY * rayDir.x) / det
    if EPSILON ≤ t ∧ 0 ≤ u ∧ u ≤ 1 then
      let point : V := ⟨rayOrigin.x + t * rayDir.x, rayOrigin.y + t * rayDir.y⟩
      let edgeLength := sq (dx * dx + dy * dy)
      let normal : V := ⟨-dy / edgeLength, dx / edgeLength⟩
      let flipped : V :=
        if 0 < rayDir.x * normal.x + rayDir.y * normal.y then
          ⟨-normal.x, -normal.y⟩
        else normal
      some ⟨t, point, flipped⟩
    else none

/-- `GeometryMath.rayPolygonIntersection`: tests every edge
`(vertices[i], vertices[(i+1) % n])`, tracking the closest accepted edge
hit (`closestIntersection`, `closestDistance` starting at `Infinity`),
then packages the winner as an `Intersection` owned by `obj`. -/
def rayPolygonIntersection (sq : ℚ → ℚ) (rayOrigin rayDir : V)
    (vertices : List V) (obj : Shape) : Intersection :=
  let n := vertices.length
  let acc :=
    (List.range n).foldl
      (fun (acc : Option LineHit × WithTop ℚ) i =>
        let p1 := vertices.getD i ⟨0, 0⟩
        let p2 := vertices.getD ((i + 1) % n) ⟨0, 0⟩
        match rayLineSegmentIntersection sq rayOrigin rayDir p1 p2 with
        | none => acc
        | some result =>
            if (result.t : WithTop ℚ) < acc.2 then (some result, (result.t : WithTop ℚ))
            else acc)
      (none, ⊤)
  match acc.1 with
  | some lh => ⟨true, acc.2, lh.point, lh.normal, some obj⟩
  | none => Intersection.noHit

/-- `GeometryMath.rayObjectIntersection` restricted to the embedded
polygonal universe: every shape the tracer feeds it (scene objects and
targets) goes through `rayPolygonIntersection` on its `getVertices()`.
(`FocalPoint`s never reach it: they are kept in a separate scene list;
the ellipse branch is outside the embedded universe.) -/
def rayObjectIntersection (sq : ℚ → ℚ) (ray : Ray) (obj : Shape) :
    Intersection :=
  rayPolygonIntersection sq ray.origin ray.direction obj.vertices obj

/-! ### BVH (`BVHNode.js`, `BVH.js`) -/

/-- `BVHNode.computeBoundingBox`: component-wise min/max over a list of
boxes, `null` (here `none`) for the empty list. -/
def computeBoundingBox : List AABB → Option AABB
  | [] => none
  | b :: bs =>
      some ⟨(bs.map AABB.minX).foldl min b.minX,
            (bs.map AABB.minY).foldl min b.minY,
            (bs.map AABB.maxX).foldl max b.maxX,
            (bs.map AABB.maxY).foldl max b.maxY⟩

/-- `BVHNode.computeSurfaceArea`: width × height. -/
def computeSurfaceArea (bb : AABB) : ℚ :=
  (bb.maxX - bb.minX) * (bb.maxY - bb.minY)

/-- Surface area read through the `Option`; the `none` case is
unreachable in `findBestSplit` (both sides of an accepted candidate are
non-empty, so their combined boxes exist). -/
def areaOf : Option AABB → ℚ
  | none => 0
  | some bb => computeSurfaceArea bb

/-- The `[min(t1,t2), max(t1,t2)]` parameter interval of one slab, for a
non-parallel axis (`d ≠ 0`). -/
def slabInterval (o d lo hi : ℚ) : ℚ × ℚ :=
  let t1 := (lo - o) / d
  let t2 := (hi - o) / d
  (min t1 t2, max t1 t2)

/-- `BVHNode.intersectsAABB`, the ray–AABB slab test.  The source keeps
a running interval `[tmin, tmax]` starting at `[-∞, ∞]`, narrows it per
non-parallel axis, rejects early when a parallel axis lies outside its
slab, and finally checks `tmax ≥ tmin && tmax ≥ 0`; the branches below
spell out the same computation with the infinities resolved (an axis
that never narrows the interval leaves that bound infinite, making the
corresponding comparison vacuous).  A `null` bounding box is rejected
outright. -/
def intersectsAABB (r : Ray) : Option AABB → Bool
  | none => false
  | some bb =>
      if r.direction.x = 0 then
        if r.origin.x < bb.minX ∨ bb.maxX < r.origin.x then false
        else if r.direction.y = 0 then
          if r.origin.y < bb.minY ∨ bb.maxY < r.origin.y then false
          else true
        else
          let ty := slabInterval r.origin.y r.direction.y bb.minY bb.maxY
          decide (ty.1 ≤ ty.2 ∧ 0 ≤ ty.2)
      else
        let tx := slabInterval r.origin.x r.direction.x bb.minX bb.maxX
        if r.direction.y = 0 then
          if r.origin.y < bb.minY ∨ bb.maxY < r.origin.y then false
          else decide (tx.1 ≤ tx.2 ∧ 0 ≤ tx.2)
        else
          let ty := slabInterval r.origin.y r.direction.y bb.minY bb.maxY
          decide (max tx.1 ty.1 ≤ min tx.2 ty.2 ∧ 0 ≤ min tx.2 ty.2)

/-- A BVH tree node (`BVHNode`): bounding box, object list (populated at
leaves), the `isLeaf` flag and the nullable child pointers. -/
inductive BVHNode where
  | mk (boundingBox : Option AABB) (objects : List Shape) (isLeaf : Bool)
      (left : Option BVHNode) (right : Option BVHNode)

def BVHNode.boundingBox : BVHNode → Option AABB
  | .mk bb _ _ _ _ => bb

def BVHNode.objects : BVHNode → List Shape
  | .mk _ objs _ _ _ => objs

def BVHNode.isLeaf : BVHNode → Bool
  | .mk _ _ leaf _ _ => leaf

def BVHNode.left : BVHNode → Option BVHNode
  | .mk _ _ _ l _ => l

def BVHNode.right : BVHNode → Option BVHNode
  | .mk _ _ _ _ r => r

/-- The two split axes (the `'x'`/`'y'` strings of the source). -/
inductive Axis where
  | x
  | y
deriving DecidableEq

/-- Centroid of a bounding box along an axis, as used to sort split
candidates. -/
def centroid (axis : Axis) (bb : AABB) : ℚ :=
  match axis with
  | .x => (bb.minX + bb.maxX) / 2
  | .y => (bb.minY + bb.maxY) / 2

/-- Result of `findBestSplit`:
`{leftObjects, rightObjects, axis, position}`. -/
structure Split where
  leftObjects : List Shape
  rightObjects : List Shape
  axis : Axis
  position : ℚ

/-- One candidate partition index of `findBestSplit`'s inner loop
(`i = i0 + 1` runs from `1` to `numSplits`): skip when a side is empty,
otherwise score by the surface-area heuristic and keep the candidate
when it beats the best cost so far. -/
def splitStep (n numSplits : ℕ) (sorted : List (Shape × AABB))
    (axis : Axis) (best : WithTop ℚ × Option Split) (i0 : ℕ) :
    WithTop ℚ × Option Split :=
  let i := i0 + 1
  let splitIndex := n * i / (numSplits + 1)
  let leftPairs := sorted.take splitIndex
  let rightPairs := sorted.drop splitIndex
  if leftPairs.length = 0 ∨ rightPairs.length = 0 then best
  else
    let leftBB := computeBoundingBox (leftPairs.map Prod.snd)
    let rightBB := computeBoundingBox (rightPairs.map Prod.snd)
    let cost := areaOf leftBB * (leftPairs.length : ℚ) +
      areaOf rightBB * (rightPairs.length : ℚ)
    if (cost : WithTop ℚ) < best.1 then
      ((cost : WithTop ℚ),
        some ⟨leftPairs.map Prod.fst, rightPairs.map Prod.fst, axis,
          centroid axis (sorted.getD splitIndex
            (dummyShape, ⟨0, 0, 0, 0⟩)).2⟩)
    else best

/-- One axis of `findBestSplit`: sort the (object, box) pairs by
centroid along the axis and try `min(count - 1, 10)` evenly spaced
partition indices. -/
def axisStep (objects : List Shape) (boundingBoxes : List AABB)
    (best : WithTop ℚ × Option Split) (axis : Axis) :
    WithTop ℚ × Option Split :=
  let sorted := (objects.zip boundingBoxes).mergeSort
    (fun a b => centroid axis a.2 ≤ centroid axis b.2)
  let numSplits := min (objects.length - 1) 10
  (List.range numSplits).foldl
    (splitStep objects.length numSplits sorted axis) best

/-- `BVH.findBestSplit`: evaluate both axes in order, keeping the
global minimum (`bestCost` starts at `Infinity`, modelled `⊤`); return
the stored split, `null` when no candidate was ever accepted. -/
def findBestSplit (objects : List Shape) (boundingBoxes : List AABB) :
    Option Split :=
  ([Axis.x, Axis.y].foldl (axisStep objects boundingBoxes)
    ((⊤ : WithTop ℚ), none)).2

/-- `splitStep` with its `let`s resolved, for case analysis. -/
theorem splitStep_eq (n numSplits : ℕ) (sorted : List (Shape × AABB))
    (axis : Axis) (best : WithTop ℚ × Option Split) (i0 : ℕ) :
    splitStep n numSplits sorted axis best i0 =
      if (sorted.take (n * (i0 + 1) / (numSplits + 1))).length = 0 ∨
          (sorted.drop (n * (i0 + 1) / (numSplits + 1))).length = 0 then
        best
      else if ((areaOf (computeBoundingBox
            ((sorted.take (n * (i0 + 1) / (numSplits + 1))).map Prod.snd)) *
            ((sorted.take (n * (i0 + 1) / (numSplits + 1))).length : ℚ) +
          areaOf (computeBoundingBox
            ((sorted.drop (n * (i0 + 1) / (numSplits + 1))).map Prod.snd)) *
            ((sorted.drop (n * (i0 + 1) / (numSplits + 1))).length : ℚ) :
          WithTop ℚ)) < best.1 then
        (((areaOf (computeBoundingBox
            ((sorted.take (n * (i0 + 1) / (numSplits + 1))).map Prod.snd)) *
            ((sorted.take (n * (i0 + 1) / (numSplits + 1))).length : ℚ) +
          areaOf (computeBoundingBox
            ((sorted.drop (n * (i0 + 1) / (numSplits + 1))).map Prod.snd)) *
            ((sorted.drop (n * (i0 + 1) / (numSplits + 1))).length : ℚ) :
          WithTop ℚ)),
          some ⟨(sorted.take (n * (i0 + 1) / (numSplits + 1))).map Prod.fst,
            (sorted.drop (n * (i0 + 1) / (numSplits + 1))).map Prod.fst,
            axis,
            centroid axis (sorted.getD (n * (i0 + 1) / (numSplits + 1))
              (dummyShape, ⟨0, 0, 0, 0⟩)).2⟩)
      else best := rfl

/-- Generic preservation of an invariant along a left fold. -/
theorem foldl_preserve {α β : Type} (f : β → α → β) (P : β → Prop)
    (l : List α) (init : β) (h0 : P init)
    (hstep : ∀ b a, P b → P (f b a)) : P (l.foldl f init) := by
  induction l generalizing init with
  | nil => exact h0
  | cons a l ih => exact ih (f init a) (hstep init a h0)

/-- Any split stored by `splitStep` has both sides non-empty and the two
sides together a permutation of `sorted.map Prod.fst`. -/
theorem splitStep_sound (n numSplits : ℕ) (sorted : List (Shape × AABB))
    (axis : Axis) (best : WithTop ℚ × Option Split) (i0 : ℕ)
    (hbest : ∀ s, best.2 = some s → s.leftObjects ≠ [] ∧
      s.rightObjects ≠ [] ∧
      (s.leftObjects ++ s.rightObjects).Perm (sorted.map Prod.fst)) :
    ∀ s, (splitStep n numSplits sorted axis best i0).2 = some s →
      s.leftObjects ≠ [] ∧ s.rightObjects ≠ [] ∧
      (s.leftObjects ++ s.rightObjects).Perm (sorted.map Prod.fst) := by
  rw [splitStep_eq]
  split
  · exact hbest
  · rename_i hne
    split
    · intro s hs
      simp only [Option.some.injEq] at hs
      cases hs
      simp only
      refine ⟨?_, ?_, ?_⟩
      · intro hempty
        exact hne (Or.inl (by rw [← List.length_map _ Prod.fst, hempty]; rfl))
      · intro hempty
        exact hne (Or.inr (by rw [← List.length_map _ Prod.fst, hempty]; rfl))
      · rw [← List.map_append, List.take_append_drop]
    · exact hbest

/-- Any split produced by `findBestSplit` has non-empty sides, and the
two sides together are a permutation of `objects` (they are slices of a
sorted copy of the zipped input). -/
theorem findBestSplit_sound (objects : List Shape)
    (boundingBoxes : List AABB)
    (hlen : boundingBoxes.length = objects.length) (s : Split)
    (h : findBestSplit objects boundingBoxes = some s) :
    s.leftObjects ≠ [] ∧ s.rightObjects ≠ [] ∧
      (s.leftObjects ++ s.rightObjects).Perm objects := by
  unfold findBestSplit at h
  set P : WithTop ℚ × Option Split → Prop :=
    fun best => ∀ s, best.2 = some s → s.leftObjects ≠ [] ∧
      s.rightObjects ≠ [] ∧
      (s.leftObjects ++ s.rightObjects).Perm objects with hP
  suffices hs : P ([Axis.x, Axis.y].foldl
      (axisStep objects boundingBoxes) ((⊤ : WithTop ℚ), none)) by
    exact hs s h
  apply foldl_preserve
  · intro s hs
    simp at hs
  · intro b axis hb
    apply foldl_preserve
    · exact hb
    · intro acc i0 hacc s' hs'
      have hsorted : (((objects.zip boundingBoxes).mergeSort
          (fun a b => centroid axis a.2 ≤ centroid axis b.2)).map
          Prod.fst).Perm objects := by
        have hp := (List.mergeSort_perm (objects.zip boundingBoxes)
          (fun a b => centroid axis a.2 ≤ centroid axis b.2)).map Prod.fst
        have h2 : (objects.zip boundingBoxes).map Prod.fst = objects :=
          List.map_fst_zip _ _ (by omega)
        rwa [h2] at hp
      have := splitStep_sound objects.length (min (objects.length - 1) 10)
        ((objects.zip boundingBoxes).mergeSort
          (fun a b => centroid axis a.2 ≤ centroid axis b.2)) axis acc i0
        (fun s hs => ⟨(hacc s hs).1, (hacc s hs).2.1,
          (hacc s hs).2.2.trans hsorted.symm⟩) s' hs'
      exact ⟨this.1, this.2.1, this.2.2.trans hsorted⟩

/-- The compatibility wrapper used by `build`'s termination proof. -/
theorem findBestSplit_perm (objects : List Shape)
    (boundingBoxes : List AABB)
    (hlen : boundingBoxes.length = objects.length) (s : Split)
    (h : findBestSplit objects boundingBoxes = some s) :
    (s.leftObjects ++ s.rightObjects).Perm objects :=
  (findBestSplit_sound objects boundingBoxes hlen s h).2.2

/-- Every tried partition index lies strictly inside the list: at least
one object on each side. -/
theorem splitIndex_bounds (n numSplits i0 : ℕ) (h2 : 2 ≤ n)
    (hns : numSplits = min (n - 1) 10) (hi : i0 < numSplits) :
    1 ≤ n * (i0 + 1) / (numSplits + 1) ∧
      n * (i0 + 1) / (numSplits + 1) < n := by
  have h1 : numSplits + 1 ≤ n := by omega
  constructor
  · rw [Nat.one_le_div_iff (by omega)]
    calc numSplits + 1 ≤ n := h1
      _ ≤ n * (i0 + 1) := Nat.le_mul_of_pos_right n (by omega)
  · rw [Nat.div_lt_iff_lt_mul (by omega)]
    have hlt : i0 + 1 < numSplits + 1 := by omega
    exact mul_lt_mul_of_pos_left hlt (by omega)

theorem splitStep_isSome_preserve (n numSplits : ℕ)
    (sorted : List (Shape × AABB)) (axis : Axis)
    (best : WithTop ℚ × Option Split) (i0 : ℕ)
    (h : best.2.isSome) :
    (splitStep n numSplits sorted axis best i0).2.isSome := by
  rw [splitStep_eq]
  split
  · exact h
  · split
    · rfl
    · exact h

/-- With a full-cost accumulator (`bestCost = Infinity`) and a valid
index, the candidate is always accepted: both sides are non-empty and
any finite cost beats `Infinity`. -/
theorem splitStep_establish (n numSplits : ℕ)
    (sorted : List (Shape × AABB)) (axis : Axis)
    (best : WithTop ℚ × Option Split) (i0 : ℕ)
    (hs : sorted.length = n) (h2 : 2 ≤ n)
    (hns : numSplits = min (n - 1) 10) (hi : i0 < numSplits)
    (hb : best.1 = ⊤) :
    (splitStep n numSplits sorted axis best i0).2.isSome := by
  have hbounds := splitIndex_bounds n numSplits i0 h2 hns hi
  have hguard : ¬ ((sorted.take (n * (i0 + 1) / (numSplits + 1))).length = 0 ∨
      (sorted.drop (n * (i0 + 1) / (numSplits + 1))).length = 0) := by
    rw [List.length_take, List.length_drop, hs]
    omega
  have hcost : ((areaOf (computeBoundingBox
        ((sorted.take (n * (i0 + 1) / (numSplits + 1))).map Prod.snd)) *
        ((sorted.take (n * (i0 + 1) / (numSplits + 1))).length : ℚ) +
      areaOf (computeBoundingBox
        ((sorted.drop (n * (i0 + 1) / (numSplits + 1))).map Prod.snd)) *
        ((sorted.drop (n * (i0 + 1) / (numSplits + 1))).length : ℚ) :
      WithTop ℚ)) < best.1 := by
    rw [hb]
    exact WithTop.coe_lt_top _
  rw [splitStep_eq, if_neg hguard, if_pos hcost]
  rfl

/-- `axisStep` with its `let`s resolved. -/
theorem axisStep_eq (objects : List Shape) (boundingBoxes : List AABB)
    (best : WithTop ℚ × Option Split) (axis : Axis) :
    axisStep objects boundingBoxes best axis =
      (List.range (min (objects.length - 1) 10)).foldl
        (splitStep objects.length (min (objects.length - 1) 10)
          ((objects.zip boundingBoxes).mergeSort
            (fun a b => centroid axis a.2 ≤ centroid axis b.2)) axis)
        best := rfl

theorem axisStep_isSome_preserve (objects : List Shape)
    (boundingBoxes : List AABB) (best : WithTop ℚ × Option Split)
    (axis : Axis) (h : best.2.isSome) :
    (axisStep objects boundingBoxes best axis).2.isSome := by
  rw [axisStep_eq]
  exact foldl_preserve _
    (fun (b : WithTop ℚ × Option Split) => b.2.isSome) _ _ h
    (fun b a hb => splitStep_isSome_preserve _ _ _ _ _ _ hb)

/-- Any axis pass over at least two objects stores a split when starting
from the `Infinity` accumulator. -/
theorem axisStep_establish (objects : List Shape)
    (boundingBoxes : List AABB) (axis : Axis)
    (hlen : boundingBoxes.length = objects.length)
    (h2 : 2 ≤ objects.length) :
    (axisStep objects boundingBoxes ((⊤ : WithTop ℚ), none) axis).2.isSome := by
  rw [axisStep_eq]
  have hsorted : ((objects.zip boundingBoxes).mergeSort
      (fun a b => centroid axis a.2 ≤ centroid axis b.2)).length =
      objects.length := by
    rw [List.length_mergeSort, List.length_zip]
    omega
  obtain ⟨k, hk⟩ : ∃ k, min (objects.length - 1) 10 = k + 1 :=
    ⟨min (objects.length - 1) 10 - 1, by omega⟩
  rw [hk, List.range_succ_eq_map]
  simp only [List.foldl_cons]
  apply foldl_preserve _
    (fun (b : WithTop ℚ × Option Split) => b.2.isSome)
  · exact splitStep_establish _ _ _ _ _ _ hsorted h2 (by omega) (by omega)
      rfl
  · intro b a hb
    exact splitStep_isSome_preserve _ _ _ _ _ _ hb

/-- For two or more objects `findBestSplit` always returns a split with
two non-empty sides: the degenerate fallback in `build` is dead code for
the inputs `build` generates. -/
theorem findBestSplit_total (objects : List Shape)
    (boundingBoxes : List AABB)
    (hlen : boundingBoxes.length = objects.length)
    (h2 : 2 ≤ objects.length) :
    ∃ s, findBestSplit objects boundingBoxes = some s ∧
      s.leftObjects ≠ [] ∧ s.rightObjects ≠ [] := by
  have hy : (([Axis.x, Axis.y].foldl (axisStep objects boundingBoxes)
      ((⊤ : WithTop ℚ), none)).2).isSome := by
    simp only [List.foldl_cons, List.foldl_nil]
    exact axisStep_isSome_preserve _ _ _ _
      (axisStep_establish objects boundingBoxes Axis.x hlen h2)
  obtain ⟨s, hs⟩ := Option.isSome_iff_exists.mp hy
  have hsound := findBestSplit_sound objects boundingBoxes hlen s hs
  exact ⟨s, hs, hsound.1, hsound.2.1⟩

/-- All shapes stored below a node (leaf object lists, left to right);
used only by the verification, not by the engine. -/
def treeObjs : BVHNode → List Shape
  | .mk _ objs leaf l r =>
      if leaf then objs
      else
        (match l with
          | some n => treeObjs n
          | none => []) ++
        (match r with
          | some n => treeObjs n
          | none => [])

/-- Structural well-formedness of a BVH tree: every leaf holds at most
`m` objects and no children; every internal node holds no objects and
exactly two children, both well-formed. -/
def goodTree (m : ℕ) : BVHNode → Prop
  | .mk _ objs leaf l r =>
      if leaf = true then objs.length ≤ m ∧ l = none ∧ r = none
      else objs = [] ∧
        (match l with
          | some ln => goodTree m ln
          | none => False) ∧
        (match r with
          | some rn => goodTree m rn
          | none => False)

/-- `BVH.build`: combined bounding box of all inputs; a leaf when
`count ≤ maxObjectsPerLeaf`; otherwise split by SAH, falling back to a
leaf when the split is missing or degenerate (an empty side); else an
internal node with both children built recursively.  Internal nodes keep
the empty `objects` list the `BVHNode` constructor initialises. -/
def build (maxObjectsPerLeaf : ℕ) (objects : List Shape) : BVHNode :=
  let boundingBoxes := objects.map Shape.bbox
  let nodeBB := computeBoundingBox boundingBoxes
  if objects.length ≤ maxObjectsPerLeaf then
    .mk nodeBB objects true none none
  else
    match hsplit : findBestSplit objects boundingBoxes with
    | none => .mk nodeBB objects true none none
    | some split =>
        if hdeg : split.leftObjects.length = 0 ∨ split.rightObjects.length = 0 then
          .mk nodeBB objects true none none
        else
          .mk nodeBB [] false
            (some (build maxObjectsPerLeaf split.leftObjects))
            (some (build maxObjectsPerLeaf split.rightObjects))
termination_by objects.length
decreasing_by
  all_goals
    have hperm := findBestSplit_perm objects (objects.map Shape.bbox)
      (by simp) split hsplit
    have hlen := hperm.length_eq
    simp [List.length_append] at hlen
    omega

/-- When at least one object per leaf is allowed (the engine always
passes 4), `build` returns a well-formed tree: every leaf within the
bound, every internal node with exactly two children — the degenerate
fallback leaf is never taken, because `findBestSplit` always accepts a
candidate for two or more objects. -/
theorem build_goodTree (m : ℕ) (objects : List Shape) :
    1 ≤ m → goodTree m (build m objects) := by
  induction objects using build.induct m with
  | case1 objs h =>
      intro hm
      rw [build, if_pos h]
      simp only [goodTree, if_pos]
      exact ⟨h, trivial, trivial⟩
  | case2 objs bbs h hsplit =>
      intro hm
      have hbbs : bbs = objs.map Shape.bbox := rfl
      rw [hbbs] at hsplit
      obtain ⟨s, hs, _, _⟩ := findBestSplit_total objs
        (objs.map Shape.bbox) (by simp) (by omega)
      rw [hs] at hsplit
      cases hsplit
  | case3 objs bbs h split hsplit hdeg =>
      intro hm
      have hbbs : bbs = objs.map Shape.bbox := rfl
      rw [hbbs] at hsplit
      obtain ⟨s, hs, hl, hr⟩ := findBestSplit_total objs
        (objs.map Shape.bbox) (by simp) (by omega)
      rw [hs] at hsplit
      cases hsplit
      rcases hdeg with hd | hd
      · exact absurd (List.eq_nil_of_length_eq_zero hd) hl
      · exact absurd (List.eq_nil_of_length_eq_zero hd) hr
  | case4 objs bbs h split hsplit hdeg ihl ihr =>
      have hbbs : bbs = objs.map Shape.bbox := rfl
      rw [hbbs] at hsplit
      intro hm
      rw [build, if_neg h]
      split
      · rename_i heq
        rw [hsplit] at heq
        cases heq
      · rename_i s heq
        rw [hsplit] at heq
        injection heq with heq
        subst heq
        rw [dif_neg hdeg]
        simp only [goodTree, if_neg]
        exact ⟨trivial, ihl hm, ihr hm⟩

/-- `build` loses no objects: the leaves of the returned tree hold a
permutation of the input. -/
theorem build_treeObjs_perm (m : ℕ) (objects : List Shape) :
    (treeObjs (build m objects)).Perm objects := by
  induction objects using build.induct m with
  | case1 objs h =>
      rw [build, if_pos h]
      simp only [treeObjs, if_pos]
      exact List.Perm.refl _
  | case2 objs bbs h hsplit =>
      have hbbs : bbs = objs.map Shape.bbox := rfl
      rw [hbbs] at hsplit
      rw [build, if_neg h]
      split
      · simp only [treeObjs, if_pos]
        exact List.Perm.refl _
      · rename_i s heq
        rw [hsplit] at heq
        cases heq
  | case3 objs bbs h split hsplit hdeg =>
      have hbbs : bbs = objs.map Shape.bbox := rfl
      rw [hbbs] at hsplit
      rw [build, if_neg h]
      split
      · simp only [treeObjs, if_pos]
        exact List.Perm.refl _
      · rename_i s heq
        rw [hsplit] at heq
        injection heq with heq
        subst heq
        rw [dif_pos hdeg]
        simp only [treeObjs, if_pos]
        exact List.Perm.refl _
  | case4 objs bbs h split hsplit hdeg ihl ihr =>
      have hbbs : bbs = objs.map Shape.bbox := rfl
      rw [hbbs] at hsplit
      rw [build, if_neg h]
      split
      · rename_i heq
        rw [hsplit] at heq
        cases heq
      · rename_i s heq
        rw [hsplit] at heq
        injection heq with heq
        subst heq
        rw [dif_neg hdeg]
        simp only [treeObjs, if_neg]
        exact (ihl.append ihr).trans
          (findBestSplit_perm objs (objs.map Shape.bbox) (by simp)
            split hsplit)

/-- The `BVH` wrapper: `maxObjectsPerLeaf` and the root, which stays
`null` when the constructor receives no objects. -/
structure BVH where
  maxObjectsPerLeaf : ℕ
  root : Option BVHNode

/-- The `BVH` constructor (`new BVH(objects, maxObjectsPerLeaf)`). -/
def BVH.new (objects : List Shape) (maxObjectsPerLeaf : ℕ) : BVH :=
  ⟨maxObjectsPerLeaf,
    if objects.length > 0 then some (build maxObjectsPerLeaf objects)
    else none⟩

/-- Whether the traversal skips a shape: the object the ray is currently
inside is excluded by id (`currentMedium && object.id === currentMedium.id`),
identically in the BVH leaves and in the brute-force scan. -/
def skipsShape (currentMedium : Option Shape) (obj : Shape) : Bool :=
  match currentMedium with
  | some m => obj.id = m.id
  | none => false

/-- `BVH.traverseNode`: reject the subtree when the ray misses the
node's box; at a leaf, collect the hits against all non-skipped objects
and reduce with `Intersection.closest`; at an internal node, query both
children (a `null` child yields `noHit`) and keep the closer. -/
def traverseNode (sq : ℚ → ℚ) (ray : Ray) (currentMedium : Option Shape) :
    BVHNode → Intersection
  | .mk bb objs leaf l r =>
      if intersectsAABB ray bb = false then Intersection.noHit
      else if leaf then
        Intersection.closest
          (objs.filterMap fun obj =>
            if skipsShape currentMedium obj then none
            else
              let intersection := rayObjectIntersection sq ray obj
              if intersection.hit then some intersection else none)
      else
        let leftIntersection := match l with
          | some n => traverseNode sq ray currentMedium n
          | none => Intersection.noHit
        let rightIntersection := match r with
          | some n => traverseNode sq ray currentMedium n
          | none => Intersection.noHit
        if leftIntersection.hit = false then rightIntersection
        else if rightIntersection.hit = false then leftIntersection
        else if leftIntersection.distance < rightIntersection.distance then
          leftIntersection
        else rightIntersection

/-- `BVH.traverse`: `noHit` for an absent root, else `traverseNode`. -/
def BVH.traverse (bvh : BVH) (sq : ℚ → ℚ) (ray : Ray)
    (currentMedium : Option Shape) : Intersection :=
  match bvh.root with
  | none => Intersection.noHit
  | some root => traverseNode sq ray currentMedium root

/-! ### Ray tracer (`RayTracer.js`, final variant) -/

/-- The tracer settings (constructor defaults: `maxBounces 5`,
`minIntensity 0.01`, `airRefractiveIndex 1.0`, canvas `800×600`;
`useBVH: settings.useBVH || true` makes `useBVH` always truthy in the
source, but the field is kept and consulted where the source consults
it). -/
structure Settings where
  maxBounces : ℕ
  minIntensity : ℚ
  airRefractiveIndex : ℚ
  canvasWidth : ℚ
  canvasHeight : ℚ
  useBVH : Bool

/-- The constructor defaults. -/
def defaultSettings : Settings :=
  ⟨5, 1 / 100, 1, 800, 600, true⟩

/-- A light source (`FocalPoint.js`) as `traceFocalPoint` reads it.  The
directions the source generates with `cos`/`sin` around the perimeter
are transcendental, so the generated lists (`getRayOriginsAndDirections`
for surface emission, `getRayDirections` otherwise) are carried as data;
no claim depends on their values. -/
structure FocalPoint where
  position : V
  rayLength : ℚ
  emitFromSurface : Bool
  surfaceRays : List (V × V)
  rayDirections : List V

/-- The scene store fields the tracer reads. -/
structure Scene where
  objects : List Shape
  targets : List Shape
  focalPoints : List FocalPoint

/-- An output segment.  The source builds a tree of mutable records
`{start, end, intensity, hitsTarget, parent, children}` linked by
JavaScript references; here the segments live in an append-only arena
(a list) and `parent` / `children` hold arena indices.  `stop` stands
for the reserved word `end`. -/
structure Segment where
  start : V
  stop : V
  intensity : ℚ
  hitsTarget : Bool
  parent : Option ℕ
  children : List ℕ
deriving DecidableEq

/-- A pending work-queue entry `{ray, medium, distance, startPoint,
segments, parent}`.  The `segments` array the source stores is always
the children array of `parent` (or the top-level list when `parent` is
`null`), so it is determined by `parent` and not stored separately. -/
structure QEntry where
  ray : Ray
  medium : Option Shape
  distance : ℚ
  startPoint : V
  parent : Option ℕ

/-- The tracing state of one `traceRay` call: the segment arena, the
indices of the top-level segments, and the pending queue. -/
structure TState where
  arena : List Segment
  roots : List ℕ
  queue : List QEntry

/-- Append a segment to the arena and register it in its parent's
children array (or in the top-level list), mirroring
`parentSegments.push(segment)`.  Returns the new index. -/
def pushSegment (st : TState) (parent : Option ℕ) (seg : Segment) :
    TState × ℕ :=
  let idx := st.arena.length
  let arena := st.arena ++ [seg]
  match parent with
  | none => (⟨arena, st.roots ++ [idx], st.queue⟩, idx)
  | some p =>
      (⟨arena.modify (fun s => { s with children := s.children ++ [idx] }) p,
        st.roots, st.queue⟩, idx)

/-- `RayTracer.markPathToTarget`: walk the `parent` chain setting
`hitsTarget = true` on every ancestor.  The source walks object
references; here the walk follows arena indices, with a fuel argument
(always called with the arena size) standing in for the guarantee that
reference chains in a trace are finite — parents are created before
their children, so indices strictly decrease along the chain. -/
def markPathToTarget (arena : List Segment) :
    Option ℕ → ℕ → List Segment
  | none, _ => arena
  | some _, 0 => arena
  | some i, fuel + 1 =>
      match arena.get? i with
      | none => arena
      | some seg =>
          markPathToTarget
            (arena.set i { seg with hitsTarget := true }) seg.parent fuel

/-- The list of indices the `markPathToTarget` walk visits. -/
def parentChain (arena : List Segment) :
    Option ℕ → ℕ → List ℕ
  | none, _ => []
  | some _, 0 => []
  | some i, fuel + 1 =>
      match arena.get? i with
      | none => []
      | some seg => i :: parentChain arena seg.parent fuel

/-- `RayTracer.getCanvasBoundaryDistance`: intersect the ray with the
four canvas edges (left, right, top, bottom, in the source's push
order), keeping crossings with `t > 0` whose crossing point lies within
the edge's extent; return the minimum, or `null` when there is none. -/
def getCanvasBoundaryDistance (settings : Settings) (ray : Ray) :
    Option ℚ :=
  let leftEdge : List ℚ :=
    if ray.direction.x ≠ 0 then
      let t := -ray.origin.x / ray.direction.x
      if 0 < t then
        let y := ray.origin.y + t * ray.direction.y
        if 0 ≤ y ∧ y ≤ settings.canvasHeight then [t] else []
      else []
    else []
  let rightEdge : List ℚ :=
    if ray.direction.x ≠ 0 then
      let t := (settings.canvasWidth - ray.origin.x) / ray.direction.x
      if 0 < t then
        let y := ray.origin.y + t * ray.direction.y
        if 0 ≤ y ∧ y ≤ settings.canvasHeight then [t] else []
      else []
    else []
  let topEdge : List ℚ :=
    if ray.direction.y ≠ 0 then
      let t := -ray.origin.y / ray.direction.y
      if 0 < t then
        let x := ray.origin.x + t * ray.direction.x
        if 0 ≤ x ∧ x ≤ settings.canvasWidth then [t] else []
      else []
    else []
  let bottomEdge : List ℚ :=
    if ray.direction.y ≠ 0 then
      let t := (settings.canvasHeight - ray.origin.y) / ray.direction.y
      if 0 < t then
        let x := ray.origin.x + t * ray.direction.x
        if 0 ≤ x ∧ x ≤ settings.canvasWidth then [t] else []
      else []
    else []
  (leftEdge ++ rightEdge ++ topEdge ++ bottomEdge).min?

/-- `RayTracer.findContainingObject`: scan the object list from top
(last added) to bottom, returning the first object whose
`containsPoint` accepts the point. -/
def findContainingObject (scene : Scene) (point : V) : Option Shape :=
  scene.objects.reverse.find? fun obj => obj.contains point

/-- `RayTracer.findClosestIntersectionBruteForce`: test all objects and
targets except the current medium (matched by id), keep the hits, and
reduce with `Intersection.closest`. -/
def findClosestIntersectionBruteForce (sq : ℚ → ℚ) (scene : Scene)
    (ray : Ray) (currentMedium : Option Shape) : Intersection :=
  let allObjects := scene.objects ++ scene.targets
  Intersection.closest
    (allObjects.filterMap fun obj =>
      if skipsShape currentMedium obj then none
      else
        let intersection := rayObjectIntersection sq ray obj
        if intersection.hit then some intersection else none)

/-- `RayTracer.findClosestIntersection` (final variant): the exit
intersection through the current medium (when inside one), the
BVH-or-brute-force query over the rest, the closer of the two, plus the
`isTarget` flag read off the winning object's type. -/
def findClosestIntersection (sq : ℚ → ℚ) (settings : Settings)
    (scene : Scene) (bvh : Option BVH) (ray : Ray)
    (currentMedium : Option Shape) : Intersection × Bool :=
  let exitIntersection := match currentMedium with
    | some m => rayObjectIntersection sq ray m
    | none => Intersection.noHit
  let otherIntersection :=
    match settings.useBVH, bvh with
    | true, some b => b.traverse sq ray currentMedium
    | _, _ => findClosestIntersectionBruteForce sq scene ray currentMedium
  let closestIntersection :=
    if exitIntersection.hit ∧ otherIntersection.hit then
      if exitIntersection.distance < otherIntersection.distance then
        exitIntersection
      else otherIntersection
    else if exitIntersection.hit then exitIntersection
    else if otherIntersection.hit then otherIntersection
    else Intersection.noHit
  let isTarget := match closestIntersection.obj with
    | some o => o.isTarget
    | none => false
  (closestIntersection, isTarget)

/-- The refractive-index pair `calculateNextRays` selects: `n1` is the
current medium's index (air when `null`), `n2` is air when inside a
medium and the hit material's index otherwise. -/
def refractionIndices (settings : Settings) (currentMedium : Option Shape)
    (material : Material) : ℚ × ℚ :=
  (match currentMedium with
    | some m => m.material.refractiveIndex
    | none => settings.airRefractiveIndex,
   match currentMedium with
    | some _ => settings.airRefractiveIndex
    | none => material.refractiveIndex)

/-- Result of `calculateNextRays`:
`{reflected, refracted, reflectedMedium, refractedMedium}` (the
reflected ray exists on both paths). -/
structure NextRays where
  reflected : Ray
  refracted : Option Ray
  reflectedMedium : Option Shape
  refractedMedium : Option Shape

/-- The medium the refracted ray enters
(`currentMedium ? null : intersection.object`). -/
def flipMedium (currentMedium : Option Shape) (obj : Shape) : Option Shape :=
  match currentMedium with
  | some _ => none
  | none => some obj

/-- The two outcomes of the refraction attempt in `calculateNextRays`,
split on the result of `refract`: both spawned children on success,
the reflected ray alone (multiplier `1.0`) on total internal
reflection. -/
def nextRaysOf (sq : ℚ → ℚ) (ray : Ray) (point reflectedDir : V)
    (reflectivity : ℚ) (currentMedium newMedium : Option Shape) :
    Option V → NextRays
  | some rd =>
      ⟨ray.spawn sq point reflectedDir reflectivity,
        some (ray.spawn sq point rd (1 - reflectivity)),
        currentMedium, newMedium⟩
  | none =>
      ⟨ray.spawn sq point reflectedDir 1, none, currentMedium, none⟩

/-- `RayTracer.calculateNextRays` (final variant): reflect always;
attempt refraction with the indices of `refractionIndices`; on success
spawn both children (`reflectivity` / `1 − reflectivity`), the refracted
one entering `null ⇄ hit object`; on total internal reflection spawn the
reflected ray alone with multiplier `1.0`.  The `intersection.object`
dereference is guarded in the source by the object branch; `dummyShape`
stands for the impossible `null`. -/
def calculateNextRays (sq : ℚ → ℚ) (settings : Settings) (ray : Ray)
    (intersection : Intersection) (currentMedium : Option Shape) :
    NextRays :=
  let obj := intersection.obj.getD dummyShape
  let reflectivity := obj.material.reflectivity
  let n := refractionIndices settings currentMedium obj.material
  let reflectedDir := LightCalculator.reflect ray.direction intersection.normal
  let refractedDir :=
    LightCalculator.refract sq ray.direction intersection.normal n.1 n.2
  nextRaysOf sq ray intersection.point reflectedDir reflectivity
    currentMedium (flipMedium currentMedium obj) refractedDir

/-- `calculateNextRays` in applied form, for case analysis on the
refraction result. -/
theorem calculateNextRays_eq (sq : ℚ → ℚ) (settings : Settings) (ray : Ray)
    (intersection : Intersection) (currentMedium : Option Shape) :
    calculateNextRays sq settings ray intersection currentMedium =
      nextRaysOf sq ray intersection.point
        (LightCalculator.reflect ray.direction intersection.normal)
        (intersection.obj.getD dummyShape).material.reflectivity
        currentMedium
        (flipMedium currentMedium (intersection.obj.getD dummyShape))
        (LightCalculator.refract sq ray.direction intersection.normal
          (refractionIndices settings currentMedium
            (intersection.obj.getD dummyShape).material).1
          (refractionIndices settings currentMedium
            (intersection.obj.getD dummyShape).material).2) := rfl

/-- What the processed queue entry terminates on, after the candidate
collection and distance sort of `traceRay`. -/
inductive HitKind where
  | canvas (distance : ℚ)
  | target
  | object
deriving DecidableEq

/-- The candidate selection of `traceRay`: the object/target candidate
(present when the intersection hit) and the canvas candidate (present
when the boundary distance is not `null`) are pushed in that order and
stably sorted by distance, so the intersection wins ties. -/
def closestCandidate (intersection : Intersection) (isTarget : Bool)
    (canvasBoundaryDist : Option ℚ) : Option HitKind :=
  match intersection.hit, canvasBoundaryDist with
  | false, none => none
  | true, none => some (if isTarget then .target else .object)
  | false, some d => some (.canvas d)
  | true, some d =>
      if (d : WithTop ℚ) < intersection.distance then some (.canvas d)
      else some (if isTarget then .target else .object)

/-- The static context of one trace: the sqrt model, the settings, the
scene snapshot and the (possibly absent) BVH. -/
structure Ctx where
  sq : ℚ → ℚ
  settings : Settings
  scene : Scene
  bvh : Option BVH

/-- The canvas branch of the loop body: a terminal segment to the
boundary point, no children. -/
def stepCanvas (e : QEntry) (st : TState) (d : ℚ) : TState :=
  (pushSegment st e.parent
    ⟨e.startPoint, e.ray.pointAt d, e.ray.intensity, false,
      e.parent, []⟩).1

/-- The target branch of the loop body: a terminal segment to the
target point with `hitsTarget = true`, followed by
`markPathToTarget(parentSegment)`; no children. -/
def stepTarget (e : QEntry) (st : TState) (intersection : Intersection) :
    TState :=
  let st1 := (pushSegment st e.parent
    ⟨e.startPoint, intersection.point, e.ray.intensity, true,
      e.parent, []⟩).1
  { st1 with
    arena := markPathToTarget st1.arena e.parent st1.arena.length }

/-- The queue entries the object branch pushes: always the reflected
ray, then the refracted ray when present, both with the new remaining
distance, the hit point as origin, and the fresh segment as parent
(the source pushes the two entries one after the other onto the live
queue). -/
def spawnEntries (nextRays : NextRays) (newRemainingDistance : ℚ)
    (point : V) (idx : ℕ) : List QEntry :=
  let q1 := [⟨nextRays.reflected, nextRays.reflectedMedium,
    newRemainingDistance, point, some idx⟩]
  match nextRays.refracted with
  | some rr => q1 ++
      [⟨rr, nextRays.refractedMedium, newRemainingDistance, point,
        some idx⟩]
  | none => q1

/-- The spawning part of the object branch, operating on the state with
the segment already emitted (`st1`) and its index (`idx`): stop when the
intersection consumed the remaining distance, when no distance is left
afterwards, or when the bounce budget is exhausted; otherwise enqueue
the children computed by `calculateNextRays`. -/
def stepObjectChildren (ctx : Ctx) (e : QEntry) (st1 : TState) (idx : ℕ)
    (intersection : Intersection) : TState :=
  if (e.distance : WithTop ℚ) ≤ intersection.distance then st1
  else if e.distance - intersection.distance.untop' 0 ≤ 0 ∨
      ctx.settings.maxBounces ≤ e.ray.generation then st1
  else
    { st1 with
      queue := st1.queue ++
        spawnEntries
          (calculateNextRays ctx.sq ctx.settings e.ray intersection
            e.medium)
          (e.distance - intersection.distance.untop' 0)
          intersection.point idx }

/-- The object branch of the loop body: a segment to the hit point, then
children enqueued only when trace distance and bounce budget remain. -/
def stepObject (ctx : Ctx) (e : QEntry) (st : TState)
    (intersection : Intersection) : TState :=
  let pushed := pushSegment st e.parent
    ⟨e.startPoint, intersection.point, e.ray.intensity, false,
      e.parent, []⟩
  stepObjectChildren ctx e pushed.1 pushed.2 intersection

/-- One iteration of the `traceRay` work loop, processing the dequeued
entry `e` against the state `st` (whose `queue` holds the remaining
entries): drop when the intensity is below `minIntensity`; find the
nearest of the object/target intersection and the canvas boundary; skip
silently when there is no candidate; otherwise take the branch of the
nearest candidate. -/
def traceStep (ctx : Ctx) (e : QEntry) (st : TState) : TState :=
  if e.ray.intensity < ctx.settings.minIntensity then st
  else
    let found := findClosestIntersection ctx.sq ctx.settings ctx.scene
      ctx.bvh e.ray e.medium
    let intersection := found.1
    let canvasBoundaryDist := getCanvasBoundaryDistance ctx.settings e.ray
    match closestCandidate intersection found.2 canvasBoundaryDist with
    | none => st
    | some (.canvas d) => stepCanvas e st d
    | some .target => stepTarget e st intersection
    | some .object => stepObject ctx e st intersection

/-- `traceStep` with the intensity guard discharged, in dispatch form. -/
theorem traceStep_case (ctx : Ctx) (e : QEntry) (st : TState)
    (h : ¬ e.ray.intensity < ctx.settings.minIntensity) :
    traceStep ctx e st =
      match closestCandidate
          (findClosestIntersection ctx.sq ctx.settings ctx.scene ctx.bvh
            e.ray e.medium).1
          (findClosestIntersection ctx.sq ctx.settings ctx.scene ctx.bvh
            e.ray e.medium).2
          (getCanvasBoundaryDistance ctx.settings e.ray) with
      | none => st
      | some (.canvas d) => stepCanvas e st d
      | some .target => stepTarget e st
          (findClosestIntersection ctx.sq ctx.settings ctx.scene ctx.bvh
            e.ray e.medium).1
      | some .object => stepObject ctx e st
          (findClosestIntersection ctx.sq ctx.settings ctx.scene ctx.bvh
            e.ray e.medium).1 := by
  unfold traceStep
  rw [if_neg h]

/-- `traceStep` when the entry's intensity is below the cutoff. -/
theorem traceStep_drop (ctx : Ctx) (e : QEntry) (st : TState)
    (h : e.ray.intensity < ctx.settings.minIntensity) :
    traceStep ctx e st = st := by
  unfold traceStep
  rw [if_pos h]

/-- Termination weight of a queue entry: children are enqueued only
while `generation < maxBounces` and always with `generation + 1`. -/
def entryWeight (maxBounces : ℕ) (e : QEntry) : ℕ :=
  3 ^ (maxBounces + 1 - e.ray.generation)

/-- Total termination weight of a queue. -/
def queueMeasure (maxBounces : ℕ) (q : List QEntry) : ℕ :=
  (q.map (entryWeight maxBounces)).sum

theorem pushSegment_queue (st : TState) (p : Option ℕ) (seg : Segment) :
    (pushSegment st p seg).1.queue = st.queue := by
  cases p <;> rfl

theorem spawn_generation (sq : ℚ → ℚ) (r : Ray) (o d : V) (m : ℚ) :
    (r.spawn sq o d m).generation = r.generation + 1 := rfl

theorem calculateNextRays_generation (sq : ℚ → ℚ) (settings : Settings)
    (ray : Ray) (intersection : Intersection) (med : Option Shape) :
    (calculateNextRays sq settings ray intersection med).reflected.generation
        = ray.generation + 1 ∧
      ∀ rr, (calculateNextRays sq settings ray intersection med).refracted
        = some rr → rr.generation = ray.generation + 1 := by
  rw [calculateNextRays_eq]
  cases h : LightCalculator.refract sq ray.direction intersection.normal
      (refractionIndices settings med
        (intersection.obj.getD dummyShape).material).1
      (refractionIndices settings med
        (intersection.obj.getD dummyShape).material).2 with
  | none =>
      refine ⟨rfl, ?_⟩
      intro rr hrr
      simp only [nextRaysOf] at hrr
      cases hrr
  | some rd =>
      refine ⟨rfl, ?_⟩
      intro rr hrr
      simp only [nextRaysOf, Option.some.injEq] at hrr
      rw [← hrr]
      rfl

/-- Processing one entry strictly shrinks the queue measure: an entry of
weight `3^(B+1-g)` is removed, and at most two entries of weight
`3^(B-g)` are added, only when `g < B`. -/
theorem stepCanvas_queue (e : QEntry) (st : TState) (d : ℚ) :
    (stepCanvas e st d).queue = st.queue := by
  unfold stepCanvas
  rw [pushSegment_queue]

theorem stepTarget_queue (e : QEntry) (st : TState) (i : Intersection) :
    (stepTarget e st i).queue = st.queue := by
  unfold stepTarget
  rw [pushSegment_queue]

/-- The object branch either leaves the queue unchanged or appends the
one or two spawned entries, whose generation is the parent's plus one,
and only while `generation < maxBounces`. -/
theorem stepObject_queue (ctx : Ctx) (e : QEntry) (st : TState)
    (i : Intersection) :
    (stepObject ctx e st i).queue = st.queue ∨
      (e.ray.generation < ctx.settings.maxBounces ∧
        ∃ extra : List QEntry,
          (stepObject ctx e st i).queue = st.queue ++ extra ∧
            extra.length ≤ 2 ∧
            ∀ e' ∈ extra, e'.ray.generation = e.ray.generation + 1) := by
  unfold stepObject stepObjectChildren
  split
  · left
    rw [pushSegment_queue]
  · split
    · left
      rw [pushSegment_queue]
    · rename_i hguard
      right
      have hg : e.ray.generation < ctx.settings.maxBounces := by
        by_contra hcon
        exact hguard (Or.inr (by omega))
      refine ⟨hg, ?_⟩
      have hgen := calculateNextRays_generation ctx.sq ctx.settings e.ray
        i e.medium
      refine ⟨spawnEntries
        (calculateNextRays ctx.sq ctx.settings e.ray i e.medium)
        (e.distance - i.distance.untop' 0) i.point
        (pushSegment st e.parent
          ⟨e.startPoint, i.point, e.ray.intensity, false, e.parent, []⟩).2,
        ?_, ?_, ?_⟩
      · simp only [pushSegment_queue]
      · unfold spawnEntries
        split <;> simp
      · intro e' he'
        unfold spawnEntries at he'
        rcases hr : (calculateNextRays ctx.sq ctx.settings e.ray i
            e.medium).refracted with _ | rr
        · rw [hr] at he'
          simp only [List.mem_singleton] at he'
          rw [he']
          exact hgen.1
        · rw [hr] at he'
          simp only [List.cons_append, List.nil_append,
            List.mem_cons, List.mem_singleton, List.not_mem_nil] at he'
          rcases he' with h1 | h2 | h3
          · rw [h1]
            exact hgen.1
          · rw [h2]
            exact hgen.2 rr hr
          · cases h3

/-- Processing one entry strictly shrinks the queue measure: an entry of
weight `3^(B+1-g)` is removed, and at most two entries of weight
`3^(B-g)` are added, only when `g < B`. -/
theorem traceStep_measure (ctx : Ctx) (e : QEntry) (st : TState) :
    queueMeasure ctx.settings.maxBounces (traceStep ctx e st).queue <
      entryWeight ctx.settings.maxBounces e +
        queueMeasure ctx.settings.maxBounces st.queue := by
  have hw : 0 < entryWeight ctx.settings.maxBounces e :=
    Nat.pos_pow_of_pos _ (by omega)
  by_cases hdrop : e.ray.intensity < ctx.settings.minIntensity
  · rw [traceStep_drop ctx e st hdrop]
    omega
  · rw [traceStep_case ctx e st hdrop]
    split
    · omega
    · rw [stepCanvas_queue]
      omega
    · rw [stepTarget_queue]
      omega
    · rcases stepObject_queue ctx e st
        (findClosestIntersection ctx.sq ctx.settings ctx.scene ctx.bvh
          e.ray e.medium).1 with hq | ⟨hg, extra, hq, hlen, hgen⟩
      · rw [hq]
        omega
      · rw [hq]
        have hwt : ∀ e' ∈ extra, entryWeight ctx.settings.maxBounces e' =
            3 ^ (ctx.settings.maxBounces - e.ray.generation) := by
          intro e' he'
          simp only [entryWeight, hgen e' he']
          congr 1
          omega
        have hsum : (extra.map (entryWeight ctx.settings.maxBounces)).sum =
            extra.length * 3 ^ (ctx.settings.maxBounces - e.ray.generation) := by
          clear hq hlen
          induction extra with
          | nil => simp
          | cons a l ih =>
              simp only [List.map_cons, List.sum_cons, List.length_cons]
              rw [hwt a (by simp), ih (fun e' he' => hgen e' (by simp [he']))
                (fun e' he' => hwt e' (by simp [he']))]
              ring
        have hweight : entryWeight ctx.settings.maxBounces e =
            3 * 3 ^ (ctx.settings.maxBounces - e.ray.generation) := by
          simp only [entryWeight]
          rw [← pow_succ']
          congr 1
          omega
        have hpos : 0 < 3 ^ (ctx.settings.maxBounces - e.ray.generation) :=
          Nat.pos_pow_of_pos _ (by omega)
        simp only [queueMeasure, List.map_append, List.sum_append]
        rw [hsum, hweight]
        have : extra.length * 3 ^ (ctx.settings.maxBounces - e.ray.generation) ≤
            2 * 3 ^ (ctx.settings.maxBounces - e.ray.generation) :=
          Nat.mul_le_mul_right _ hlen
        omega

/-- The FIFO work loop of `traceRay`: dequeue from the front, process,
repeat until the queue drains. -/
def traceLoop (ctx : Ctx) (st : TState) : TState :=
  match h : st.queue with
  | [] => st
  | e :: rest => traceLoop ctx (traceStep ctx e ⟨st.arena, st.roots, rest⟩)
termination_by queueMeasure ctx.settings.maxBounces st.queue
decreasing_by
  rw [h]
  have := traceStep_measure ctx e ⟨st.arena, st.roots, rest⟩
  simp only [queueMeasure, List.map_cons, List.sum_cons] at this ⊢
  omega

/-- `RayTracer.traceRay`: seed the queue with the primary entry (medium,
full distance, origin as start point, no parent) and drain it.  The
source returns the top-level `segments` array; the returned state's
`roots` indices into `arena` carry the same forest. -/
def traceRay (ctx : Ctx) (ray : Ray) (maxDistance : ℚ)
    (currentMedium : Option Shape) : TState :=
  traceLoop ctx
    ⟨[], [],
      [⟨ray, currentMedium, maxDistance, ⟨ray.origin.x, ray.origin.y⟩, none⟩]⟩

/-- `RayTracer.traceFocalPoint`: one primary ray per emitted direction;
surface emission pairs each direction with a perimeter origin and
resolves the starting medium per origin, centre emission resolves it
once for the shared origin.  Every primary ray starts with intensity
`1.0` and generation `0`. -/
def traceFocalPoint (ctx : Ctx) (fp : FocalPoint) : List TState :=
  if fp.emitFromSurface then
    fp.surfaceRays.map fun od =>
      let startingMedium := findContainingObject ctx.scene od.1
      traceRay ctx (Ray.make ctx.sq od.1 od.2 1 0) fp.rayLength
        startingMedium
  else
    let startingMedium := findContainingObject ctx.scene fp.position
    fp.rayDirections.map fun d =>
      traceRay ctx (Ray.make ctx.sq fp.position d 1 0) fp.rayLength
        startingMedium

/-- The tracer's cached spatial index: the nullable `bvh` and the dirty
flag (initially `null` / `true`). -/
structure TracerState where
  bvh : Option BVH
  bvhDirty : Bool

/-- `RayTracer.rebuildBVH`: the dead `!useBVH` null-assignment is kept;
the BVH is then rebuilt over `objects ++ targets` with 4 objects per
leaf, or cleared when that list is empty; the dirty flag clears. -/
def rebuildBVH (settings : Settings) (scene : Scene) (ts : TracerState) :
    TracerState :=
  let ts1 := if settings.useBVH then ts else { ts with bvh := none }
  let allObjects := scene.objects ++ scene.targets
  if allObjects.length = 0 then { ts1 with bvh := none, bvhDirty := false }
  else
    { ts1 with bvh := some (BVH.new allObjects 4), bvhDirty := false }

/-- The rebuild condition of `traceAll`:
`if (this.bvhDirty || !this.bvh)`. -/
def traceAllRebuilds (ts : TracerState) : Bool :=
  ts.bvhDirty || ts.bvh.isNone

/-- The pure tracing part of `traceAll` (everything after the lazy
rebuild); one `TState` per primary ray, flattened across focal points
exactly as the source flattens the root segments. -/
def traceAllSegments (sq : ℚ → ℚ) (settings : Settings) (scene : Scene)
    (bvh : Option BVH) : List TState :=
  (scene.focalPoints.map (traceFocalPoint ⟨sq, settings, scene, bvh⟩)).flatten

/-- `RayTracer.traceAll`: rebuild the BVH when the dirty flag is set or
no BVH exists, then trace all focal points against the (frozen) index. -/
def traceAll (sq : ℚ → ℚ) (settings : Settings) (scene : Scene)
    (ts : TracerState) : TracerState × List TState :=
  let ts' := if traceAllRebuilds ts then rebuildBVH settings scene ts else ts
  (ts', traceAllSegments sq settings scene ts'.bvh)

/-! ### Arena infrastructure for the tracer invariants -/

/-- Complete description of the arena after `pushSegment`: the new
segment sits at the old length, the parent (when valid) gains the new
index at the end of its children, everything else is untouched. -/
theorem pushSegment_get? (st : TState) (p : Option ℕ) (seg : Segment)
    (hp : ∀ q, p = some q → q < st.arena.length) (j : ℕ) :
    (pushSegment st p seg).1.arena.get? j =
      if j = st.arena.length then some seg
      else
        (st.arena.get? j).map fun s0 =>
          if p = some j then
            { s0 with children := s0.children ++ [st.arena.length] }
          else s0 := by
  have hlen1 : (st.arena ++ [seg]).get? j =
      if j = st.arena.length then some seg else st.arena.get? j := by
    by_cases hj : j = st.arena.length
    · subst hj
      rw [if_pos rfl, List.get?_concat_length]
    · rw [if_neg hj]
      rcases Nat.lt_or_ge j st.arena.length with hlt | hge
      · exact List.get?_append hlt
      · have h1 : (st.arena ++ [seg]).get? j = none :=
          List.get?_len_le (by simp only [List.length_append,
            List.length_singleton]; omega)
        have h2 : st.arena.get? j = none := List.get?_len_le (by omega)
        rw [h1, h2]
  cases p with
  | none =>
      simp only [pushSegment]
      rw [hlen1]
      by_cases hj : j = st.arena.length
      · rw [if_pos hj, if_pos hj]
      · rw [if_neg hj, if_neg hj]
        cases st.arena.get? j <;> simp
  | some q =>
      have hq : q < st.arena.length := hp q rfl
      simp only [pushSegment]
      rw [List.get?_eq_getElem?, List.getElem?_modify,
        ← List.get?_eq_getElem?, hlen1]
      by_cases hj : j = st.arena.length
      · rw [if_pos hj, if_pos hj]
        have hqj : ¬ q = j := by omega
        simp [hqj]
      · rw [if_neg hj, if_neg hj]
        by_cases hqj : q = j
        · cases st.arena.get? j <;> simp [hqj]
        · have hqj' : ¬ (some q = some j) := by simp [hqj]
          cases st.arena.get? j <;> simp [hqj, hqj']

theorem pushSegment_length (st : TState) (p : Option ℕ) (seg : Segment) :
    (pushSegment st p seg).1.arena.length = st.arena.length + 1 := by
  cases p <;>
    simp [pushSegment, List.length_modify, List.length_append]

theorem pushSegment_idx (st : TState) (p : Option ℕ) (seg : Segment) :
    (pushSegment st p seg).2 = st.arena.length := by
  cases p <;> rfl

/-- Setting only the `hitsTarget` flag of one entry leaves every parent
pointer unchanged, so the walk's chain is unchanged. -/
theorem parentChain_set_hitsTarget (arena : List Segment) (i : ℕ)
    (s : Segment) (hi : arena.get? i = some s) :
    ∀ (fuel : ℕ) (p : Option ℕ),
      parentChain (arena.set i { s with hitsTarget := true }) p fuel =
        parentChain arena p fuel := by
  intro fuel
  induction fuel with
  | zero => intro p; cases p <;> rfl
  | succ f ih =>
      intro p
      cases p with
      | none => rfl
      | some k =>
          simp only [parentChain]
          have hset : (arena.set i { s with hitsTarget := true }).get? k =
              if i = k then some { s with hitsTarget := true }
              else arena.get? k := by
            rw [List.get?_eq_getElem?, List.getElem?_set,
              ← List.get?_eq_getElem?]
            have hilen : i < arena.length := by
              by_contra hcon
              rw [List.get?_len_le (by omega)] at hi
              cases hi
            by_cases hik : i = k
            · rw [if_pos hik, if_pos hik, if_pos hilen]
            · rw [if_neg hik, if_neg hik]
          rw [hset]
          by_cases hik : i = k
          · rw [if_pos hik, ← hik, hi]
            simp only
            rw [ih]
          · rw [if_neg hik]
            cases hk : arena.get? k with
            | none => rfl
            | some sk =>
                simp only
                rw [ih]

theorem markPathToTarget_succ_none (arena : List Segment) (i f : ℕ)
    (hi : arena.get? i = none) :
    markPathToTarget arena (some i) (f + 1) = arena := by
  simp only [markPathToTarget, hi]

theorem markPathToTarget_succ_some (arena : List Segment) (i f : ℕ)
    (s : Segment) (hi : arena.get? i = some s) :
    markPathToTarget arena (some i) (f + 1) =
      markPathToTarget (arena.set i { s with hitsTarget := true })
        s.parent f := by
  simp only [markPathToTarget, hi]

theorem parentChain_succ_none (arena : List Segment) (i f : ℕ)
    (hi : arena.get? i = none) :
    parentChain arena (some i) (f + 1) = [] := by
  simp only [parentChain, hi]

theorem parentChain_succ_some (arena : List Segment) (i f : ℕ)
    (s : Segment) (hi : arena.get? i = some s) :
    parentChain arena (some i) (f + 1) =
      i :: parentChain arena s.parent f := by
  simp only [parentChain, hi]

/-- Complete description of `markPathToTarget`: each entry keeps all its
fields, with `hitsTarget` forced to `true` exactly on the visited
chain. -/
theorem markPathToTarget_get? (fuel : ℕ) :
    ∀ (arena : List Segment) (p : Option ℕ) (j : ℕ),
      (markPathToTarget arena p fuel).get? j =
        (arena.get? j).map fun s =>
          if j ∈ parentChain arena p fuel then
            { s with hitsTarget := true }
          else s := by
  induction fuel with
  | zero =>
      intro arena p j
      cases p <;> simp [markPathToTarget, parentChain]
  | succ f ih =>
      intro arena p j
      cases p with
      | none => simp [markPathToTarget, parentChain]
      | some i =>
          cases hi : arena.get? i with
          | none =>
              rw [markPathToTarget_succ_none arena i f hi,
                parentChain_succ_none arena i f hi]
              simp
          | some s =>
              rw [markPathToTarget_succ_some arena i f s hi,
                parentChain_succ_some arena i f s hi]
              rw [ih]
              rw [parentChain_set_hitsTarget arena i s hi]
              have hilen : i < arena.length := by
                by_contra hcon
                rw [List.get?_len_le (by omega)] at hi
                cases hi
              have hset : (arena.set i { s with hitsTarget := true }).get? j =
                  if i = j then some { s with hitsTarget := true }
                  else arena.get? j := by
                rw [List.get?_eq_getElem?, List.getElem?_set,
                  ← List.get?_eq_getElem?]
                by_cases hij : i = j
                · rw [if_pos hij, if_pos hij, if_pos hilen]
                · rw [if_neg hij, if_neg hij]
              rw [hset]
              by_cases hij : i = j
              · rw [if_pos hij]
                subst hij
                rw [hi]
                simp only [Option.map_some']
                by_cases hmem : i ∈ parentChain arena s.parent f
                · rw [if_pos hmem, if_pos (List.mem_cons_self i _)]
                · rw [if_neg hmem, if_pos (List.mem_cons_self i _)]
              · rw [if_neg hij]
                cases hj : arena.get? j with
                | none => rfl
                | some sj =>
                    simp only [Option.map_some']
                    by_cases hmem : j ∈ parentChain arena s.parent f
                    · rw [if_pos hmem,
                        if_pos (List.mem_cons_of_mem _ hmem)]
                    · rw [if_neg hmem, if_neg (by
                        intro hmem'
                        rcases List.mem_cons.mp hmem' with h1 | h2
                        · exact hij h1.symm
                        · exact hmem h2)]

theorem markPathToTarget_length (fuel : ℕ) :
    ∀ (arena : List Segment) (p : Option ℕ),
      (markPathToTarget arena p fuel).length = arena.length := by
  induction fuel with
  | zero => intro arena p; cases p <;> rfl
  | succ f ih =>
      intro arena p
      cases p with
      | none => rfl
      | some i =>
          simp only [markPathToTarget]
          cases hi : arena.get? i with
          | none => rfl
          | some s => rw [ih, List.length_set]

/-- Every index the walk visits points at an existing entry. -/
theorem parentChain_mem_isSome (fuel : ℕ) :
    ∀ (arena : List Segment) (p : Option ℕ) (j : ℕ),
      j ∈ parentChain arena p fuel → ∃ s, arena.get? j = some s := by
  induction fuel with
  | zero =>
      intro arena p j hj
      cases p <;> cases hj
  | succ f ih =>
      intro arena p j hj
      cases p with
      | none => cases hj
      | some i =>
          cases hi : arena.get? i with
          | none => rw [parentChain_succ_none arena i f hi] at hj; cases hj
          | some s =>
              rw [parentChain_succ_some arena i f s hi] at hj
              rcases List.mem_cons.mp hj with h1 | h2
              · exact ⟨s, h1 ▸ hi⟩
              · exact ih arena s.parent j h2

/-- Marking a path changes no parent pointer, so any walk on the marked
arena follows the same chain. -/
theorem parentChain_markPathToTarget (arena : List Segment)
    (p0 : Option ℕ) (f0 : ℕ) :
    ∀ (fuel : ℕ) (p : Option ℕ),
      parentChain (markPathToTarget arena p0 f0) p fuel =
        parentChain arena p fuel := by
  intro fuel
  induction fuel with
  | zero => intro p; cases p <;> rfl
  | succ f ih =>
      intro p
      cases p with
      | none => rfl
      | some i =>
          have hmark := markPathToTarget_get? f0 arena p0 i
          cases hi : arena.get? i with
          | none =>
              rw [hi] at hmark
              rw [parentChain_succ_none arena i f hi,
                parentChain_succ_none _ i f hmark]
          | some s =>
              rw [hi] at hmark
              rw [Option.map_some'] at hmark
              rw [parentChain_succ_some arena i f s hi]
              by_cases hmem : i ∈ parentChain arena p0 f0
              · rw [if_pos hmem] at hmark
                rw [parentChain_succ_some _ i f _ hmark]
                simp only
                rw [ih]
              · rw [if_neg hmem] at hmark
                rw [parentChain_succ_some _ i f s hmark]
                rw [ih]

/-- The arena invariant of the tracer: every stored parent index points
strictly below its segment — parents are pushed before children. -/
def ParentLt (arena : List Segment) : Prop :=
  ∀ j s q, arena.get? j = some s → s.parent = some q → q < j

/-- A walk with positive fuel starting at a live index visits it. -/
theorem parentChain_head (arena : List Segment) (i fuel : ℕ)
    (s : Segment) (hi : arena.get? i = some s) (hf : 1 ≤ fuel) :
    i ∈ parentChain arena (some i) fuel := by
  cases fuel with
  | zero => omega
  | succ f =>
      rw [parentChain_succ_some arena i f s hi]
      exact List.mem_cons_self i _

/-- With decreasing parents and enough fuel the chain is closed under
parents: the walk never stops short of the root. -/
theorem parentChain_closure (arena : List Segment)
    (hPL : ParentLt arena) :
    ∀ (fuel : ℕ) (p : Option ℕ),
      (∀ i, p = some i → i + 1 ≤ fuel) →
      ∀ j ∈ parentChain arena p fuel, ∀ s, arena.get? j = some s →
        ∀ q, s.parent = some q → q ∈ parentChain arena p fuel := by
  intro fuel
  induction fuel with
  | zero =>
      intro p hf j hj
      cases p <;> cases hj
  | succ f ih =>
      intro p hf j hj s hs q hq
      cases p with
      | none => cases hj
      | some i =>
          cases hi : arena.get? i with
          | none => rw [parentChain_succ_none arena i f hi] at hj; cases hj
          | some si =>
              rw [parentChain_succ_some arena i f si hi] at hj ⊢
              rcases List.mem_cons.mp hj with h1 | h2
              · rw [h1] at hs
                rw [hs] at hi
                injection hi with hsi
                have hqj : q < i := hPL i s q hs (hsi ▸ hq)
                have hilen : i < arena.length := by
                  by_contra hcon
                  rw [List.get?_len_le (by omega)] at hs
                  cases hs
                have hf' : i + 1 ≤ f + 1 := hf i rfl
                rw [← hsi, hq]
                refine List.mem_cons_of_mem _ ?_
                cases hqs : arena.get? q with
                | none =>
                    have := List.get?_eq_none.mp hqs
                    omega
                | some sq =>
                    exact parentChain_head arena q f sq hqs (by omega)
              · have hplt : ∀ i', si.parent = some i' → i' + 1 ≤ f := by
                  intro i' hi'
                  have : i' < i := hPL i si i' hi hi'
                  have := hf i rfl
                  omega
                exact List.mem_cons_of_mem _
                  (ih si.parent hplt j h2 s hs q hq)

/-- Pushing a segment whose parent pointer is in range keeps parents
decreasing: the new entry points below the end, old entries only gain
children. -/
theorem ParentLt_pushSegment (st : TState) (p : Option ℕ) (seg : Segment)
    (hPL : ParentLt st.arena)
    (hp : ∀ q, p = some q → q < st.arena.length)
    (hseg : ∀ q, seg.parent = some q → q < st.arena.length) :
    ParentLt (pushSegment st p seg).1.arena := by
  intro j s q hj hq
  rw [pushSegment_get? st p seg hp j] at hj
  by_cases hjn : j = st.arena.length
  · rw [if_pos hjn] at hj
    injection hj with hj
    rw [← hj] at hq
    have := hseg q hq
    omega
  · rw [if_neg hjn] at hj
    cases ha : st.arena.get? j with
    | none => rw [ha] at hj; cases hj
    | some s0 =>
        rw [ha, Option.map_some'] at hj
        injection hj with hj
        by_cases hpj : p = some j
        · rw [if_pos hpj] at hj
          rw [← hj] at hq
          exact hPL j s0 q ha hq
        · rw [if_neg hpj] at hj
          rw [← hj] at hq
          exact hPL j s0 q ha hq

/-- Marking a path only flips `hitsTarget` flags, so parents keep
decreasing. -/
theorem ParentLt_markPathToTarget (arena : List Segment) (p : Option ℕ)
    (f : ℕ) (hPL : ParentLt arena) :
    ParentLt (markPathToTarget arena p f) := by
  intro j s q hj hq
  rw [markPathToTarget_get? f arena p j] at hj
  cases ha : arena.get? j with
  | none => rw [ha] at hj; cases hj
  | some s0 =>
      rw [ha, Option.map_some'] at hj
      injection hj with hj
      by_cases hmem : j ∈ parentChain arena p f
      · rw [if_pos hmem] at hj
        rw [← hj] at hq
        exact hPL j s0 q ha hq
      · rw [if_neg hmem] at hj
        rw [← hj] at hq
        exact hPL j s0 q ha hq

/-- The well-formedness the work loop maintains: parent pointers in the
arena strictly decrease, and every queued entry's parent index is in
range. -/
def StateWF (st : TState) : Prop :=
  ParentLt st.arena ∧
    ∀ e ∈ st.queue, ∀ q, QEntry.parent e = some q → q < st.arena.length

theorem stepCanvas_arena (e : QEntry) (st : TState) (d : ℚ) :
    (stepCanvas e st d).arena =
      (pushSegment st e.parent
        ⟨e.startPoint, e.ray.pointAt d, e.ray.intensity, false,
          e.parent, []⟩).1.arena := rfl

theorem stepObject_arena (ctx : Ctx) (e : QEntry) (st : TState)
    (i : Intersection) :
    (stepObject ctx e st i).arena =
      (pushSegment st e.parent
        ⟨e.startPoint, i.point, e.ray.intensity, false,
          e.parent, []⟩).1.arena := by
  unfold stepObject stepObjectChildren
  split
  · rfl
  · split <;> rfl

/-- Each queue entry after the object branch is either an old one or a
spawned child pointing at the fresh segment. -/
theorem stepObject_queue_mem (ctx : Ctx) (e : QEntry) (st : TState)
    (i : Intersection) :
    ∀ e' ∈ (stepObject ctx e st i).queue,
      e' ∈ st.queue ∨ QEntry.parent e' = some st.arena.length := by
  intro e' he'
  simp only [stepObject, stepObjectChildren] at he'
  split at he'
  · rw [pushSegment_queue] at he'
    exact Or.inl he'
  · split at he'
    · rw [pushSegment_queue] at he'
      exact Or.inl he'
    · simp only [pushSegment_queue, pushSegment_idx] at he'
      rcases List.mem_append.mp he' with h1 | h2
      · exact Or.inl h1
      · right
        unfold spawnEntries at h2
        rcases hr : (calculateNextRays ctx.sq ctx.settings e.ray i
            e.medium).refracted with _ | rr
        · rw [hr] at h2
          simp only [List.mem_singleton] at h2
          rw [h2]
        · rw [hr] at h2
          simp only [List.cons_append, List.nil_append, List.mem_cons,
            List.mem_singleton, List.not_mem_nil, or_false] at h2
          rcases h2 with h2 | h2 <;> rw [h2]

/-- One loop iteration keeps the state well-formed, provided the
processed entry's own parent pointer is in range. -/
theorem traceStep_WF (ctx : Ctx) (e : QEntry) (st : TState)
    (he : ∀ q, QEntry.parent e = some q → q < st.arena.length)
    (h : StateWF st) : StateWF (traceStep ctx e st) := by
  obtain ⟨hPL, hQ⟩ := h
  by_cases hdrop : e.ray.intensity < ctx.settings.minIntensity
  · rw [traceStep_drop ctx e st hdrop]
    exact ⟨hPL, hQ⟩
  · rw [traceStep_case ctx e st hdrop]
    split
    · exact ⟨hPL, hQ⟩
    · constructor
      · rw [stepCanvas_arena]
        exact ParentLt_pushSegment st e.parent _ hPL he he
      · intro e' he' q hq
        rw [stepCanvas_queue] at he'
        have := hQ e' he' q hq
        rw [stepCanvas_arena, pushSegment_length]
        omega
    · constructor
      · show ParentLt (markPathToTarget _ e.parent _)
        exact ParentLt_markPathToTarget _ e.parent _
          (ParentLt_pushSegment st e.parent _ hPL he he)
      · intro e' he' q hq
        rw [stepTarget_queue] at he'
        have := hQ e' he' q hq
        show q < (markPathToTarget _ e.parent _).length
        rw [markPathToTarget_length, pushSegment_length]
        omega
    · constructor
      · rw [stepObject_arena]
        exact ParentLt_pushSegment st e.parent _ hPL he he
      · intro e' he' q hq
        rw [stepObject_arena, pushSegment_length]
        rcases stepObject_queue_mem ctx e st _ e' he' with hold | hnew
        · have := hQ e' hold q hq
          omega
        · rw [hnew] at hq
          injection hq with hq
          omega

/-- The drained loop keeps the state well-formed. -/
theorem traceLoop_WF (ctx : Ctx) (st : TState) (h : StateWF st) :
    StateWF (traceLoop ctx st) := by
  induction st using traceLoop.induct ctx with
  | case1 st hq =>
      rw [traceLoop]
      rw [hq]
      exact h
  | case2 st e rest hq ih =>
      rw [traceLoop]
      rw [hq]
      refine ih ?_
      refine traceStep_WF ctx e ⟨st.arena, st.roots, rest⟩ ?_ ⟨h.1, ?_⟩
      · intro q hqe
        exact h.2 e (by rw [hq]; exact List.mem_cons_self e rest) q hqe
      · intro e' he' q hq'
        exact h.2 e' (by rw [hq]; exact List.mem_cons_of_mem e he') q hq'

/-- `traceRay` starts well-formed (empty arena, one rootless entry), so
its result is well-formed; in particular parents strictly decrease in
the returned arena. -/
theorem traceRay_WF (ctx : Ctx) (ray : Ray) (maxDistance : ℚ)
    (currentMedium : Option Shape) :
    StateWF (traceRay ctx ray maxDistance currentMedium) := by
  refine traceLoop_WF ctx _ ⟨?_, ?_⟩
  · intro j s q hj hq
    cases j <;> cases hj
  · intro e he q hq
    simp only [List.mem_singleton] at he
    rw [he] at hq
    cases hq

/-- Full description of the target branch: the terminal segment (flag
set, no children, stopping at the intersection point) lands at the end
of the arena, the queue is untouched, every chain index is marked, and —
parents decreasing — the chain starts at the entry's parent and is
closed under parents, i.e. it is the whole path back to the root. -/
theorem stepTarget_spec (e : QEntry) (st : TState) (I : Intersection)
    (hp : ∀ q, QEntry.parent e = some q → q < st.arena.length)
    (hPL : ParentLt st.arena) :
    (stepTarget e st I).arena.get? st.arena.length =
        some ⟨e.startPoint, I.point, e.ray.intensity, true, e.parent, []⟩ ∧
      (stepTarget e st I).queue = st.queue ∧
      (stepTarget e st I).arena.length = st.arena.length + 1 ∧
      (∀ j ∈ parentChain (stepTarget e st I).arena e.parent
          (stepTarget e st I).arena.length,
        ∃ s, (stepTarget e st I).arena.get? j = some s ∧
          s.hitsTarget = true) ∧
      (∀ i, QEntry.parent e = some i →
        i ∈ parentChain (stepTarget e st I).arena e.parent
          (stepTarget e st I).arena.length) ∧
      (∀ j ∈ parentChain (stepTarget e st I).arena e.parent
          (stepTarget e st I).arena.length,
        ∀ s, (stepTarget e st I).arena.get? j = some s →
          ∀ q, s.parent = some q →
            q ∈ parentChain (stepTarget e st I).arena e.parent
              (stepTarget e st I).arena.length) := by
  set sg : Segment :=
    ⟨e.startPoint, I.point, e.ray.intensity, true, e.parent, []⟩ with hsg
  set A1 : List Segment := (pushSegment st e.parent sg).1.arena with hA1
  set N : ℕ := A1.length with hN
  have harena : (stepTarget e st I).arena = markPathToTarget A1 e.parent N := by
    rw [hN, hA1, hsg]
    rfl
  have hA1len : A1.length = st.arena.length + 1 := by
    rw [hA1]; exact pushSegment_length st e.parent sg
  have hPL1 : ParentLt A1 :=
    ParentLt_pushSegment st e.parent sg hPL hp hp
  have hlen : (stepTarget e st I).arena.length = st.arena.length + 1 := by
    rw [harena, markPathToTarget_length, hA1len]
  have hchain : ∀ (p : Option ℕ) (f : ℕ),
      parentChain (stepTarget e st I).arena p f = parentChain A1 p f := by
    intro p f
    rw [harena]
    exact parentChain_markPathToTarget A1 e.parent N f p
  have hget : ∀ j, (stepTarget e st I).arena.get? j =
      (A1.get? j).map fun s =>
        if j ∈ parentChain A1 e.parent N then
          { s with hitsTarget := true }
        else s := by
    intro j
    rw [harena]
    exact markPathToTarget_get? N A1 e.parent j
  have hA1n : A1.get? st.arena.length = some sg := by
    rw [hA1, pushSegment_get? st e.parent sg hp, if_pos rfl]
  have hfuel : ∀ i, QEntry.parent e = some i → i + 1 ≤ N := by
    intro i hi
    have := hp i hi
    rw [hN, hA1len]
    omega
  refine ⟨?_, stepTarget_queue e st I, hlen, ?_, ?_, ?_⟩
  · rw [hget, hA1n, Option.map_some']
    by_cases hmem : st.arena.length ∈ parentChain A1 e.parent N
    · rw [if_pos hmem, hsg]
    · rw [if_neg hmem, hsg]
  · intro j hj
    rw [hchain, hlen, ← hA1len, ← hN] at hj
    obtain ⟨s0, hs0⟩ := parentChain_mem_isSome N A1 e.parent j hj
    refine ⟨{ s0 with hitsTarget := true }, ?_, rfl⟩
    rw [hget, hs0, Option.map_some', if_pos hj]
  · intro i hi
    have hin : i < st.arena.length := hp i hi
    obtain ⟨s, hs⟩ : ∃ s, st.arena.get? i = some s := by
      cases hgi : st.arena.get? i with
      | none =>
          have := List.get?_eq_none.mp hgi
          omega
      | some s => exact ⟨s, rfl⟩
    obtain ⟨s1, hs1⟩ : ∃ s1, A1.get? i = some s1 := by
      rw [hA1, pushSegment_get? st e.parent sg hp, if_neg (by omega), hs,
        Option.map_some']
      exact ⟨_, rfl⟩
    rw [hchain, hlen, ← hA1len, ← hN, hi]
    exact parentChain_head A1 i N s1 hs1 (by rw [hN, hA1len]; omega)
  · intro j hj s hs q hq
    rw [hchain, hlen, ← hA1len, ← hN] at hj ⊢
    rw [hget] at hs
    cases hA1j : A1.get? j with
    | none => rw [hA1j] at hs; cases hs
    | some s0 =>
        rw [hA1j, Option.map_some'] at hs
        injection hs with hs
        have hq0 : s0.parent = some q := by
          by_cases hmem : j ∈ parentChain A1 e.parent N
          · rw [if_pos hmem] at hs
            rw [← hs] at hq
            exact hq
          · rw [if_neg hmem] at hs
            rw [← hs] at hq
            exact hq
        exact parentChain_closure A1 hPL1 N e.parent hfuel j hj s0 hA1j
          q hq0

/-! ### Where hit objects come from -/

/-- The edge-scan accumulator of `rayPolygonIntersection`. -/
def polyAcc (sq : ℚ → ℚ) (rayOrigin rayDir : V) (vertices : List V) :
    Option LineHit × WithTop ℚ :=
  (List.range vertices.length).foldl
    (fun (acc : Option LineHit × WithTop ℚ) i =>
      let p1 := vertices.getD i ⟨0, 0⟩
      let p2 := vertices.getD ((i + 1) % vertices.length) ⟨0, 0⟩
      match rayLineSegmentIntersection sq rayOrigin rayDir p1 p2 with
      | none => acc
      | some result =>
          if (result.t : WithTop ℚ) < acc.2 then
            (some result, (result.t : WithTop ℚ))
          else acc)
    (none, ⊤)

theorem rayPolygonIntersection_eq (sq : ℚ → ℚ) (rayOrigin rayDir : V)
    (vertices : List V) (obj : Shape) :
    rayPolygonIntersection sq rayOrigin rayDir vertices obj =
      match (polyAcc sq rayOrigin rayDir vertices).1 with
      | some lh =>
          ⟨true, (polyAcc sq rayOrigin rayDir vertices).2, lh.point,
            lh.normal, some obj⟩
      | none => Intersection.noHit := rfl

/-- A polygon hit is owned by the polygon's shape. -/
theorem rayPolygonIntersection_obj (sq : ℚ → ℚ) (rayOrigin rayDir : V)
    (vertices : List V) (obj : Shape)
    (h : (rayPolygonIntersection sq rayOrigin rayDir vertices obj).hit =
      true) :
    (rayPolygonIntersection sq rayOrigin rayDir vertices obj).obj =
      some obj := by
  rw [rayPolygonIntersection_eq] at h ⊢
  cases hacc : (polyAcc sq rayOrigin rayDir vertices).1 with
  | none =>
      rw [hacc] at h
      cases h
  | some lh => rfl

/-- `Intersection.closest` returns `noHit` or one of its inputs. -/
theorem closest_mem (l : List Intersection) :
    Intersection.closest l = Intersection.noHit ∨
      Intersection.closest l ∈ l := by
  unfold Intersection.closest
  generalize Intersection.noHit = init
  induction l generalizing init with
  | nil => exact Or.inl rfl
  | cons a t ih =>
      simp only [List.foldl_cons]
      have hstep : (if a.hit = false then init
          else if init.hit = false then a
          else if a.distance < init.distance then a else init) = init ∨
          (if a.hit = false then init
          else if init.hit = false then a
          else if a.distance < init.distance then a else init) = a := by
        split
        · exact Or.inl rfl
        · split
          · exact Or.inr rfl
          · split
            · exact Or.inr rfl
            · exact Or.inl rfl
      rcases ih (if a.hit = false then init
          else if init.hit = false then a
          else if a.distance < init.distance then a else init) with h | h
      · rcases hstep with h2 | h2
        · exact Or.inl (h.trans h2)
        · refine Or.inr ?_
          rw [h, h2]
          exact List.mem_cons_self a t
      · exact Or.inr (List.mem_cons_of_mem a h)

/-- A brute-force hit is owned by a scene object or target. -/
theorem bruteForce_obj (sq : ℚ → ℚ) (scene : Scene) (ray : Ray)
    (med : Option Shape)
    (h : (findClosestIntersectionBruteForce sq scene ray med).hit = true) :
    ∃ sh ∈ scene.objects ++ scene.targets,
      (findClosestIntersectionBruteForce sq scene ray med).obj = some sh := by
  unfold findClosestIntersectionBruteForce at h ⊢
  rcases closest_mem ((scene.objects ++ scene.targets).filterMap fun obj =>
      if skipsShape med obj then none
      else
        let intersection := rayObjectIntersection sq ray obj
        if intersection.hit then some intersection else none) with hc | hc
  · rw [hc] at h
    cases h
  · obtain ⟨sh, hsh, hfn⟩ := List.mem_filterMap.mp hc
    refine ⟨sh, hsh, ?_⟩
    by_cases hskip : skipsShape med sh
    · rw [if_pos hskip] at hfn
      cases hfn
    · rw [if_neg hskip] at hfn
      simp only at hfn
      by_cases hhit : (rayObjectIntersection sq ray sh).hit
      · rw [if_pos hhit] at hfn
        injection hfn with hfn
        rw [← hfn]
        exact rayPolygonIntersection_obj sq ray.origin ray.direction
          sh.vertices sh hhit
      · rw [if_neg hhit] at hfn
        cases hfn

/-- Number of nodes of a BVH tree, for induction over traversals. -/
def nodeSize : BVHNode → ℕ
  | .mk _ _ _ l r =>
      1 + (match l with
        | some n => nodeSize n
        | none => 0) +
      (match r with
        | some n => nodeSize n
        | none => 0)

theorem nodeSize_left (bb : Option AABB) (objs : List Shape)
    (leaf : Bool) (r : Option BVHNode) (ln : BVHNode) :
    nodeSize ln < nodeSize (.mk bb objs leaf (some ln) r) := by
  have hz : nodeSize (BVHNode.mk bb objs leaf (some ln) r) =
      1 + nodeSize ln +
        (match r with
          | some nd => nodeSize nd
          | none => 0) := by
    rw [nodeSize.eq_def]
  rw [hz]
  omega

theorem nodeSize_right (bb : Option AABB) (objs : List Shape)
    (leaf : Bool) (l : Option BVHNode) (rn : BVHNode) :
    nodeSize rn < nodeSize (.mk bb objs leaf l (some rn)) := by
  have hz : nodeSize (BVHNode.mk bb objs leaf l (some rn)) =
      1 + (match l with
        | some nd => nodeSize nd
        | none => 0) + nodeSize rn := by
    rw [nodeSize.eq_def]
  rw [hz]
  omega

theorem nodeSize_pos (node : BVHNode) : 0 < nodeSize node := by
  obtain ⟨bb, objs, leaf, l, r⟩ := node
  have hz : nodeSize (BVHNode.mk bb objs leaf l r) =
      1 + (match l with
        | some nd => nodeSize nd
        | none => 0) +
      (match r with
        | some nd => nodeSize nd
        | none => 0) := by
    rw [nodeSize.eq_def]
  rw [hz]
  omega

/-- `traverseNode` applied to a constructor, for rewriting. -/
theorem traverseNode_mk (sq : ℚ → ℚ) (ray : Ray) (med : Option Shape)
    (bb : Option AABB) (objs : List Shape) (leaf : Bool)
    (l r : Option BVHNode) :
    traverseNode sq ray med (.mk bb objs leaf l r) =
      if intersectsAABB ray bb = false then Intersection.noHit
      else if leaf then
        Intersection.closest
          (objs.filterMap fun obj =>
            if skipsShape med obj then none
            else
              let intersection := rayObjectIntersection sq ray obj
              if intersection.hit then some intersection else none)
      else
        let leftIntersection := match l with
          | some n => traverseNode sq ray med n
          | none => Intersection.noHit
        let rightIntersection := match r with
          | some n => traverseNode sq ray med n
          | none => Intersection.noHit
        if leftIntersection.hit = false then rightIntersection
        else if rightIntersection.hit = false then leftIntersection
        else if leftIntersection.distance < rightIntersection.distance then
          leftIntersection
        else rightIntersection := by
  rw [traverseNode.eq_def]

/-- A BVH-traversal hit is owned by a shape stored in the tree. -/
theorem traverseNode_obj (sq : ℚ → ℚ) (ray : Ray) (med : Option Shape) :
    ∀ node : BVHNode,
      (traverseNode sq ray med node).hit = true →
        ∃ sh ∈ treeObjs node, (traverseNode sq ray med node).obj =
          some sh := by
  suffices hN : ∀ (n : ℕ) (node : BVHNode), nodeSize node ≤ n →
      (traverseNode sq ray med node).hit = true →
        ∃ sh ∈ treeObjs node, (traverseNode sq ray med node).obj =
          some sh by
    intro node
    exact hN (nodeSize node) node le_rfl
  intro n
  induction n with
  | zero =>
      intro node hle
      have := nodeSize_pos node
      omega
  | succ n ih =>
      intro node hle
      obtain ⟨bb, objs, leaf, l, r⟩ := node
      intro h
      by_cases hbox : intersectsAABB ray bb = false
      · rw [traverseNode_mk, if_pos hbox] at h
        cases h
      · by_cases hleaf : leaf = true
        · rw [traverseNode_mk, if_neg hbox, if_pos hleaf] at h ⊢
          rcases closest_mem (objs.filterMap fun obj =>
              if skipsShape med obj then none
              else
                let intersection := rayObjectIntersection sq ray obj
                if intersection.hit then some intersection else none)
            with hc | hc
          · rw [hc] at h
            cases h
          · obtain ⟨sh, hsh, hfn⟩ := List.mem_filterMap.mp hc
            refine ⟨sh, ?_, ?_⟩
            · show sh ∈ treeObjs (.mk bb objs leaf l r)
              unfold treeObjs
              rw [if_pos hleaf]
              exact hsh
            · by_cases hskip : skipsShape med sh
              · rw [if_pos hskip] at hfn
                cases hfn
              · rw [if_neg hskip] at hfn
                simp only at hfn
                by_cases hhit : (rayObjectIntersection sq ray sh).hit
                · rw [if_pos hhit] at hfn
                  injection hfn with hfn
                  rw [← hfn]
                  exact rayPolygonIntersection_obj sq ray.origin
                    ray.direction sh.vertices sh hhit
                · rw [if_neg hhit] at hfn
                  cases hfn
        · have hmem : ∀ sh,
              (sh ∈ (match l with
                | some nd => treeObjs nd
                | none => []) ∨
               sh ∈ (match r with
                | some nd => treeObjs nd
                | none => [])) →
              sh ∈ treeObjs (.mk bb objs leaf l r) := by
            intro sh hsh
            show sh ∈ treeObjs (.mk bb objs leaf l r)
            unfold treeObjs
            rw [if_neg hleaf]
            exact List.mem_append.mpr hsh
          have hlsz : ∀ ln, l = some ln → nodeSize ln ≤ n := by
            intro ln hl
            subst hl
            have := nodeSize_left bb objs leaf r ln
            omega
          have hrsz : ∀ rn, r = some rn → nodeSize rn ≤ n := by
            intro rn hr
            subst hr
            have := nodeSize_right bb objs leaf l rn
            omega
          rw [traverseNode_mk, if_neg hbox, if_neg hleaf] at h ⊢
          simp only at h ⊢
          cases l with
          | none =>
              cases r with
              | none => simp [Intersection.noHit] at h
              | some rn =>
                  rw [show (match (none : Option BVHNode) with
                      | some nd => traverseNode sq ray med nd
                      | none => Intersection.noHit) = Intersection.noHit
                    from rfl] at h ⊢
                  rw [show (match some rn with
                      | some nd => traverseNode sq ray med nd
                      | none => Intersection.noHit) =
                      traverseNode sq ray med rn from rfl] at h ⊢
                  rw [if_pos (show Intersection.noHit.hit = false from
                    rfl)] at h ⊢
                  obtain ⟨sh, hsh, hobj⟩ := ih rn (hrsz rn rfl) h
                  exact ⟨sh, hmem sh (Or.inr hsh), hobj⟩
          | some ln =>
              rw [show (match some ln with
                  | some nd => traverseNode sq ray med nd
                  | none => Intersection.noHit) =
                  traverseNode sq ray med ln from rfl] at h ⊢
              cases r with
              | none =>
                  rw [show (match (none : Option BVHNode) with
                      | some nd => traverseNode sq ray med nd
                      | none => Intersection.noHit) = Intersection.noHit
                    from rfl] at h ⊢
                  by_cases hlh : (traverseNode sq ray med ln).hit = false
                  · rw [if_pos hlh] at h
                    simp [Intersection.noHit] at h
                  · rw [if_neg hlh,
                      if_pos (show Intersection.noHit.hit = false from
                        rfl)] at h ⊢
                    obtain ⟨sh, hsh, hobj⟩ := ih ln (hlsz ln rfl) h
                    exact ⟨sh, hmem sh (Or.inl hsh), hobj⟩
              | some rn =>
                  rw [show (match some rn with
                      | some nd => traverseNode sq ray med nd
                      | none => Intersection.noHit) =
                      traverseNode sq ray med rn from rfl] at h ⊢
                  by_cases hlh : (traverseNode sq ray med ln).hit = false
                  · rw [if_pos hlh] at h ⊢
                    obtain ⟨sh, hsh, hobj⟩ := ih rn (hrsz rn rfl) h
                    exact ⟨sh, hmem sh (Or.inr hsh), hobj⟩
                  · rw [if_neg hlh] at h ⊢
                    by_cases hrh : (traverseNode sq ray med rn).hit = false
                    · rw [if_pos hrh] at h ⊢
                      obtain ⟨sh, hsh, hobj⟩ := ih ln (hlsz ln rfl) h
                      exact ⟨sh, hmem sh (Or.inl hsh), hobj⟩
                    · rw [if_neg hrh] at h ⊢
                      by_cases hd : (traverseNode sq ray med ln).distance <
                          (traverseNode sq ray med rn).distance
                      · rw [if_pos hd] at h ⊢
                        obtain ⟨sh, hsh, hobj⟩ := ih ln (hlsz ln rfl) h
                        exact ⟨sh, hmem sh (Or.inl hsh), hobj⟩
                      · rw [if_neg hd] at h ⊢
                        obtain ⟨sh, hsh, hobj⟩ := ih rn (hrsz rn rfl) h
                        exact ⟨sh, hmem sh (Or.inr hsh), hobj⟩

/-- The exit intersection of `findClosestIntersection`. -/
def fciExit (sq : ℚ → ℚ) (ray : Ray) (med : Option Shape) : Intersection :=
  match med with
  | some m => rayObjectIntersection sq ray m
  | none => Intersection.noHit

/-- The BVH-or-brute-force intersection of `findClosestIntersection`. -/
def fciOther (sq : ℚ → ℚ) (settings : Settings) (scene : Scene)
    (bvh : Option BVH) (ray : Ray) (med : Option Shape) : Intersection :=
  match settings.useBVH, bvh with
  | true, some b => b.traverse sq ray med
  | _, _ => findClosestIntersectionBruteForce sq scene ray med

theorem fci_fst (sq : ℚ → ℚ) (settings : Settings) (scene : Scene)
    (bvh : Option BVH) (ray : Ray) (med : Option Shape) :
    (findClosestIntersection sq settings scene bvh ray med).1 =
      if (fciExit sq ray med).hit ∧
          (fciOther sq settings scene bvh ray med).hit then
        if (fciExit sq ray med).distance <
            (fciOther sq settings scene bvh ray med).distance then
          fciExit sq ray med
        else fciOther sq settings scene bvh ray med
      else if (fciExit sq ray med).hit then fciExit sq ray med
      else if (fciOther sq settings scene bvh ray med).hit then
        fciOther sq settings scene bvh ray med
      else Intersection.noHit := rfl

/-- An exit hit is owned by the current medium. -/
theorem fciExit_obj (sq : ℚ → ℚ) (ray : Ray) (med : Option Shape)
    (h : (fciExit sq ray med).hit = true) :
    ∃ m, med = some m ∧ (fciExit sq ray med).obj = some m := by
  cases med with
  | none => simp [fciExit, Intersection.noHit] at h
  | some m =>
      refine ⟨m, rfl, ?_⟩
      show (rayObjectIntersection sq ray m).obj = some m
      exact rayPolygonIntersection_obj sq ray.origin ray.direction
        m.vertices m h

/-- A BVH-or-brute-force hit is owned by a scene shape or a shape stored
in the given BVH. -/
theorem fciOther_obj (sq : ℚ → ℚ) (settings : Settings) (scene : Scene)
    (bvh : Option BVH) (ray : Ray) (med : Option Shape)
    (h : (fciOther sq settings scene bvh ray med).hit = true) :
    ∃ sh, (fciOther sq settings scene bvh ray med).obj = some sh ∧
      (sh ∈ scene.objects ++ scene.targets ∨
        ∃ b, bvh = some b ∧ ∃ nd, b.root = some nd ∧ sh ∈ treeObjs nd) := by
  revert h
  unfold fciOther
  cases hu : settings.useBVH with
  | false =>
      intro h
      obtain ⟨sh, hsh, hobj⟩ := bruteForce_obj sq scene ray med h
      exact ⟨sh, hobj, Or.inl hsh⟩
  | true =>
      cases bvh with
      | none =>
          intro h
          obtain ⟨sh, hsh, hobj⟩ := bruteForce_obj sq scene ray med h
          exact ⟨sh, hobj, Or.inl hsh⟩
      | some b =>
          intro h
          have h' : (b.traverse sq ray med).hit = true := h
          show ∃ sh, (b.traverse sq ray med).obj = some sh ∧
            (sh ∈ scene.objects ++ scene.targets ∨
              ∃ b2, some b = some b2 ∧
                ∃ nd, b2.root = some nd ∧ sh ∈ treeObjs nd)
          unfold BVH.traverse at h' ⊢
          revert h'
          cases hr : b.root with
          | none =>
              intro h'
              simp [Intersection.noHit] at h'
          | some root =>
              intro h'
              obtain ⟨sh, hsh, hobj⟩ := traverseNode_obj sq ray med root h'
              exact ⟨sh, hobj, Or.inr ⟨b, rfl, root, hr, hsh⟩⟩

/-- A hit reported by `findClosestIntersection` is owned by a scene
shape, a shape stored in the BVH, or the current medium (the exit
intersection). -/
theorem fci_obj (sq : ℚ → ℚ) (settings : Settings) (scene : Scene)
    (bvh : Option BVH) (ray : Ray) (med : Option Shape)
    (h : (findClosestIntersection sq settings scene bvh ray med).1.hit =
      true) :
    ∃ sh, (findClosestIntersection sq settings scene bvh ray med).1.obj =
        some sh ∧
      (sh ∈ scene.objects ++ scene.targets ∨
        (∃ b, bvh = some b ∧ ∃ nd, b.root = some nd ∧ sh ∈ treeObjs nd) ∨
        med = some sh) := by
  rw [fci_fst] at h ⊢
  split at h
  · rename_i hboth
    split at h
    · obtain ⟨m, hm, hobj⟩ := fciExit_obj sq ray med hboth.1
      rename_i hd
      rw [if_pos hboth, if_pos hd]
      exact ⟨m, hobj, Or.inr (Or.inr hm)⟩
    · obtain ⟨sh, hobj, hmem⟩ :=
        fciOther_obj sq settings scene bvh ray med hboth.2
      rename_i hd
      rw [if_pos hboth, if_neg hd]
      exact ⟨sh, hobj, by
        rcases hmem with h1 | h2
        · exact Or.inl h1
        · exact Or.inr (Or.inl h2)⟩
  · rename_i hnboth
    split at h
    · rename_i hexit
      rw [if_neg hnboth, if_pos hexit]
      obtain ⟨m, hm, hobj⟩ := fciExit_obj sq ray med hexit
      exact ⟨m, hobj, Or.inr (Or.inr hm)⟩
    · rename_i hexit
      split at h
      · rename_i hother
        rw [if_neg hnboth, if_neg hexit, if_pos hother]
        obtain ⟨sh, hobj, hmem⟩ :=
          fciOther_obj sq settings scene bvh ray med hother
        exact ⟨sh, hobj, by
          rcases hmem with h1 | h2
          · exact Or.inl h1
          · exact Or.inr (Or.inl h2)⟩
      · cases h

/-! ### The intensity invariant of the tracer -/

/-- The shapes an intersection query can report besides the current
medium: scene objects and targets, and shapes stored in the BVH. -/
def hitPool (ctx : Ctx) (sh : Shape) : Prop :=
  sh ∈ ctx.scene.objects ++ ctx.scene.targets ∨
    ∃ b, ctx.bvh = some b ∧ ∃ nd, b.root = some nd ∧ sh ∈ treeObjs nd

/-- Every reachable material's reflectivity lies in `[0, 1]`. -/
def ReflOK (ctx : Ctx) : Prop :=
  ∀ sh, hitPool ctx sh →
    0 ≤ sh.material.reflectivity ∧ sh.material.reflectivity ≤ 1

/-- The current medium's reflectivity, when present, lies in `[0, 1]`. -/
def MediumOK (med : Option Shape) : Prop :=
  ∀ m, med = some m →
    0 ≤ m.material.reflectivity ∧ m.material.reflectivity ≤ 1

/-- The intensity invariant: every emitted segment is at or above the
cutoff; every child segment is at most as intense as its parent; every
queued entry has nonnegative intensity, a bounded medium, and intensity
at most its parent segment's. -/
def Inv5 (ctx : Ctx) (st : TState) : Prop :=
  (∀ j s, st.arena.get? j = some s →
    ctx.settings.minIntensity ≤ s.intensity) ∧
  (∀ j s, st.arena.get? j = some s → ∀ q, s.parent = some q →
    ∀ sp, st.arena.get? q = some sp → s.intensity ≤ sp.intensity) ∧
  (∀ e ∈ st.queue, 0 ≤ (QEntry.ray e).intensity) ∧
  (∀ e ∈ st.queue, MediumOK (QEntry.medium e)) ∧
  (∀ e ∈ st.queue, ∀ q, QEntry.parent e = some q →
    ∀ sp, st.arena.get? q = some sp →
      (QEntry.ray e).intensity ≤ sp.intensity)

/-- An `.object` (or `.target`) candidate implies the intersection
associated with it actually hit. -/
theorem closestCandidate_hit (i : Intersection) (t : Bool)
    (c : Option ℚ)
    (h : closestCandidate i t c = some .object ∨
      closestCandidate i t c = some .target) :
    i.hit = true := by
  cases hh : i.hit with
  | true => rfl
  | false =>
      unfold closestCandidate at h
      rw [hh] at h
      cases c with
      | none => rcases h with h | h <;> cases h
      | some d => rcases h with h | h <;> · injection h with h; cases h

/-- The intensity multipliers `calculateNextRays` applies lie in
`[0, 1]`, so the children's intensities stay within
`[0, parent intensity]`; the reflected child keeps the parent's medium
and the refracted child enters `flipMedium`. -/
theorem calculateNextRays_bounds (sq : ℚ → ℚ) (settings : Settings)
    (ray : Ray) (inter : Intersection) (med : Option Shape)
    (hR0 : 0 ≤ (inter.obj.getD dummyShape).material.reflectivity)
    (hR1 : (inter.obj.getD dummyShape).material.reflectivity ≤ 1)
    (hI : 0 ≤ ray.intensity) :
    (0 ≤ (calculateNextRays sq settings ray inter med).reflected.intensity ∧
      (calculateNextRays sq settings ray inter med).reflected.intensity ≤
        ray.intensity) ∧
    (∀ rr, (calculateNextRays sq settings ray inter med).refracted =
        some rr →
      0 ≤ rr.intensity ∧ rr.intensity ≤ ray.intensity) ∧
    (calculateNextRays sq settings ray inter med).reflectedMedium = med ∧
    (∀ rr, (calculateNextRays sq settings ray inter med).refracted =
        some rr →
      (calculateNextRays sq settings ray inter med).refractedMedium =
        flipMedium med (inter.obj.getD dummyShape)) := by
  rw [calculateNextRays_eq]
  cases hrefr : LightCalculator.refract sq ray.direction inter.normal
      (refractionIndices settings med
        (inter.obj.getD dummyShape).material).1
      (refractionIndices settings med
        (inter.obj.getD dummyShape).material).2 with
  | none =>
      refine ⟨⟨?_, ?_⟩, ?_, rfl, ?_⟩
      · show 0 ≤ ray.intensity * 1
        linarith
      · show ray.intensity * 1 ≤ ray.intensity
        linarith
      · intro rr hrr
        simp only [nextRaysOf] at hrr
        cases hrr
      · intro rr hrr
        simp only [nextRaysOf] at hrr
        cases hrr
  | some rd =>
      refine ⟨⟨?_, ?_⟩, ?_, rfl, fun _ _ => rfl⟩
      · show 0 ≤ ray.intensity *
          (inter.obj.getD dummyShape).material.reflectivity
        exact mul_nonneg hI hR0
      · show ray.intensity *
            (inter.obj.getD dummyShape).material.reflectivity ≤
          ray.intensity
        exact mul_le_of_le_one_right hI hR1
      · intro rr hrr
        simp only [nextRaysOf, Option.some.injEq] at hrr
        rw [← hrr]
        constructor
        · show 0 ≤ ray.intensity *
            (1 - (inter.obj.getD dummyShape).material.reflectivity)
          exact mul_nonneg hI (by linarith)
        · show ray.intensity *
              (1 - (inter.obj.getD dummyShape).material.reflectivity) ≤
            ray.intensity
          exact mul_le_of_le_one_right hI (by linarith)

/-- Entries of a pushed arena: the new segment at the end, or an old
entry with intensity and parent untouched (only `children` may differ). -/
theorem pushSegment_get?_cases {e : QEntry} (st : TState) (seg : Segment)
    (hp : ∀ q, QEntry.parent e = some q → q < st.arena.length)
    (j : ℕ) (s' : Segment)
    (hj : (pushSegment st e.parent seg).1.arena.get? j = some s') :
    (j = st.arena.length ∧ s' = seg) ∨
      (j < st.arena.length ∧ ∃ s0, st.arena.get? j = some s0 ∧
        s'.intensity = s0.intensity ∧ s'.parent = s0.parent) := by
  rw [pushSegment_get? st e.parent seg hp j] at hj
  by_cases hjl : j = st.arena.length
  · rw [if_pos hjl] at hj
    injection hj with hj
    exact Or.inl ⟨hjl, hj.symm⟩
  · rw [if_neg hjl] at hj
    cases h0 : st.arena.get? j with
    | none => rw [h0] at hj; cases hj
    | some s0 =>
        rw [h0, Option.map_some'] at hj
        injection hj with hj
        have hjlt : j < st.arena.length := by
          by_contra hcon
          rw [List.get?_len_le (by omega)] at h0
          cases h0
        refine Or.inr ⟨hjlt, s0, rfl, ?_, ?_⟩
        · rw [← hj]
          by_cases hpj : e.parent = some j
          · rw [if_pos hpj]
          · rw [if_neg hpj]
        · rw [← hj]
          by_cases hpj : e.parent = some j
          · rw [if_pos hpj]
          · rw [if_neg hpj]

/-- Old entries survive a push with their intensity. -/
theorem pushSegment_get?_keep {e : QEntry} (st : TState) (seg : Segment)
    (hp : ∀ q, QEntry.parent e = some q → q < st.arena.length)
    (q : ℕ) (sp : Segment) (hq : st.arena.get? q = some sp) :
    ∃ sp', (pushSegment st e.parent seg).1.arena.get? q = some sp' ∧
      sp'.intensity = sp.intensity := by
  have hqlt : q < st.arena.length := by
    by_contra hcon
    rw [List.get?_len_le (by omega)] at hq
    cases hq
  rw [pushSegment_get? st e.parent seg hp q, if_neg (by omega), hq,
    Option.map_some']
  by_cases hpj : e.parent = some q
  · rw [if_pos hpj]
    exact ⟨_, rfl, rfl⟩
  · rw [if_neg hpj]
    exact ⟨_, rfl, rfl⟩

/-- Pushing a segment at the processed entry's intensity preserves the
intensity invariant. -/
theorem pushSegment_Inv5 (ctx : Ctx) (e : QEntry) (st : TState)
    (seg : Segment)
    (hsegI : seg.intensity = e.ray.intensity)
    (hsegP : seg.parent = e.parent)
    (hmin : ctx.settings.minIntensity ≤ e.ray.intensity)
    (hep : ∀ q, QEntry.parent e = some q →
      ∀ sp, st.arena.get? q = some sp → e.ray.intensity ≤ sp.intensity)
    (hp : ∀ q, QEntry.parent e = some q → q < st.arena.length)
    (hQ : ∀ e' ∈ st.queue, ∀ q, QEntry.parent e' = some q →
      q < st.arena.length)
    (hPL : ParentLt st.arena)
    (h : Inv5 ctx st) :
    Inv5 ctx (pushSegment st e.parent seg).1 := by
  obtain ⟨hmin', hmono, hq0, hqm, hqp⟩ := h
  refine ⟨?_, ?_, ?_, ?_, ?_⟩
  · intro j s' hj
    rcases pushSegment_get?_cases st seg hp j s' hj with ⟨_, hs⟩ |
      ⟨_, s0, h0, hI, _⟩
    · rw [hs, hsegI]
      exact hmin
    · rw [hI]
      exact hmin' j s0 h0
  · intro j s' hj q hq sp' hq'
    rcases pushSegment_get?_cases st seg hp j s' hj with ⟨hjl, hs⟩ |
      ⟨hjlt, s0, h0, hI, hP⟩
    · have hqe : QEntry.parent e = some q := by
        rw [← hsegP, ← hs]
        exact hq
      have hqlt : q < st.arena.length := hp q hqe
      rcases pushSegment_get?_cases st seg hp q sp' hq' with ⟨hql, _⟩ |
        ⟨_, sp0, h0q, hIq, _⟩
      · omega
      · rw [hs, hsegI, hIq]
        exact hep q hqe sp0 h0q
    · have hq0' : s0.parent = some q := by rw [← hP]; exact hq
      have hqlt : q < j := hPL j s0 q h0 hq0'
      rcases pushSegment_get?_cases st seg hp q sp' hq' with ⟨hql, _⟩ |
        ⟨_, sp0, h0q, hIq, _⟩
      · omega
      · rw [hI, hIq]
        exact hmono j s0 h0 q hq0' sp0 h0q
  · intro e' he'
    rw [pushSegment_queue] at he'
    exact hq0 e' he'
  · intro e' he'
    rw [pushSegment_queue] at he'
    exact hqm e' he'
  · intro e' he' q hq sp' hq'
    rw [pushSegment_queue] at he'
    have hqlt : q < st.arena.length := hQ e' he' q hq
    rcases pushSegment_get?_cases st seg hp q sp' hq' with ⟨hql, _⟩ |
      ⟨_, sp0, h0q, hIq, _⟩
    · omega
    · rw [hIq]
      exact hqp e' he' q hq sp0 h0q

/-- Marking a path preserves the intensity invariant (only `hitsTarget`
flags change). -/
theorem mark_Inv5 (ctx : Ctx) (st : TState) (p : Option ℕ) (f : ℕ)
    (h : Inv5 ctx st) :
    Inv5 ctx { st with arena := markPathToTarget st.arena p f } := by
  obtain ⟨hmin', hmono, hq0, hqm, hqp⟩ := h
  have hcases : ∀ j s',
      (markPathToTarget st.arena p f).get? j = some s' →
        ∃ s0, st.arena.get? j = some s0 ∧ s'.intensity = s0.intensity ∧
          s'.parent = s0.parent := by
    intro j s' hj
    rw [markPathToTarget_get?] at hj
    cases h0 : st.arena.get? j with
    | none => rw [h0] at hj; cases hj
    | some s0 =>
        rw [h0, Option.map_some'] at hj
        injection hj with hj
        refine ⟨s0, rfl, ?_, ?_⟩
        · rw [← hj]
          by_cases hmem : j ∈ parentChain st.arena p f
          · rw [if_pos hmem]
          · rw [if_neg hmem]
        · rw [← hj]
          by_cases hmem : j ∈ parentChain st.arena p f
          · rw [if_pos hmem]
          · rw [if_neg hmem]
  have hkeep : ∀ q sp, st.arena.get? q = some sp →
      ∃ sp', (markPathToTarget st.arena p f).get? q = some sp' ∧
        sp'.intensity = sp.intensity := by
    intro q sp hq
    rw [markPathToTarget_get?, hq, Option.map_some']
    by_cases hmem : q ∈ parentChain st.arena p f
    · rw [if_pos hmem]
      exact ⟨_, rfl, rfl⟩
    · rw [if_neg hmem]
      exact ⟨_, rfl, rfl⟩
  refine ⟨?_, ?_, hq0, hqm, ?_⟩
  · intro j s' hj
    obtain ⟨s0, h0, hI, _⟩ := hcases j s' hj
    rw [hI]
    exact hmin' j s0 h0
  · intro j s' hj q hq sp' hq'
    obtain ⟨s0, h0, hI, hP⟩ := hcases j s' hj
    obtain ⟨sp0, h0q, hIq, _⟩ := hcases q sp' hq'
    rw [hI, hIq]
    exact hmono j s0 h0 q (by rw [← hP]; exact hq) sp0 h0q
  · intro e' he' q hq sp' hq'
    obtain ⟨sp0, h0q, hIq, _⟩ := hcases q sp' hq'
    rw [hIq]
    exact hqp e' he' q hq sp0 h0q

/-- One loop iteration preserves the intensity invariant, given the
processed entry's own intensity, medium and parent bounds. -/
theorem traceStep_Inv5 (ctx : Ctx) (e : QEntry) (st : TState)
    (hrefl : ReflOK ctx)
    (he0 : 0 ≤ e.ray.intensity)
    (hem : MediumOK (QEntry.medium e))
    (hep : ∀ q, QEntry.parent e = some q →
      ∀ sp, st.arena.get? q = some sp → e.ray.intensity ≤ sp.intensity)
    (hp : ∀ q, QEntry.parent e = some q → q < st.arena.length)
    (hQ : ∀ e' ∈ st.queue, ∀ q, QEntry.parent e' = some q →
      q < st.arena.length)
    (hPL : ParentLt st.arena)
    (h : Inv5 ctx st) : Inv5 ctx (traceStep ctx e st) := by
  by_cases hdrop : e.ray.intensity < ctx.settings.minIntensity
  · rw [traceStep_drop ctx e st hdrop]
    exact h
  · have hmin : ctx.settings.minIntensity ≤ e.ray.intensity :=
      le_of_not_lt hdrop
    rw [traceStep_case ctx e st hdrop]
    split
    · exact h
    · exact pushSegment_Inv5 ctx e st _ rfl rfl hmin hep hp hQ hPL h
    · exact mark_Inv5 ctx _ e.parent _
        (pushSegment_Inv5 ctx e st _ rfl rfl hmin hep hp hQ hPL h)
    · rename_i hcand
      have hhit : (findClosestIntersection ctx.sq ctx.settings ctx.scene
          ctx.bvh e.ray e.medium).1.hit = true :=
        closestCandidate_hit _ _ _ (Or.inl hcand)
      obtain ⟨sh, hobj, hmem⟩ := fci_obj ctx.sq ctx.settings ctx.scene
        ctx.bvh e.ray e.medium hhit
      have hgetD : ((findClosestIntersection ctx.sq ctx.settings ctx.scene
          ctx.bvh e.ray e.medium).1.obj.getD dummyShape) = sh := by
        rw [hobj]
        rfl
      have hRb : 0 ≤ sh.material.reflectivity ∧
          sh.material.reflectivity ≤ 1 := by
        rcases hmem with hm | hm | hm
        · exact hrefl sh (Or.inl hm)
        · exact hrefl sh (Or.inr hm)
        · exact hem sh hm
      have hbounds := calculateNextRays_bounds ctx.sq ctx.settings e.ray
        (findClosestIntersection ctx.sq ctx.settings ctx.scene ctx.bvh
          e.ray e.medium).1 e.medium
        (by rw [hgetD]; exact hRb.1) (by rw [hgetD]; exact hRb.2) he0
      have hInv1 : Inv5 ctx (pushSegment st e.parent
          ⟨e.startPoint,
            (findClosestIntersection ctx.sq ctx.settings ctx.scene ctx.bvh
              e.ray e.medium).1.point, e.ray.intensity, false, e.parent,
            []⟩).1 :=
        pushSegment_Inv5 ctx e st _ rfl rfl hmin hep hp hQ hPL h
      simp only [stepObject, stepObjectChildren]
      rw [pushSegment_idx]
      split
      · exact hInv1
      · split
        · exact hInv1
        · obtain ⟨hI1min, hI1mono, hI1q0, hI1qm, hI1qp⟩ := hInv1
          have hseg : (pushSegment st e.parent
              ⟨e.startPoint,
                (findClosestIntersection ctx.sq ctx.settings ctx.scene
                  ctx.bvh e.ray e.medium).1.point, e.ray.intensity, false,
                e.parent, []⟩).1.arena.get? st.arena.length =
              some ⟨e.startPoint,
                (findClosestIntersection ctx.sq ctx.settings ctx.scene
                  ctx.bvh e.ray e.medium).1.point, e.ray.intensity, false,
                e.parent, []⟩ := by
            rw [pushSegment_get? st e.parent _ hp, if_pos rfl]
          have hspawn : ∀ e' ∈ spawnEntries
              (calculateNextRays ctx.sq ctx.settings e.ray
                (findClosestIntersection ctx.sq ctx.settings ctx.scene
                  ctx.bvh e.ray e.medium).1 e.medium)
              (e.distance -
                ((findClosestIntersection ctx.sq ctx.settings ctx.scene
                  ctx.bvh e.ray e.medium).1.distance.untop' 0))
              (findClosestIntersection ctx.sq ctx.settings ctx.scene
                ctx.bvh e.ray e.medium).1.point st.arena.length,
              (0 ≤ (QEntry.ray e').intensity ∧
                (QEntry.ray e').intensity ≤ e.ray.intensity) ∧
              MediumOK (QEntry.medium e') ∧
              QEntry.parent e' = some st.arena.length := by
            intro e' he'
            unfold spawnEntries at he'
            rcases hr : (calculateNextRays ctx.sq ctx.settings e.ray
                (findClosestIntersection ctx.sq ctx.settings ctx.scene
                  ctx.bvh e.ray e.medium).1 e.medium).refracted
              with _ | rr
            · rw [hr] at he'
              simp only [List.mem_singleton] at he'
              rw [he']
              exact ⟨⟨hbounds.1.1, hbounds.1.2⟩,
                (by rw [show (QEntry.medium
                    ⟨(calculateNextRays ctx.sq ctx.settings e.ray
                      (findClosestIntersection ctx.sq ctx.settings
                        ctx.scene ctx.bvh e.ray e.medium).1
                      e.medium).reflected, _, _, _, _⟩) = _ from rfl,
                  hbounds.2.2.1]; exact hem), rfl⟩
            · rw [hr] at he'
              simp only [List.cons_append, List.nil_append, List.mem_cons,
                List.mem_singleton, List.not_mem_nil, or_false] at he'
              rcases he' with h1 | h1
              · rw [h1]
                exact ⟨⟨hbounds.1.1, hbounds.1.2⟩,
                  (by rw [show (QEntry.medium
                      ⟨(calculateNextRays ctx.sq ctx.settings e.ray
                        (findClosestIntersection ctx.sq ctx.settings
                          ctx.scene ctx.bvh e.ray e.medium).1
                        e.medium).reflected, _, _, _, _⟩) = _ from rfl,
                    hbounds.2.2.1]; exact hem), rfl⟩
              · rw [h1]
                refine ⟨⟨(hbounds.2.1 rr hr).1, (hbounds.2.1 rr hr).2⟩,
                  ?_, rfl⟩
                show MediumOK (calculateNextRays ctx.sq ctx.settings e.ray
                  (findClosestIntersection ctx.sq ctx.settings ctx.scene
                    ctx.bvh e.ray e.medium).1 e.medium).refractedMedium
                rw [hbounds.2.2.2 rr hr, hgetD]
                intro m hm
                cases hmed : e.medium with
                | some m0 =>
                    rw [hmed] at hm
                    cases hm
                | none =>
                    rw [hmed] at hm
                    injection hm with hm
                    rw [← hm]
                    exact hRb
          refine ⟨hI1min, hI1mono, ?_, ?_, ?_⟩
          · intro e' he'
            rcases List.mem_append.mp he' with h1 | h1
            · exact hI1q0 e' h1
            · exact (hspawn e' h1).1.1
          · intro e' he'
            rcases List.mem_append.mp he' with h1 | h1
            · exact hI1qm e' h1
            · exact (hspawn e' h1).2.1
          · intro e' he' q hq sp' hq'
            rcases List.mem_append.mp he' with h1 | h1
            · exact hI1qp e' h1 q hq sp' hq'
            · have hpq := (hspawn e' h1).2.2
              rw [hpq] at hq
              injection hq with hq
              rw [← hq] at hq'
              rw [hseg] at hq'
              injection hq' with hq'
              rw [← hq']
              exact (hspawn e' h1).1.2

/-- The drained loop preserves the intensity invariant. -/
theorem traceLoop_Inv5 (ctx : Ctx) (st : TState) (hrefl : ReflOK ctx)
    (hWF : StateWF st) (h : Inv5 ctx st) :
    Inv5 ctx (traceLoop ctx st) := by
  induction st using traceLoop.induct ctx with
  | case1 st hq =>
      rw [traceLoop]
      rw [hq]
      exact h
  | case2 st e rest hq ih =>
      rw [traceLoop]
      rw [hq]
      have hmem : e ∈ st.queue := by
        rw [hq]
        exact List.mem_cons_self e rest
      have hstWF : StateWF ⟨st.arena, st.roots, rest⟩ :=
        ⟨hWF.1, fun e' he' q hq' =>
          hWF.2 e' (by rw [hq]; exact List.mem_cons_of_mem e he') q hq'⟩
      refine ih ?_ ?_
      · exact traceStep_WF ctx e ⟨st.arena, st.roots, rest⟩
          (fun q hq' => hWF.2 e hmem q hq') hstWF
      · refine traceStep_Inv5 ctx e ⟨st.arena, st.roots, rest⟩ hrefl
          (h.2.2.1 e hmem) (h.2.2.2.1 e hmem)
          (fun q hq' sp hsp => h.2.2.2.2 e hmem q hq' sp hsp)
          (fun q hq' => hWF.2 e hmem q hq')
          (fun e' he' q hq' => hstWF.2 e' he' q hq')
          hstWF.1
          ⟨h.1, h.2.1, ?_, ?_, ?_⟩
        · intro e' he'
          exact h.2.2.1 e'
            (by rw [hq]; exact List.mem_cons_of_mem e he')
        · intro e' he'
          exact h.2.2.2.1 e'
            (by rw [hq]; exact List.mem_cons_of_mem e he')
        · intro e' he' q hq' sp hsp
          exact h.2.2.2.2 e'
            (by rw [hq]; exact List.mem_cons_of_mem e he') q hq' sp hsp

/-! ### BVH refinement: the closest-hit specification -/

/-- The reducer of `Intersection.closest`. -/
def closeStep (closest current : Intersection) : Intersection :=
  if current.hit = false then closest
  else if closest.hit = false then current
  else if current.distance < closest.distance then current else closest

theorem closest_eq_foldl (l : List Intersection) :
    Intersection.closest l = l.foldl closeStep Intersection.noHit := rfl

/-- Whether any candidate hit. -/
def anyHit (l : List Intersection) : Bool :=
  l.any fun i => i.hit

/-- Folding the minimum hit distance from a starting bound. -/
def bestDFrom (d0 : WithTop ℚ) (l : List Intersection) : WithTop ℚ :=
  l.foldl (fun d i => if i.hit = true then min d i.distance else d) d0

/-- The minimum distance over the hitting candidates (`⊤` when none). -/
def bestD (l : List Intersection) : WithTop ℚ :=
  bestDFrom ⊤ l

theorem bestDFrom_eq (l : List Intersection) :
    ∀ d0, bestDFrom d0 l = min d0 (bestD l) := by
  induction l with
  | nil =>
      intro d0
      show d0 = min d0 ⊤
      rw [min_eq_left le_top]
  | cons a t ih =>
      intro d0
      show bestDFrom (if a.hit = true then min d0 a.distance else d0) t =
        min d0 (bestDFrom (if a.hit = true then min ⊤ a.distance else ⊤) t)
      by_cases ha : a.hit = true
      · rw [if_pos ha, if_pos ha, ih (min d0 a.distance),
          min_eq_right (le_top : a.distance ≤ ⊤), ih a.distance,
          ← min_assoc]
      · rw [if_neg ha, if_neg ha, ih d0]
        rfl

theorem bestD_cons (a : Intersection) (t : List Intersection) :
    bestD (a :: t) =
      if a.hit = true then min a.distance (bestD t) else bestD t := by
  show bestDFrom (if a.hit = true then min ⊤ a.distance else ⊤) t = _
  by_cases ha : a.hit = true
  · rw [if_pos ha, if_pos ha,
      min_eq_right (le_top : a.distance ≤ ⊤), bestDFrom_eq]
  · rw [if_neg ha, if_neg ha]
    rfl

theorem anyHit_cons (a : Intersection) (t : List Intersection) :
    anyHit (a :: t) = (a.hit || anyHit t) := by
  simp [anyHit]

/-- No hit means no distance: the fold stays at `⊤`. -/
theorem bestD_of_noHit (l : List Intersection) (h : anyHit l = false) :
    bestD l = ⊤ := by
  induction l with
  | nil => rfl
  | cons a t ih =>
      rw [anyHit_cons, Bool.or_eq_false_iff] at h
      rw [bestD_cons, if_neg (by rw [h.1]; exact Bool.false_ne_true)]
      exact ih h.2

/-- The `closest` fold computes exactly the any-hit flag and minimum
distance. -/
theorem closest_fold_spec (l : List Intersection) :
    ∀ init : Intersection, (init.hit = false → init.distance = ⊤) →
      ((l.foldl closeStep init).hit = (init.hit || anyHit l)) ∧
      (l.foldl closeStep init).distance = min init.distance (bestD l) ∧
      ((l.foldl closeStep init).hit = false →
        (l.foldl closeStep init).distance = ⊤) := by
  induction l with
  | nil =>
      intro init h0
      refine ⟨by simp [anyHit], ?_, h0⟩
      show init.distance = min init.distance ⊤
      rw [min_eq_left le_top]
  | cons a t ih =>
      intro init h0
      rw [List.foldl_cons, anyHit_cons, bestD_cons]
      by_cases ha : a.hit = true
      · have hstep : closeStep init a =
            if init.hit = false then a
            else if a.distance < init.distance then a else init := by
          unfold closeStep
          rw [if_neg (by simp [ha])]
        rw [if_pos ha]
        by_cases hi : init.hit = false
        · rw [hstep, if_pos hi]
          obtain ⟨ih1, ih2, ih3⟩ := ih a (fun hf => by
            rw [ha] at hf; cases hf)
          refine ⟨?_, ?_, ih3⟩
          · rw [ih1, hi, ha]
            rfl
          · rw [ih2, h0 hi, min_eq_right le_top]
        · have hi2 : init.hit = true := by
            cases hh : init.hit
            · exact absurd hh hi
            · rfl
          rw [hstep, if_neg hi]
          by_cases hd : a.distance < init.distance
          · rw [if_pos hd]
            obtain ⟨ih1, ih2, ih3⟩ := ih a (fun hf => by
              rw [ha] at hf; cases hf)
            refine ⟨?_, ?_, ih3⟩
            · rw [ih1, hi2, ha]
              rfl
            · rw [ih2, min_eq_right
                (le_trans (min_le_left _ _) (le_of_lt hd))]
          · rw [if_neg hd]
            obtain ⟨ih1, ih2, ih3⟩ := ih init h0
            refine ⟨?_, ?_, ih3⟩
            · rw [ih1, hi2, ha]
              rfl
            · rw [ih2, ← min_assoc, min_eq_left (le_of_not_lt hd)]
      · have ha2 : a.hit = false := by
          cases hh : a.hit
          · rfl
          · exact absurd hh ha
        have hstep : closeStep init a = init := by
          unfold closeStep
          rw [if_pos ha2]
        rw [hstep, if_neg ha]
        obtain ⟨ih1, ih2, ih3⟩ := ih init h0
        refine ⟨?_, ih2, ih3⟩
        rw [ih1, ha2]
        simp

theorem closest_hit (l : List Intersection) :
    (Intersection.closest l).hit = anyHit l := by
  rw [closest_eq_foldl]
  have hh := (closest_fold_spec l Intersection.noHit (fun _ => rfl)).1
  rw [hh]
  rfl

theorem closest_distance (l : List Intersection) :
    (Intersection.closest l).distance = bestD l := by
  rw [closest_eq_foldl]
  have hh := (closest_fold_spec l Intersection.noHit (fun _ => rfl)).2.1
  rw [hh]
  show min ⊤ (bestD l) = bestD l
  rw [min_eq_right le_top]

theorem anyHit_append (x y : List Intersection) :
    anyHit (x ++ y) = (anyHit x || anyHit y) := List.any_append

theorem bestD_append (x y : List Intersection) :
    bestD (x ++ y) = min (bestD x) (bestD y) := by
  show bestDFrom ⊤ (x ++ y) = _
  unfold bestDFrom
  rw [List.foldl_append]
  show bestDFrom (bestDFrom ⊤ x) y = _
  rw [bestDFrom_eq]
  rfl

/-- Left folds over permutations agree when the step is right-
commutative. -/
theorem foldl_eq_of_perm {α β : Type} (f : β → α → β)
    (hc : ∀ b a1 a2, f (f b a1) a2 = f (f b a2) a1)
    {l1 l2 : List α} (h : l1.Perm l2) : ∀ b, l1.foldl f b = l2.foldl f b := by
  induction h with
  | nil => intro b; rfl
  | cons x h ih =>
      intro b
      simp only [List.foldl_cons]
      exact ih (f b x)
  | swap x y l =>
      intro b
      simp only [List.foldl_cons]
      rw [hc]
  | trans h1 h2 ih1 ih2 =>
      intro b
      rw [ih1, ih2]

theorem anyHit_perm {l1 l2 : List Intersection} (h : l1.Perm l2) :
    anyHit l1 = anyHit l2 := by
  apply Bool.eq_iff_iff.mpr
  unfold anyHit
  rw [List.any_eq_true, List.any_eq_true]
  exact ⟨fun ⟨x, hx, hfx⟩ => ⟨x, h.mem_iff.mp hx, hfx⟩,
    fun ⟨x, hx, hfx⟩ => ⟨x, h.mem_iff.mpr hx, hfx⟩⟩

theorem bestD_perm {l1 l2 : List Intersection} (h : l1.Perm l2) :
    bestD l1 = bestD l2 := by
  unfold bestD bestDFrom
  refine foldl_eq_of_perm _ ?_ h ⊤
  intro b a1 a2
  by_cases h1 : a1.hit = true
  · by_cases h2 : a2.hit = true
    · simp only [if_pos h1, if_pos h2]
      rw [min_assoc, min_comm a1.distance a2.distance, ← min_assoc]
    · simp only [if_pos h1, if_neg h2]
  · by_cases h2 : a2.hit = true
    · simp only [if_neg h1, if_pos h2]
    · simp only [if_neg h1, if_neg h2]

/-- The per-shape candidate of the brute-force scan and of the BVH
leaves. -/
def shapeHit (sq : ℚ → ℚ) (ray : Ray) (med : Option Shape)
    (obj : Shape) : Option Intersection :=
  if skipsShape med obj then none
  else
    let intersection := rayObjectIntersection sq ray obj
    if intersection.hit then some intersection else none

theorem bruteForce_eq (sq : ℚ → ℚ) (scene : Scene) (ray : Ray)
    (med : Option Shape) :
    findClosestIntersectionBruteForce sq scene ray med =
      Intersection.closest
        ((scene.objects ++ scene.targets).filterMap
          (shapeHit sq ray med)) := rfl

/-! ### BVH refinement: geometric completeness of the slab test -/

theorem slabInterval_eq (o d lo hi : ℚ) :
    slabInterval o d lo hi =
      (min ((lo - o) / d) ((hi - o) / d),
        max ((lo - o) / d) ((hi - o) / d)) := rfl

/-- A ray parameter whose point lies between the slab's planes lies
between the slab's entry and exit parameters. -/
theorem slab_bounds (o d lo hi t : ℚ) (hd : d ≠ 0)
    (h1 : lo ≤ o + t * d) (h2 : o + t * d ≤ hi) :
    min ((lo - o) / d) ((hi - o) / d) ≤ t ∧
      t ≤ max ((lo - o) / d) ((hi - o) / d) := by
  rcases lt_or_gt_of_ne hd with hneg | hpos
  · have ht2 : (hi - o) / d ≤ t := by
      rw [div_le_iff_of_neg hneg]
      linarith
    have ht1 : t ≤ (lo - o) / d := by
      rw [le_div_iff_of_neg hneg]
      linarith
    exact ⟨le_trans (min_le_right _ _) ht2,
      le_trans ht1 (le_max_left _ _)⟩
  · have ht1 : (lo - o) / d ≤ t := by
      rw [div_le_iff hpos]
      linarith
    have ht2 : t ≤ (hi - o) / d := by
      rw [le_div_iff hpos]
      linarith
    exact ⟨le_trans (min_le_left _ _) ht1,
      le_trans ht2 (le_max_right _ _)⟩

theorem intersectsAABB_some (r : Ray) (bb : AABB) :
    intersectsAABB r (some bb) =
      (if r.direction.x = 0 then
        if r.origin.x < bb.minX ∨ bb.maxX < r.origin.x then false
        else if r.direction.y = 0 then
          if r.origin.y < bb.minY ∨ bb.maxY < r.origin.y then false
          else true
        else
          let ty := slabInterval r.origin.y r.direction.y bb.minY bb.maxY
          decide (ty.1 ≤ ty.2 ∧ 0 ≤ ty.2)
      else
        let tx := slabInterval r.origin.x r.direction.x bb.minX bb.maxX
        if r.direction.y = 0 then
          if r.origin.y < bb.minY ∨ bb.maxY < r.origin.y then false
          else decide (tx.1 ≤ tx.2 ∧ 0 ≤ tx.2)
        else
          let ty := slabInterval r.origin.y r.direction.y bb.minY bb.maxY
          decide (max tx.1 ty.1 ≤ min tx.2 ty.2 ∧
            0 ≤ min tx.2 ty.2)) := rfl

/-- Completeness of the slab test: a ray that passes through a box at a
positive parameter is accepted. -/
theorem intersectsAABB_complete (r : Ray) (bb : AABB) (t : ℚ)
    (ht : 0 < t)
    (hin : inAABB ⟨r.origin.x + t * r.direction.x,
      r.origin.y + t * r.direction.y⟩ bb) :
    intersectsAABB r (some bb) = true := by
  obtain ⟨hx1, hx2, hy1, hy2⟩ := hin
  rw [intersectsAABB_some]
  by_cases hdx : r.direction.x = 0
  · have hx0 : r.origin.x + t * r.direction.x = r.origin.x := by
      rw [hdx]
      ring
    rw [hx0] at hx1 hx2
    rw [if_pos hdx,
      if_neg (by intro hcon; rcases hcon with hc | hc <;> linarith)]
    by_cases hdy : r.direction.y = 0
    · have hy0 : r.origin.y + t * r.direction.y = r.origin.y := by
        rw [hdy]
        ring
      rw [hy0] at hy1 hy2
      rw [if_pos hdy,
        if_neg (by intro hcon; rcases hcon with hc | hc <;> linarith)]
    · rw [if_neg hdy]
      show decide ((slabInterval r.origin.y r.direction.y bb.minY
          bb.maxY).1 ≤ (slabInterval r.origin.y r.direction.y bb.minY
          bb.maxY).2 ∧
        0 ≤ (slabInterval r.origin.y r.direction.y bb.minY bb.maxY).2) =
        true
      rw [slabInterval_eq, decide_eq_true_eq]
      obtain ⟨hb1, hb2⟩ := slab_bounds r.origin.y r.direction.y bb.minY
        bb.maxY t hdy hy1 hy2
      exact ⟨min_le_max, le_trans (le_of_lt ht) hb2⟩
  · rw [if_neg hdx]
    obtain ⟨hbx1, hbx2⟩ := slab_bounds r.origin.x r.direction.x bb.minX
      bb.maxX t hdx hx1 hx2
    by_cases hdy : r.direction.y = 0
    · have hy0 : r.origin.y + t * r.direction.y = r.origin.y := by
        rw [hdy]
        ring
      rw [hy0] at hy1 hy2
      rw [if_pos hdy,
        if_neg (by intro hcon; rcases hcon with hc | hc <;> linarith)]
      show decide ((slabInterval r.origin.x r.direction.x bb.minX
          bb.maxX).1 ≤ (slabInterval r.origin.x r.direction.x bb.minX
          bb.maxX).2 ∧
        0 ≤ (slabInterval r.origin.x r.direction.x bb.minX bb.maxX).2) =
        true
      rw [slabInterval_eq, decide_eq_true_eq]
      exact ⟨min_le_max, le_trans (le_of_lt ht) hbx2⟩
    · rw [if_neg hdy]
      obtain ⟨hby1, hby2⟩ := slab_bounds r.origin.y r.direction.y bb.minY
        bb.maxY t hdy hy1 hy2
      show decide (max (slabInterval r.origin.x r.direction.x bb.minX
            bb.maxX).1
            (slabInterval r.origin.y r.direction.y bb.minY bb.maxY).1 ≤
          min (slabInterval r.origin.x r.direction.x bb.minX bb.maxX).2
            (slabInterval r.origin.y r.direction.y bb.minY bb.maxY).2 ∧
        0 ≤ min (slabInterval r.origin.x r.direction.x bb.minX bb.maxX).2
          (slabInterval r.origin.y r.direction.y bb.minY bb.maxY).2) =
        true
      rw [slabInterval_eq, slabInterval_eq, decide_eq_true_eq]
      constructor
      · exact le_trans (max_le hbx1 hby1) (le_min hbx2 hby2)
      · exact le_trans (le_of_lt ht) (le_min hbx2 hby2)

/-- The determinant, parameter and edge coordinate computed by
`rayLineSegmentIntersection`. -/
def rlsDet (rayDir p1 p2 : V) : ℚ :=
  rayDir.x * (p2.y - p1.y) - rayDir.y * (p2.x - p1.x)

def rlsT (o rayDir p1 p2 : V) : ℚ :=
  ((p1.x - o.x) * (p2.y - p1.y) - (p1.y - o.y) * (p2.x - p1.x)) /
    rlsDet rayDir p1 p2

def rlsU (o rayDir p1 p2 : V) : ℚ :=
  ((p1.x - o.x) * rayDir.y - (p1.y - o.y) * rayDir.x) /
    rlsDet rayDir p1 p2

/-- The flipped edge normal of `rayLineSegmentIntersection`. -/
def rlsFlip (sq : ℚ → ℚ) (rayDir p1 p2 : V) : V :=
  let edgeLength := sq ((p2.x - p1.x) * (p2.x - p1.x) +
    (p2.y - p1.y) * (p2.y - p1.y))
  let normal : V := ⟨-(p2.y - p1.y) / edgeLength,
    (p2.x - p1.x) / edgeLength⟩
  if 0 < rayDir.x * normal.x + rayDir.y * normal.y then
    ⟨-normal.x, -normal.y⟩
  else normal

theorem rls_eq (sq : ℚ → ℚ) (o rayDir p1 p2 : V) :
    rayLineSegmentIntersection sq o rayDir p1 p2 =
      if |rlsDet rayDir p1 p2| < EPSILON then none
      else if EPSILON ≤ rlsT o rayDir p1 p2 ∧ 0 ≤ rlsU o rayDir p1 p2 ∧
          rlsU o rayDir p1 p2 ≤ 1 then
        some ⟨rlsT o rayDir p1 p2,
          ⟨o.x + rlsT o rayDir p1 p2 * rayDir.x,
            o.y + rlsT o rayDir p1 p2 * rayDir.y⟩,
          rlsFlip sq rayDir p1 p2⟩
      else none := rfl

/-- An accepted edge hit has a positive parameter whose ray point lies
on the edge segment. -/
theorem rls_some_spec (sq : ℚ → ℚ) (o rayDir p1 p2 : V) (lh : LineHit)
    (h : rayLineSegmentIntersection sq o rayDir p1 p2 = some lh) :
    EPSILON ≤ lh.t ∧ ∃ u : ℚ, 0 ≤ u ∧ u ≤ 1 ∧
      o.x + lh.t * rayDir.x = p1.x + u * (p2.x - p1.x) ∧
      o.y + lh.t * rayDir.y = p1.y + u * (p2.y - p1.y) := by
  rw [rls_eq] at h
  by_cases hdet : |rlsDet rayDir p1 p2| < EPSILON
  · rw [if_pos hdet] at h
    cases h
  · rw [if_neg hdet] at h
    by_cases hcond : EPSILON ≤ rlsT o rayDir p1 p2 ∧
        0 ≤ rlsU o rayDir p1 p2 ∧ rlsU o rayDir p1 p2 ≤ 1
    · rw [if_pos hcond] at h
      injection h with h
      have hd0 : rlsDet rayDir p1 p2 ≠ 0 := by
        intro hz
        rw [hz] at hdet
        exact hdet (by norm_num [EPSILON])
      have hT : lh.t = rlsT o rayDir p1 p2 := by rw [← h]
      refine ⟨by rw [hT]; exact hcond.1,
        rlsU o rayDir p1 p2, hcond.2.1, hcond.2.2, ?_, ?_⟩
      · rw [hT]
        unfold rlsT rlsU
        field_simp
        unfold rlsDet
        ring
      · rw [hT]
        unfold rlsT rlsU
        field_simp
        unfold rlsDet
        ring
    · rw [if_neg hcond] at h
      cases h

/-- A point of the segment between two box points stays inside the
box. -/
theorem point_in_box (p1 p2 : V) (bb : AABB) (u : ℚ)
    (h1 : inAABB p1 bb) (h2 : inAABB p2 bb) (hu0 : 0 ≤ u) (hu1 : u ≤ 1) :
    inAABB ⟨p1.x + u * (p2.x - p1.x), p1.y + u * (p2.y - p1.y)⟩ bb := by
  obtain ⟨a1, a2, a3, a4⟩ := h1
  obtain ⟨b1, b2, b3, b4⟩ := h2
  refine ⟨?_, ?_, ?_, ?_⟩
  · show bb.minX ≤ p1.x + u * (p2.x - p1.x)
    nlinarith [mul_nonneg (sub_nonneg.mpr hu1) (sub_nonneg.mpr a1),
      mul_nonneg hu0 (sub_nonneg.mpr b1)]
  · show p1.x + u * (p2.x - p1.x) ≤ bb.maxX
    nlinarith [mul_nonneg (sub_nonneg.mpr hu1) (sub_nonneg.mpr a2),
      mul_nonneg hu0 (sub_nonneg.mpr b2)]
  · show bb.minY ≤ p1.y + u * (p2.y - p1.y)
    nlinarith [mul_nonneg (sub_nonneg.mpr hu1) (sub_nonneg.mpr a3),
      mul_nonneg hu0 (sub_nonneg.mpr b3)]
  · show p1.y + u * (p2.y - p1.y) ≤ bb.maxY
    nlinarith [mul_nonneg (sub_nonneg.mpr hu1) (sub_nonneg.mpr a4),
      mul_nonneg hu0 (sub_nonneg.mpr b4)]

/-- The per-edge reducer of `rayPolygonIntersection`. -/
def polyStep (sq : ℚ → ℚ) (rayOrigin rayDir : V) (vertices : List V)
    (acc : Option LineHit × WithTop ℚ) (i : ℕ) :
    Option LineHit × WithTop ℚ :=
  let p1 := vertices.getD i ⟨0, 0⟩
  let p2 := vertices.getD ((i + 1) % vertices.length) ⟨0, 0⟩
  match rayLineSegmentIntersection sq rayOrigin rayDir p1 p2 with
  | none => acc
  | some result =>
      if (result.t : WithTop ℚ) < acc.2 then
        (some result, (result.t : WithTop ℚ))
      else acc

theorem polyStep_eq (sq : ℚ → ℚ) (rayOrigin rayDir : V)
    (vertices : List V) (acc : Option LineHit × WithTop ℚ) (i : ℕ) :
    polyStep sq rayOrigin rayDir vertices acc i =
      match rayLineSegmentIntersection sq rayOrigin rayDir
          (vertices.getD i ⟨0, 0⟩)
          (vertices.getD ((i + 1) % vertices.length) ⟨0, 0⟩) with
      | none => acc
      | some result =>
          if (result.t : WithTop ℚ) < acc.2 then
            (some result, (result.t : WithTop ℚ))
          else acc := rfl

theorem polyAcc_eq (sq : ℚ → ℚ) (rayOrigin rayDir : V)
    (vertices : List V) :
    polyAcc sq rayOrigin rayDir vertices =
      (List.range vertices.length).foldl
        (polyStep sq rayOrigin rayDir vertices) (none, ⊤) := rfl

/-- Any recorded accumulator value came from some edge test. -/
theorem polyStep_fold_source (sq : ℚ → ℚ) (rayOrigin rayDir : V)
    (vertices : List V) (l : List ℕ) :
    ∀ (acc : Option LineHit × WithTop ℚ) (lh : LineHit),
      (l.foldl (polyStep sq rayOrigin rayDir vertices) acc).1 = some lh →
      acc.1 = some lh ∨ ∃ i ∈ l,
        rayLineSegmentIntersection sq rayOrigin rayDir
          (vertices.getD i ⟨0, 0⟩)
          (vertices.getD ((i + 1) % vertices.length) ⟨0, 0⟩) = some lh := by
  induction l with
  | nil => exact fun acc lh h => Or.inl h
  | cons i t ih =>
      intro acc lh h
      rw [List.foldl_cons] at h
      rcases ih (polyStep sq rayOrigin rayDir vertices acc i) lh h with
        h1 | ⟨j, hj, hrls⟩
      · rw [polyStep_eq] at h1
        rcases hr : rayLineSegmentIntersection sq rayOrigin rayDir
            (vertices.getD i ⟨0, 0⟩)
            (vertices.getD ((i + 1) % vertices.length) ⟨0, 0⟩)
          with _ | result
        · rw [hr] at h1
          exact Or.inl h1
        · rw [hr] at h1
          have h2 : (if (result.t : WithTop ℚ) < acc.2 then
              ((some result : Option LineHit), (result.t : WithTop ℚ))
              else acc).1 = some lh := h1
          by_cases hlt : (result.t : WithTop ℚ) < acc.2
          · rw [if_pos hlt] at h2
            injection h2 with h2
            refine Or.inr ⟨i, List.mem_cons_self i t, ?_⟩
            rw [hr, h2]
          · rw [if_neg hlt] at h2
            exact Or.inl h2
      · exact Or.inr ⟨j, List.mem_cons_of_mem i hj, hrls⟩

/-- A polygon hit yields a positive ray parameter whose point lies on an
edge between two of the polygon's vertices. -/
theorem rayPolygon_hit_witness (sq : ℚ → ℚ) (o d : V) (vs : List V)
    (obj : Shape)
    (h : (rayPolygonIntersection sq o d vs obj).hit = true) :
    ∃ t : ℚ, 0 < t ∧ ∃ u p1 p2, 0 ≤ u ∧ u ≤ 1 ∧ p1 ∈ vs ∧ p2 ∈ vs ∧
      o.x + t * d.x = p1.x + u * (p2.x - p1.x) ∧
      o.y + t * d.y = p1.y + u * (p2.y - p1.y) := by
  rw [rayPolygonIntersection_eq] at h
  cases hacc : (polyAcc sq o d vs).1 with
  | none =>
      rw [hacc] at h
      cases h
  | some lh =>
      rw [polyAcc_eq] at hacc
      rcases polyStep_fold_source sq o d vs (List.range vs.length)
          (none, ⊤) lh hacc with h1 | ⟨i, hi, hrls⟩
      · cases h1
      · obtain ⟨ht, u, hu0, hu1, hxeq, hyeq⟩ :=
          rls_some_spec sq o d _ _ lh hrls
        have hn : 0 < vs.length := by
          rcases List.mem_range.mp hi with hilt
          omega
        have hp1 : vs.getD i ⟨0, 0⟩ ∈ vs := by
          rw [List.getD_eq_getElem vs ⟨0, 0⟩ (List.mem_range.mp hi)]
          exact List.getElem_mem _
        have hp2 : vs.getD ((i + 1) % vs.length) ⟨0, 0⟩ ∈ vs := by
          rw [List.getD_eq_getElem vs ⟨0, 0⟩ (Nat.mod_lt _ hn)]
          exact List.getElem_mem _
        exact ⟨lh.t, lt_of_lt_of_le (by norm_num [EPSILON]) ht,
          u, _, _, hu0, hu1, hp1, hp2, hxeq, hyeq⟩

/-- Box `inner` lies inside box `outer`. -/
def boxLe (inner outer : AABB) : Prop :=
  outer.minX ≤ inner.minX ∧ outer.minY ≤ inner.minY ∧
    inner.maxX ≤ outer.maxX ∧ inner.maxY ≤ outer.maxY

theorem inAABB_mono (p : V) (inner outer : AABB) (hle : boxLe inner outer)
    (h : inAABB p inner) : inAABB p outer := by
  obtain ⟨l1, l2, l3, l4⟩ := hle
  obtain ⟨h1, h2, h3, h4⟩ := h
  exact ⟨by linarith, by linarith, by linarith, by linarith⟩

theorem foldl_min_le_init (l : List ℚ) : ∀ a : ℚ, l.foldl min a ≤ a := by
  induction l with
  | nil => exact fun a => le_refl a
  | cons x t ih =>
      intro a
      rw [List.foldl_cons]
      exact le_trans (ih (min a x)) (min_le_left a x)

theorem foldl_min_le_mem (l : List ℚ) :
    ∀ (a x : ℚ), x ∈ l → l.foldl min a ≤ x := by
  induction l with
  | nil => intro a x hx; cases hx
  | cons y t ih =>
      intro a x hx
      rw [List.foldl_cons]
      rcases List.mem_cons.mp hx with h1 | h2
      · exact le_trans (foldl_min_le_init t (min a y))
          (h1 ▸ min_le_right a y)
      · exact ih (min a y) x h2

theorem le_foldl_max_init (l : List ℚ) : ∀ a : ℚ, a ≤ l.foldl max a := by
  induction l with
  | nil => exact fun a => le_refl a
  | cons x t ih =>
      intro a
      rw [List.foldl_cons]
      exact le_trans (le_max_left a x) (ih (max a x))

theorem le_foldl_max_mem (l : List ℚ) :
    ∀ (a x : ℚ), x ∈ l → x ≤ l.foldl max a := by
  induction l with
  | nil => intro a x hx; cases hx
  | cons y t ih =>
      intro a x hx
      rw [List.foldl_cons]
      rcases List.mem_cons.mp hx with h1 | h2
      · exact le_trans (h1 ▸ le_max_right a y) (le_foldl_max_init t _)
      · exact ih (max a y) x h2

/-- The combined bounding box covers each input box. -/
theorem computeBoundingBox_covers (bbs : List AABB) (bb : AABB)
    (hmem : bb ∈ bbs) (b : AABB) (hcb : computeBoundingBox bbs = some b) :
    boxLe bb b := by
  cases bbs with
  | nil => cases hmem
  | cons b0 bs =>
      injection hcb with hcb
      rw [← hcb]
      rcases List.mem_cons.mp hmem with h1 | h2
      · subst h1
        exact ⟨foldl_min_le_init _ _, foldl_min_le_init _ _,
          le_foldl_max_init _ _, le_foldl_max_init _ _⟩
      · exact ⟨foldl_min_le_mem _ _ _ (List.mem_map_of_mem _ h2),
          foldl_min_le_mem _ _ _ (List.mem_map_of_mem _ h2),
          le_foldl_max_mem _ _ _ (List.mem_map_of_mem _ h2),
          le_foldl_max_mem _ _ _ (List.mem_map_of_mem _ h2)⟩

/-- A shape whose hit exists cannot sit in a rejected box: contrapositive
of the slab completeness together with convexity. -/
theorem shapeHit_none_of_miss (sq : ℚ → ℚ) (ray : Ray)
    (med : Option Shape) (sh : Shape) (b : AABB)
    (hv : ∀ v ∈ sh.vertices, inAABB v sh.bbox)
    (hle : boxLe sh.bbox b)
    (hmiss : intersectsAABB ray (some b) = false) :
    shapeHit sq ray med sh = none := by
  cases hsh : shapeHit sq ray med sh with
  | none => rfl
  | some i =>
      exfalso
      have hhit : (rayObjectIntersection sq ray sh).hit = true := by
        unfold shapeHit at hsh
        by_cases hskip : skipsShape med sh
        · rw [if_pos hskip] at hsh
          cases hsh
        · rw [if_neg hskip] at hsh
          simp only at hsh
          by_cases hobj : (rayObjectIntersection sq ray sh).hit
          · exact hobj
          · rw [if_neg hobj] at hsh
            cases hsh
      obtain ⟨t, ht, u, p1, p2, hu0, hu1, hp1, hp2, hxeq, hyeq⟩ :=
        rayPolygon_hit_witness sq ray.origin ray.direction sh.vertices sh
          hhit
      have hpin : inAABB ⟨ray.origin.x + t * ray.direction.x,
          ray.origin.y + t * ray.direction.y⟩ sh.bbox := by
        rw [show (⟨ray.origin.x + t * ray.direction.x,
            ray.origin.y + t * ray.direction.y⟩ : V) =
            ⟨p1.x + u * (p2.x - p1.x), p1.y + u * (p2.y - p1.y)⟩ by
          rw [hxeq, hyeq]]
        exact point_in_box p1 p2 sh.bbox u (hv p1 hp1) (hv p2 hp2) hu0 hu1
      have := intersectsAABB_complete ray b t ht
        (inAABB_mono _ sh.bbox b hle hpin)
      rw [hmiss] at this
      cases this

/-- When the combined box of a shape list is rejected, no shape of the
list yields a hit candidate. -/
theorem filterMap_nil_of_miss (sq : ℚ → ℚ) (ray : Ray)
    (med : Option Shape) (objs : List Shape)
    (hv : ∀ sh ∈ objs, ∀ v ∈ sh.vertices, inAABB v sh.bbox)
    (hbox : intersectsAABB ray
      (computeBoundingBox (objs.map Shape.bbox)) = false) :
    objs.filterMap (shapeHit sq ray med) = [] := by
  rw [List.filterMap_eq_nil_iff]
  intro sh hsh
  cases hcb : computeBoundingBox (objs.map Shape.bbox) with
  | none =>
      cases objs with
      | nil => cases hsh
      | cons a t =>
          rw [List.map_cons] at hcb
          simp [computeBoundingBox] at hcb
  | some b =>
      rw [hcb] at hbox
      exact shapeHit_none_of_miss sq ray med sh b (hv sh hsh)
        (computeBoundingBox_covers _ sh.bbox
          (List.mem_map_of_mem _ hsh) b hcb) hbox

/-- A leaf node over a shape list reproduces the any-hit flag and
minimum distance of the list's candidates. -/
theorem traverse_leaf_spec (sq : ℚ → ℚ) (ray : Ray) (med : Option Shape)
    (objs : List Shape)
    (hv : ∀ sh ∈ objs, ∀ v ∈ sh.vertices, inAABB v sh.bbox) :
    (traverseNode sq ray med
      (.mk (computeBoundingBox (objs.map Shape.bbox)) objs true none
        none)).hit = anyHit (objs.filterMap (shapeHit sq ray med)) ∧
    (traverseNode sq ray med
      (.mk (computeBoundingBox (objs.map Shape.bbox)) objs true none
        none)).distance = bestD (objs.filterMap (shapeHit sq ray med)) := by
  rw [traverseNode_mk]
  by_cases hbox : intersectsAABB ray
      (computeBoundingBox (objs.map Shape.bbox)) = false
  · rw [if_pos hbox, filterMap_nil_of_miss sq ray med objs hv hbox]
    exact ⟨rfl, rfl⟩
  · rw [if_neg hbox, if_pos rfl]
    exact ⟨closest_hit _, closest_distance _⟩

/-- The internal-node merge reproduces any-hit and minimum distance of
the two sides. -/
theorem merge_spec (L R : Intersection) (lf rf : List Intersection)
    (hL1 : L.hit = anyHit lf) (hL2 : L.distance = bestD lf)
    (hR1 : R.hit = anyHit rf) (hR2 : R.distance = bestD rf) :
    (if L.hit = false then R else if R.hit = false then L
      else if L.distance < R.distance then L else R).hit =
      (anyHit lf || anyHit rf) ∧
    (if L.hit = false then R else if R.hit = false then L
      else if L.distance < R.distance then L else R).distance =
      min (bestD lf) (bestD rf) := by
  by_cases hLh : L.hit = false
  · rw [if_pos hLh]
    constructor
    · rw [hR1, ← hL1, hLh]
      rfl
    · have hlf : bestD lf = ⊤ :=
        bestD_of_noHit lf (by rw [← hL1]; exact hLh)
      rw [hR2, hlf, min_eq_right le_top]
  · have hLt : L.hit = true := by
      cases hh : L.hit
      · exact absurd hh hLh
      · rfl
    rw [if_neg hLh]
    by_cases hRh : R.hit = false
    · rw [if_pos hRh]
      constructor
      · rw [hL1, ← hR1, hRh, Bool.or_false]
      · have hrf : bestD rf = ⊤ :=
          bestD_of_noHit rf (by rw [← hR1]; exact hRh)
        rw [hL2, hrf, min_eq_left le_top]
    · rw [if_neg hRh]
      by_cases hd : L.distance < R.distance
      · rw [if_pos hd]
        constructor
        · rw [← hL1, ← hR1, hLt]
          rfl
        · rw [← hL2, ← hR2, min_eq_left (le_of_lt hd)]
      · rw [if_neg hd]
        constructor
        · have hRt : R.hit = true := by
            cases hh : R.hit
            · exact absurd hh hRh
            · rfl
          rw [← hL1, ← hR1, hRt, Bool.or_true]
        · rw [← hL2, ← hR2, min_eq_right (le_of_not_lt hd)]

/-- The tree `build` returns computes, at its root, exactly the any-hit
flag and minimum hit distance of the brute-force candidate list — box
pruning discards only shapes that cannot hit, and the two-child merge
keeps the closer side. -/
theorem traverse_build_spec (sq : ℚ → ℚ) (ray : Ray) (med : Option Shape)
    (m : ℕ) (objects : List Shape)
    (hv : ∀ sh ∈ objects, ∀ v ∈ sh.vertices, inAABB v sh.bbox) :
    (traverseNode sq ray med (build m objects)).hit =
      anyHit (objects.filterMap (shapeHit sq ray med)) ∧
    (traverseNode sq ray med (build m objects)).distance =
      bestD (objects.filterMap (shapeHit sq ray med)) := by
  induction objects using build.induct m with
  | case1 objs h =>
      rw [build, if_pos h]
      exact traverse_leaf_spec sq ray med objs hv
  | case2 objs bbs h hsplit =>
      have hbbs : bbs = objs.map Shape.bbox := rfl
      rw [hbbs] at hsplit
      rw [build, if_neg h]
      split
      · exact traverse_leaf_spec sq ray med objs hv
      · rename_i s heq
        rw [hsplit] at heq
        cases heq
  | case3 objs bbs h split hsplit hdeg =>
      have hbbs : bbs = objs.map Shape.bbox := rfl
      rw [hbbs] at hsplit
      rw [build, if_neg h]
      split
      · exact traverse_leaf_spec sq ray med objs hv
      · rename_i s heq
        rw [hsplit] at heq
        injection heq with heq
        subst heq
        rw [dif_pos hdeg]
        exact traverse_leaf_spec sq ray med objs hv
  | case4 objs bbs h split hsplit hdeg ihl ihr =>
      have hbbs : bbs = objs.map Shape.bbox := rfl
      rw [hbbs] at hsplit
      rw [build, if_neg h]
      split
      · rename_i heq
        rw [hsplit] at heq
        cases heq
      · rename_i s heq
        rw [hsplit] at heq
        injection heq with heq
        subst heq
        rw [dif_neg hdeg]
        have hperm := findBestSplit_perm objs (objs.map Shape.bbox)
          (by simp) split hsplit
        have hvl : ∀ sh ∈ split.leftObjects, ∀ v ∈ sh.vertices,
            inAABB v sh.bbox := fun sh hsh =>
          hv sh (hperm.subset (List.mem_append_left _ hsh))
        have hvr : ∀ sh ∈ split.rightObjects, ∀ v ∈ sh.vertices,
            inAABB v sh.bbox := fun sh hsh =>
          hv sh (hperm.subset (List.mem_append_right _ hsh))
        obtain ⟨ihl1, ihl2⟩ := ihl hvl
        obtain ⟨ihr1, ihr2⟩ := ihr hvr
        rw [traverseNode_mk]
        by_cases hbox : intersectsAABB ray
            (computeBoundingBox (objs.map Shape.bbox)) = false
        · rw [if_pos hbox,
            filterMap_nil_of_miss sq ray med objs hv hbox]
          exact ⟨rfl, rfl⟩
        · rw [if_neg hbox, if_neg (by decide : ¬ false = true)]
          have hha : anyHit (objs.filterMap (shapeHit sq ray med)) =
              (anyHit (split.leftObjects.filterMap
                  (shapeHit sq ray med)) ||
                anyHit (split.rightObjects.filterMap
                  (shapeHit sq ray med))) := by
            rw [← anyHit_perm (hperm.filterMap (shapeHit sq ray med)),
              List.filterMap_append, anyHit_append]
          have hhd : bestD (objs.filterMap (shapeHit sq ray med)) =
              min (bestD (split.leftObjects.filterMap
                  (shapeHit sq ray med)))
                (bestD (split.rightObjects.filterMap
                  (shapeHit sq ray med))) := by
            rw [← bestD_perm (hperm.filterMap (shapeHit sq ray med)),
              List.filterMap_append, bestD_append]
          rw [hha, hhd]
          exact merge_spec
            (traverseNode sq ray med (build m split.leftObjects))
            (traverseNode sq ray med (build m split.rightObjects))
            (split.leftObjects.filterMap (shapeHit sq ray med))
            (split.rightObjects.filterMap (shapeHit sq ray med))
            ihl1 ihl2 ihr1 ihr2

/-! ### Concrete fixtures for witnesses -/

/-- A trivial stand-in for `Math.sqrt` at concrete evaluations whose
results do not depend on it. -/
def sqZ : ℚ → ℚ := fun _ => 0

def matA : Material := ⟨1 / 2, 3 / 2⟩

def matB : Material := ⟨1 / 2, 2⟩

/-- An axis-aligned 10×10 square obstacle. -/
def shapeA : Shape :=
  ⟨1, false, [⟨0, 0⟩, ⟨10, 0⟩, ⟨10, 10⟩, ⟨0, 10⟩], ⟨0, 0, 10, 10⟩, matA,
    fun _ => false⟩

/-- A second square obstacle with a different refractive index. -/
def shapeB : Shape :=
  ⟨2, false, [⟨20, 0⟩, ⟨30, 0⟩, ⟨30, 10⟩, ⟨20, 10⟩], ⟨20, 0, 30, 10⟩, matB,
    fun _ => false⟩

def rayW : Ray := ⟨⟨0, 0⟩, ⟨0, 0⟩, 1, 0⟩

def rayW2 : Ray := ⟨⟨0, 0⟩, ⟨1, 0⟩, 1, 0⟩

def interW2 : Intersection := ⟨true, (5 : ℚ), ⟨0, 0⟩, ⟨0, 1⟩, some shapeA⟩

/-! ### Helper characterisations for the optics claims -/

/-- The `dot = -(I·N)` quantity (`cos θᵢ`) computed inside `refract`. -/
def refractDot {F : Type} [LinearOrderedField F] (I N : Vec2 F) : F :=
  -(I.x * N.x + I.y * N.y)

/-- The discriminant `k = 1 - η²(1 - cos²θᵢ)` computed inside
`refract`, with `η = n1/n2`. -/
def refractK {F : Type} [LinearOrderedField F] (I N : Vec2 F)
    (n1 n2 : F) : F :=
  1 - n1 / n2 * (n1 / n2) * (1 - refractDot I N * refractDot I N)

/-- `refract` in applied form (definitional unfolding of its `let`s). -/
theorem refract_eq {F : Type} [LinearOrderedField F] (sq : F → F)
    (I N : Vec2 F) (n1 n2 : F) :
    LightCalculator.refract sq I N n1 n2 =
      if refractK I N n1 n2 < 0 then none
      else
        some ⟨n1 / n2 * I.x +
            (n1 / n2 * refractDot I N - sq (refractK I N n1 n2)) * N.x,
          n1 / n2 * I.y +
            (n1 / n2 * refractDot I N - sq (refractK I N n1 n2)) * N.y⟩ :=
  rfl

/-- `refract` returns `none` exactly when `k < 0`, and the closed
refraction formula otherwise. -/
theorem refract_spec {F : Type} [LinearOrderedField F] (sq : F → F)
    (I N : Vec2 F) (n1 n2 : F) :
    (LightCalculator.refract sq I N n1 n2 = none ↔
      refractK I N n1 n2 < 0) ∧
    (¬ refractK I N n1 n2 < 0 →
      LightCalculator.refract sq I N n1 n2 =
        some ⟨n1 / n2 * I.x +
            (n1 / n2 * refractDot I N - sq (refractK I N n1 n2)) * N.x,
          n1 / n2 * I.y +
            (n1 / n2 * refractDot I N - sq (refractK I N n1 n2)) * N.y⟩) := by
  rw [refract_eq]
  split
  · rename_i h
    exact ⟨⟨fun _ => h, fun _ => rfl⟩, fun hc => absurd h hc⟩
  · rename_i h
    exact ⟨⟨fun hh => Option.noConfusion hh, fun hk => absurd hk h⟩,
      fun _ => rfl⟩

/-! ### Claim theorems -/

/-- C2: at a surface hit where refraction succeeds, `calculateNextRays`
produces a reflected ray with intensity `parent × reflectivity` that
keeps the parent's medium together with a refracted ray with intensity
`parent × (1 - reflectivity)` whose medium flips between air (`none`)
and the hit object; when refraction fails (total internal reflection) it
produces the reflected ray alone, in the parent's medium, with intensity
multiplier `1 = reflectivity + (1 - reflectivity)`. -/
theorem C2_calculateNextRays (sq : ℚ → ℚ) (settings : Settings) (ray : Ray)
    (inter : Intersection) (med : Option Shape) :
    (∀ rd, LightCalculator.refract sq ray.direction inter.normal
        (refractionIndices settings med
          (inter.obj.getD dummyShape).material).1
        (refractionIndices settings med
          (inter.obj.getD dummyShape).material).2 = some rd →
      (calculateNextRays sq settings ray inter med).reflected.intensity =
          ray.intensity * (inter.obj.getD dummyShape).material.reflectivity ∧
        (calculateNextRays sq settings ray inter med).reflectedMedium = med ∧
        (∃ rr, (calculateNextRays sq settings ray inter med).refracted =
            some rr ∧
          rr.intensity =
            ray.intensity *
              (1 - (inter.obj.getD dummyShape).material.reflectivity)) ∧
        (calculateNextRays sq settings ray inter med).refractedMedium =
          (match med with
            | none => some (inter.obj.getD dummyShape)
            | some _ => none)) ∧
    (LightCalculator.refract sq ray.direction inter.normal
        (refractionIndices settings med
          (inter.obj.getD dummyShape).material).1
        (refractionIndices settings med
          (inter.obj.getD dummyShape).material).2 = none →
      (calculateNextRays sq settings ray inter med).refracted = none ∧
        (calculateNextRays sq settings ray inter med).reflected.intensity =
          ray.intensity * 1 ∧
        (calculateNextRays sq settings ray inter med).reflectedMedium = med ∧
        (inter.obj.getD dummyShape).material.reflectivity +
          (1 - (inter.obj.getD dummyShape).material.reflectivity) = 1) := by
  constructor
  · intro rd h
    rw [calculateNextRays_eq, h]
    refine ⟨rfl, rfl, ⟨ray.spawn sq inter.point rd
      (1 - (inter.obj.getD dummyShape).material.reflectivity), rfl, rfl⟩, ?_⟩
    cases med <;> rfl
  · intro h
    rw [calculateNextRays_eq, h]
    exact ⟨rfl, rfl, rfl, by ring⟩

/-- C2 witness: a concrete successful refraction (entering from air) and
a concrete total internal reflection (inside `shapeB`, `n1 = 2`,
`n2 = 1`, grazing direction). -/
theorem C2_witness :
    (LightCalculator.refract sqZ rayW.direction Intersection.noHit.normal
        (refractionIndices defaultSettings none
          (Intersection.noHit.obj.getD dummyShape).material).1
        (refractionIndices defaultSettings none
          (Intersection.noHit.obj.getD dummyShape).material).2 =
      some ⟨0, 0⟩) ∧
    (calculateNextRays sqZ defaultSettings rayW Intersection.noHit
        none).reflectedMedium = none ∧
    (LightCalculator.refract sqZ rayW2.direction interW2.normal
        (refractionIndices defaultSettings (some shapeB)
          (interW2.obj.getD dummyShape).material).1
        (refractionIndices defaultSettings (some shapeB)
          (interW2.obj.getD dummyShape).material).2 = none) ∧
    (calculateNextRays sqZ defaultSettings rayW2 interW2
        (some shapeB)).refracted = none := by
  have h1 : LightCalculator.refract sqZ rayW.direction
      Intersection.noHit.normal
      (refractionIndices defaultSettings none
        (Intersection.noHit.obj.getD dummyShape).material).1
      (refractionIndices defaultSettings none
        (Intersection.noHit.obj.getD dummyShape).material).2 =
      some ⟨0, 0⟩ := by
    rw [refract_eq]
    norm_num [refractK, refractDot, refractionIndices, defaultSettings,
      dummyShape, sqZ, rayW, Intersection.noHit]
  have h2 : LightCalculator.refract sqZ rayW2.direction interW2.normal
      (refractionIndices defaultSettings (some shapeB)
        (interW2.obj.getD dummyShape).material).1
      (refractionIndices defaultSettings (some shapeB)
        (interW2.obj.getD dummyShape).material).2 = none := by
    rw [refract_eq]
    norm_num [refractK, refractDot, refractionIndices, defaultSettings,
      shapeB, matB, sqZ, rayW2, interW2]
  exact ⟨h1,
    (((C2_calculateNextRays sqZ defaultSettings rayW Intersection.noHit
      none).1 ⟨0, 0⟩ h1).2).1,
    h2,
    ((C2_calculateNextRays sqZ defaultSettings rayW2 interW2
      (some shapeB)).2 h2).1⟩

/-- C3 counterexample: inside `shapeA` (refractive index `3/2`) and
hitting the different object `shapeB` (refractive index `2`) — a ray
that is entering `shapeB` in the claim's sense — the code picks
`n2 = air = 1`, not `shapeB`'s material index `2` as the claim
states. -/
theorem C3_counterexample :
    refractionIndices defaultSettings (some shapeA) shapeB.material =
        (3 / 2, 1) ∧
      shapeB.material.refractiveIndex = 2 ∧
      ¬ (refractionIndices defaultSettings (some shapeA)
          shapeB.material).2 = shapeB.material.refractiveIndex := by
  refine ⟨?_, ?_, ?_⟩ <;>
    norm_num [refractionIndices, defaultSettings, shapeA, shapeB, matA, matB]

/-- C3 (amended): the refractive-index pair depends only on whether the
current medium is `null`: from air, `n1 = air` and `n2` = hit material's
index; inside any medium — even one different from the hit object —
`n1` = that medium's index and `n2 = air`.  The refraction attempted by
`calculateNextRays` succeeds exactly when `refract` with this pair
does. -/
theorem C3_refractionIndices :
    (∀ (settings : Settings) (mat : Material),
      refractionIndices settings none mat =
        (settings.airRefractiveIndex, mat.refractiveIndex)) ∧
    (∀ (settings : Settings) (mat : Material) (m : Shape),
      refractionIndices settings (some m) mat =
        (m.material.refractiveIndex, settings.airRefractiveIndex)) ∧
    (∀ (sq : ℚ → ℚ) (settings : Settings) (ray : Ray)
        (inter : Intersection) (med : Option Shape),
      (calculateNextRays sq settings ray inter med).refracted.isSome =
        (LightCalculator.refract sq ray.direction inter.normal
          (refractionIndices settings med
            (inter.obj.getD dummyShape).material).1
          (refractionIndices settings med
            (inter.obj.getD dummyShape).material).2).isSome) := by
  refine ⟨fun _ _ => rfl, fun _ _ _ => rfl, ?_⟩
  intro sq settings ray inter med
  rw [calculateNextRays_eq]
  cases h : LightCalculator.refract sq ray.direction inter.normal
      (refractionIndices settings med
        (inter.obj.getD dummyShape).material).1
      (refractionIndices settings med
        (inter.obj.getD dummyShape).material).2 <;>
    rfl

/-- C6: `refract(I, N, n1, n2)` returns `none` exactly when
`k = 1 - η²(1 - cos²θᵢ) < 0` (with `η = n1/n2`,
`cosθᵢ = -(I·N)`), and otherwise returns
`T = ηI + (η cosθᵢ - √k)N`; for `n1 = 1.5`, `n2 = 1.0` it returns
`none` exactly for incidence angles above `arcsin(1/1.5) = arcsin(2/3)`
and a value below. -/
theorem C6_refract :
    (∀ (I N : Vec2 ℝ) (n1 n2 : ℝ),
      (LightCalculator.refract Real.sqrt I N n1 n2 = none ↔
        refractK I N n1 n2 < 0) ∧
      (0 ≤ refractK I N n1 n2 →
        LightCalculator.refract Real.sqrt I N n1 n2 =
          some ⟨n1 / n2 * I.x +
              (n1 / n2 * refractDot I N -
                Real.sqrt (refractK I N n1 n2)) * N.x,
            n1 / n2 * I.y +
              (n1 / n2 * refractDot I N -
                Real.sqrt (refractK I N n1 n2)) * N.y⟩)) ∧
    (∀ θ : ℝ, 0 ≤ θ → θ < Real.pi / 2 →
      (LightCalculator.refract Real.sqrt ⟨Real.sin θ, -Real.cos θ⟩
          ⟨0, 1⟩ (3 / 2) 1 = none ↔ Real.arcsin (2 / 3) < θ)) := by
  constructor
  · intro I N n1 n2
    refine ⟨(refract_spec Real.sqrt I N n1 n2).1, fun hk => ?_⟩
    exact (refract_spec Real.sqrt I N n1 n2).2 (not_lt.mpr hk)
  · intro θ h0 h2
    rw [(refract_spec Real.sqrt ⟨Real.sin θ, -Real.cos θ⟩ ⟨0, 1⟩
      (3 / 2) 1).1]
    have hsin : 0 ≤ Real.sin θ :=
      Real.sin_nonneg_of_nonneg_of_le_pi h0
        (le_trans h2.le (by linarith [Real.pi_pos]))
    have hpyth := Real.sin_sq_add_cos_sq θ
    have harc : Real.arcsin (2 / 3) < θ ↔ (2 : ℝ) / 3 < Real.sin θ :=
      Real.arcsin_lt_iff_lt_sin (by constructor <;> norm_num)
        ⟨by linarith [Real.pi_div_two_pos], h2.le⟩
    rw [harc]
    unfold refractK refractDot
    simp only
    constructor
    · intro hk
      nlinarith [hsin, hpyth]
    · intro hs
      nlinarith [hsin, hpyth]

/-- C6 witness: at normal incidence (`θ = 0`) refraction from glass into
air succeeds, and the general clause applied at `I = (0, -1)`,
`N = (0, 1)`, `n1 = n2 = 1` also yields a value. -/
theorem C6_witness :
    ((0 : ℝ) ≤ 0 ∧ (0 : ℝ) < Real.pi / 2 ∧
      (LightCalculator.refract Real.sqrt
          ⟨Real.sin 0, -Real.cos 0⟩ ⟨0, 1⟩ (3 / 2) 1 = none ↔
        Real.arcsin (2 / 3) < 0)) ∧
    (0 ≤ refractK (⟨0, -1⟩ : Vec2 ℝ) ⟨0, 1⟩ 1 1 ∧
      LightCalculator.refract Real.sqrt (⟨0, -1⟩ : Vec2 ℝ) ⟨0, 1⟩ 1 1 =
        some ⟨1 / 1 * 0 +
            (1 / 1 * refractDot (⟨0, -1⟩ : Vec2 ℝ) ⟨0, 1⟩ -
              Real.sqrt (refractK (⟨0, -1⟩ : Vec2 ℝ) ⟨0, 1⟩ 1 1)) * 0,
          1 / 1 * (-1) +
            (1 / 1 * refractDot (⟨0, -1⟩ : Vec2 ℝ) ⟨0, 1⟩ -
              Real.sqrt (refractK (⟨0, -1⟩ : Vec2 ℝ) ⟨0, 1⟩ 1 1)) * 1⟩) :=
  ⟨⟨le_refl 0, Real.pi_div_two_pos,
      C6_refract.2 0 (le_refl 0) Real.pi_div_two_pos⟩,
    ⟨by norm_num [refractK, refractDot],
      (C6_refract.1 ⟨0, -1⟩ ⟨0, 1⟩ 1 1).2
        (by norm_num [refractK, refractDot])⟩⟩

/-- C7 counterexample: at normal incidence `I = (0,-1)`, `N = (0,1)` the
code's reflection gives `R = (0,1)`, so `(R + I)·N = 0` while
`2(I·N)·1 = -2`: the claimed mirror-law equation fails. -/
theorem C7_counterexample :
    ¬ (dotV ⟨(LightCalculator.reflect (⟨0, -1⟩ : Vec2 ℝ) ⟨0, 1⟩).x + 0,
          (LightCalculator.reflect (⟨0, -1⟩ : Vec2 ℝ) ⟨0, 1⟩).y + -1⟩
        (⟨0, 1⟩ : Vec2 ℝ) =
      2 * dotV (⟨0, -1⟩ : Vec2 ℝ) ⟨0, 1⟩ * 1) := by
  norm_num [LightCalculator.reflect, dotV]

/-- C7 (amended): for unit `I` and `N`, `reflect(I,N) = I - 2(I·N)N` is
unit length; the mirror law holds in the form
`(I - reflect(I,N))·N = 2(I·N)·1` (equivalently
`(reflect(I,N) + I)·N = 0`, the claimed equation being off by a sign);
and `reflect((1,0),(0,1)) = (1,0)`, `reflect((0,-1),(0,1)) = (0,1)`. -/
theorem C7_reflect (I N : Vec2 ℝ) (hI : normSq I = 1) (hN : normSq N = 1) :
    LightCalculator.reflect I N =
        ⟨I.x - 2 * dotV I N * N.x, I.y - 2 * dotV I N * N.y⟩ ∧
      normSq (LightCalculator.reflect I N) = 1 ∧
      Real.sqrt (normSq (LightCalculator.reflect I N)) = 1 ∧
      dotV ⟨I.x - (LightCalculator.reflect I N).x,
          I.y - (LightCalculator.reflect I N).y⟩ N = 2 * dotV I N * 1 ∧
      dotV ⟨(LightCalculator.reflect I N).x + I.x,
          (LightCalculator.reflect I N).y + I.y⟩ N = 0 ∧
      LightCalculator.reflect (⟨1, 0⟩ : Vec2 ℝ) ⟨0, 1⟩ = ⟨1, 0⟩ ∧
      LightCalculator.reflect (⟨0, -1⟩ : Vec2 ℝ) ⟨0, 1⟩ = ⟨0, 1⟩ := by
  have hsq : normSq (LightCalculator.reflect I N) = 1 := by
    simp only [LightCalculator.reflect, normSq] at *
    linear_combination hI + (4 * (I.x * N.x + I.y * N.y) ^ 2) * hN
  refine ⟨rfl, hsq, by rw [hsq]; exact Real.sqrt_one, ?_, ?_, ?_, ?_⟩
  · simp only [LightCalculator.reflect, normSq, dotV] at *
    linear_combination (2 * (I.x * N.x + I.y * N.y)) * hN
  · simp only [LightCalculator.reflect, normSq, dotV] at *
    linear_combination (-2 * (I.x * N.x + I.y * N.y)) * hN
  · simp only [LightCalculator.reflect]
    norm_num
  · simp only [LightCalculator.reflect]
    norm_num

/-- C7 witness: the amended theorem applied at the concrete unit pair
`I = (0,-1)`, `N = (0,1)`. -/
theorem C7_witness :
    normSq (⟨0, -1⟩ : Vec2 ℝ) = 1 ∧ normSq (⟨0, 1⟩ : Vec2 ℝ) = 1 ∧
      normSq (LightCalculator.reflect (⟨0, -1⟩ : Vec2 ℝ) ⟨0, 1⟩) = 1 :=
  ⟨by norm_num [normSq], by norm_num [normSq],
    (C7_reflect ⟨0, -1⟩ ⟨0, 1⟩ (by norm_num [normSq])
      (by norm_num [normSq])).2.1⟩

/-- C8: in every tree `BVH.build` returns (with at least one object
allowed per leaf; the engine always passes 4), each leaf holds at most
`maxObjectsPerLeaf` shapes, each internal node has exactly two children,
and no shape is dropped: the leaves hold a permutation of the input.
The degenerate-split fallback emits a leaf rather than an error, and
`findBestSplit` in fact always accepts a candidate for two or more
objects, so the fallback is provably unreachable from `build`. -/
theorem C8_build_wellformed (m : ℕ) (objects : List Shape) (hm : 1 ≤ m) :
    goodTree m (build m objects) ∧
      (treeObjs (build m objects)).Perm objects ∧
      (∀ objs2 : List Shape, 2 ≤ objs2.length →
        ∃ s, findBestSplit objs2 (objs2.map Shape.bbox) = some s ∧
          s.leftObjects ≠ [] ∧ s.rightObjects ≠ []) :=
  ⟨build_goodTree m objects hm, build_treeObjs_perm m objects,
    fun objs2 h2 => findBestSplit_total objs2 (objs2.map Shape.bbox)
      (by simp) h2⟩

/-- C8 witness: the engine's leaf bound `4` on a one-object scene. -/
theorem C8_witness :
    1 ≤ 4 ∧ goodTree 4 (build 4 [shapeA]) :=
  ⟨by norm_num, (C8_build_wellformed 4 [shapeA] (by norm_num)).1⟩

/-- `rebuildBVH` ignores the incoming cached state: it always returns
the freshly computed index with a cleared dirty flag. -/
theorem rebuildBVH_eq (settings : Settings) (scene : Scene)
    (ts : TracerState) :
    rebuildBVH settings scene ts =
      ⟨if (scene.objects ++ scene.targets).length = 0 then none
        else some (BVH.new (scene.objects ++ scene.targets) 4),
        false⟩ := by
  by_cases hemp : (scene.objects ++ scene.targets).length = 0
  · unfold rebuildBVH
    rw [if_pos hemp, if_pos hemp]
  · unfold rebuildBVH
    rw [if_neg hemp, if_neg hemp]

theorem traceAll_fst (sq : ℚ → ℚ) (settings : Settings) (scene : Scene)
    (ts : TracerState) :
    (traceAll sq settings scene ts).1 =
      if traceAllRebuilds ts then rebuildBVH settings scene ts else ts :=
  rfl

theorem traceAll_snd (sq : ℚ → ℚ) (settings : Settings) (scene : Scene)
    (ts : TracerState) :
    (traceAll sq settings scene ts).2 =
      traceAllSegments sq settings scene
        (if traceAllRebuilds ts then rebuildBVH settings scene ts
          else ts).bvh :=
  rfl

/-- C9 counterexample: on an empty scene the rebuild leaves `bvh = null`
with the dirty flag cleared, so the second `traceAll` call takes the
rebuild branch again (`bvhDirty || !bvh` is true): the claim that the
second call never rebuilds fails for empty scenes. -/
theorem C9_counterexample :
    traceAllRebuilds
      (traceAll sqZ defaultSettings ⟨[], [], []⟩ ⟨none, true⟩).1 = true := by
  rw [traceAll_fst]
  simp [traceAllRebuilds, rebuildBVH_eq]

/-- C9 (amended): two consecutive `traceAll` calls on an unchanged scene
return identical segment forests and identical tracer states; when the
scene holds at least one object or target the second call's rebuild
condition is false (the BVH is not rebuilt).  On an empty scene the
rebuild branch re-runs — a no-op that still returns the identical
forest. -/
theorem C9_traceAll_idempotent (sq : ℚ → ℚ) (settings : Settings)
    (scene : Scene) (ts : TracerState) :
    (traceAll sq settings scene (traceAll sq settings scene ts).1).2 =
        (traceAll sq settings scene ts).2 ∧
      (traceAll sq settings scene (traceAll sq settings scene ts).1).1 =
        (traceAll sq settings scene ts).1 ∧
      ((scene.objects ++ scene.targets).length ≠ 0 →
        traceAllRebuilds (traceAll sq settings scene ts).1 = false) := by
  have hstable : (if traceAllRebuilds (traceAll sq settings scene ts).1 then
      rebuildBVH settings scene (traceAll sq settings scene ts).1
      else (traceAll sq settings scene ts).1) =
      (traceAll sq settings scene ts).1 := by
    by_cases hr : traceAllRebuilds (traceAll sq settings scene ts).1 = true
    · rw [if_pos hr]
      rw [traceAll_fst] at hr ⊢
      by_cases h0 : traceAllRebuilds ts = true
      · rw [if_pos h0] at hr ⊢
        rw [rebuildBVH_eq] at hr ⊢
        by_cases hemp : (scene.objects ++ scene.targets).length = 0
        · rw [if_pos hemp] at hr ⊢
          rw [rebuildBVH_eq, if_pos hemp]
        · rw [if_neg hemp] at hr
          simp [traceAllRebuilds] at hr
      · rw [if_neg h0] at hr
        rw [hr] at h0
        exact absurd rfl h0
    · rw [if_neg hr]
  refine ⟨?_, ?_, ?_⟩
  · rw [traceAll_snd sq settings scene (traceAll sq settings scene ts).1,
      hstable]
    rw [traceAll_snd sq settings scene ts, traceAll_fst]
  · rw [traceAll_fst sq settings scene (traceAll sq settings scene ts).1,
      hstable]
  · intro hne
    rw [traceAll_fst]
    by_cases h0 : traceAllRebuilds ts = true
    · rw [if_pos h0, rebuildBVH_eq, if_neg hne]
      simp [traceAllRebuilds]
    · rw [if_neg h0]
      simp only [Bool.not_eq_true] at h0
      exact h0

/-- C9 witness: a one-object scene; after the first call the rebuild
condition of the second call is false. -/
theorem C9_witness :
    (((⟨[shapeA], [], []⟩ : Scene).objects ++
        (⟨[shapeA], [], []⟩ : Scene).targets).length ≠ 0) ∧
      traceAllRebuilds
        (traceAll sqZ defaultSettings ⟨[shapeA], [], []⟩ ⟨none, true⟩).1 =
        false :=
  ⟨by simp,
    (C9_traceAll_idempotent sqZ defaultSettings ⟨[shapeA], [], []⟩
      ⟨none, true⟩).2.2 (by simp)⟩

/-- C10: an entry whose ray neither hits any object or target nor
crosses the canvas boundary is skipped silently: the step leaves the
arena, the root list and the queue untouched (no segment is emitted, in
particular none extending to the remaining trace distance). -/
theorem C10_silent_skip (ctx : Ctx) (e : QEntry) (st : TState)
    (h1 : (findClosestIntersection ctx.sq ctx.settings ctx.scene ctx.bvh
      e.ray e.medium).1.hit = false)
    (h2 : getCanvasBoundaryDistance ctx.settings e.ray = none) :
    traceStep ctx e st = st := by
  by_cases hdrop : e.ray.intensity < ctx.settings.minIntensity
  · exact traceStep_drop ctx e st hdrop
  · rw [traceStep_case ctx e st hdrop]
    rw [h2]
    unfold closestCandidate
    rw [h1]

/-- C10 witness: an empty scene and a ray starting left of the canvas
heading further left: no intersection, no boundary crossing, and the
step leaves the state untouched. -/
theorem C10_witness :
    (findClosestIntersection sqZ defaultSettings ⟨[], [], []⟩ none
        ⟨⟨-10, 300⟩, ⟨-1, 0⟩, 1, 0⟩ none).1.hit = false ∧
    getCanvasBoundaryDistance defaultSettings
        ⟨⟨-10, 300⟩, ⟨-1, 0⟩, 1, 0⟩ = none ∧
    traceStep ⟨sqZ, defaultSettings, ⟨[], [], []⟩, none⟩
        ⟨⟨⟨-10, 300⟩, ⟨-1, 0⟩, 1, 0⟩, none, 10000, ⟨-10, 300⟩, none⟩
        ⟨[], [], []⟩ = ⟨[], [], []⟩ := by
  have h1 : (findClosestIntersection sqZ defaultSettings ⟨[], [], []⟩ none
      ⟨⟨-10, 300⟩, ⟨-1, 0⟩, 1, 0⟩ none).1.hit = false := by
    norm_num [findClosestIntersection, findClosestIntersectionBruteForce,
      Intersection.closest, Intersection.noHit, defaultSettings]
  have h2 : getCanvasBoundaryDistance defaultSettings
      ⟨⟨-10, 300⟩, ⟨-1, 0⟩, 1, 0⟩ = none := by
    norm_num [getCanvasBoundaryDistance, defaultSettings]
  exact ⟨h1, h2,
    C10_silent_skip ⟨sqZ, defaultSettings, ⟨[], [], []⟩, none⟩
      ⟨⟨⟨-10, 300⟩, ⟨-1, 0⟩, 1, 0⟩, none, 10000, ⟨-10, 300⟩, none⟩
      ⟨[], [], []⟩ h1 h2⟩

/-- C4: when the nearest termination of a processed queue entry is a
target, the loop body of `traceRay` appends a terminal segment with
`hitsTarget = true` and no children stopping at the target point, leaves
the queue untouched, and sets `hitsTarget = true` on every segment of
the parent chain; with the arena's parents decreasing (the invariant
`traceRay` maintains, `traceRay_WF`), that chain starts at the entry's
parent segment and is closed under parents, so the whole path from the
primary segment down to the target-hitting segment is marked. -/
theorem C4_target_propagation (ctx : Ctx) (e : QEntry) (st : TState)
    (hok : ¬ e.ray.intensity < ctx.settings.minIntensity)
    (htgt : closestCandidate
        (findClosestIntersection ctx.sq ctx.settings ctx.scene ctx.bvh
          e.ray e.medium).1
        (findClosestIntersection ctx.sq ctx.settings ctx.scene ctx.bvh
          e.ray e.medium).2
        (getCanvasBoundaryDistance ctx.settings e.ray) = some .target)
    (hp : ∀ q, QEntry.parent e = some q → q < st.arena.length)
    (hPL : ParentLt st.arena) :
    (traceStep ctx e st).arena.get? st.arena.length =
        some ⟨e.startPoint,
          (findClosestIntersection ctx.sq ctx.settings ctx.scene ctx.bvh
            e.ray e.medium).1.point, e.ray.intensity, true, e.parent, []⟩ ∧
      (traceStep ctx e st).queue = st.queue ∧
      (traceStep ctx e st).arena.length = st.arena.length + 1 ∧
      (∀ j ∈ parentChain (traceStep ctx e st).arena e.parent
          (traceStep ctx e st).arena.length,
        ∃ s, (traceStep ctx e st).arena.get? j = some s ∧
          s.hitsTarget = true) ∧
      (∀ i, QEntry.parent e = some i →
        i ∈ parentChain (traceStep ctx e st).arena e.parent
          (traceStep ctx e st).arena.length) ∧
      (∀ j ∈ parentChain (traceStep ctx e st).arena e.parent
          (traceStep ctx e st).arena.length,
        ∀ s, (traceStep ctx e st).arena.get? j = some s →
          ∀ q, s.parent = some q →
            q ∈ parentChain (traceStep ctx e st).arena e.parent
              (traceStep ctx e st).arena.length) := by
  have hstep : traceStep ctx e st = stepTarget e st
      (findClosestIntersection ctx.sq ctx.settings ctx.scene ctx.bvh
        e.ray e.medium).1 := by
    rw [traceStep_case ctx e st hok, htgt]
  rw [hstep]
  exact stepTarget_spec e st _ hp hPL

/-- C4 witness scene: a target square right of the origin. -/
def tgtW : Shape :=
  ⟨3, true, [⟨20, 0⟩, ⟨30, 0⟩, ⟨30, 10⟩, ⟨20, 10⟩], ⟨20, 0, 30, 10⟩, matA,
    fun _ => false⟩

def rayW4 : Ray := ⟨⟨0, 5⟩, ⟨1, 0⟩, 1, 0⟩

def ctxW4 : Ctx := ⟨sqZ, defaultSettings, ⟨[], [tgtW], []⟩, none⟩

/-- One already-emitted parent segment. -/
def seg0W : Segment := ⟨⟨0, 5⟩, ⟨0, 5⟩, 1, false, none, []⟩

def stW4 : TState := ⟨[seg0W], [0], []⟩

def eW4 : QEntry := ⟨rayW4, none, 10000, ⟨0, 5⟩, some 0⟩

/-- C4 witness: a ray heading into a target square; the step emits the
terminal target segment as child of segment 0 and marks segment 0. -/
theorem C4_witness :
    closestCandidate
        (findClosestIntersection ctxW4.sq ctxW4.settings ctxW4.scene
          ctxW4.bvh eW4.ray eW4.medium).1
        (findClosestIntersection ctxW4.sq ctxW4.settings ctxW4.scene
          ctxW4.bvh eW4.ray eW4.medium).2
        (getCanvasBoundaryDistance ctxW4.settings eW4.ray) =
        some .target ∧
      (traceStep ctxW4 eW4 stW4).arena.get? 1 =
        some ⟨⟨0, 5⟩,
          (findClosestIntersection ctxW4.sq ctxW4.settings ctxW4.scene
            ctxW4.bvh eW4.ray eW4.medium).1.point, 1, true, some 0, []⟩ ∧
      (∃ s, (traceStep ctxW4 eW4 stW4).arena.get? 0 = some s ∧
        s.hitsTarget = true) := by
  have hok : ¬ eW4.ray.intensity < ctxW4.settings.minIntensity := by
    norm_num [eW4, ctxW4, rayW4, defaultSettings]
  have hseg1 : rayLineSegmentIntersection sqZ ⟨0, 5⟩ ⟨1, 0⟩ ⟨20, 0⟩
      ⟨30, 0⟩ = none := by
    norm_num [rayLineSegmentIntersection, EPSILON]
  have hseg2 : rayLineSegmentIntersection sqZ ⟨0, 5⟩ ⟨1, 0⟩ ⟨30, 0⟩
      ⟨30, 10⟩ = some ⟨30, ⟨30, 5⟩, ⟨0, 0⟩⟩ := by
    norm_num [rayLineSegmentIntersection, EPSILON, sqZ]
  have hseg3 : rayLineSegmentIntersection sqZ ⟨0, 5⟩ ⟨1, 0⟩ ⟨30, 10⟩
      ⟨20, 10⟩ = none := by
    norm_num [rayLineSegmentIntersection, EPSILON]
  have hseg4 : rayLineSegmentIntersection sqZ ⟨0, 5⟩ ⟨1, 0⟩ ⟨20, 10⟩
      ⟨20, 0⟩ = some ⟨20, ⟨20, 5⟩, ⟨0, 0⟩⟩ := by
    norm_num [rayLineSegmentIntersection, EPSILON, sqZ]
  have hlt30 : (30 : WithTop ℚ) < ⊤ := by
    rw [show (30 : WithTop ℚ) = ((30 : ℚ) : WithTop ℚ) by norm_cast]
    exact WithTop.coe_lt_top _
  have hlt2030 : (20 : WithTop ℚ) < (30 : WithTop ℚ) := by
    rw [show (30 : WithTop ℚ) = ((30 : ℚ) : WithTop ℚ) by norm_cast,
      show (20 : WithTop ℚ) = ((20 : ℚ) : WithTop ℚ) by norm_cast,
      WithTop.coe_lt_coe]
    norm_num
  have hpoly : rayObjectIntersection sqZ rayW4 tgtW =
      ⟨true, (20 : ℚ), ⟨20, 5⟩, ⟨0, 0⟩, some tgtW⟩ := by
    show rayPolygonIntersection sqZ rayW4.origin rayW4.direction
        tgtW.vertices tgtW = _
    norm_num [rayPolygonIntersection, tgtW, rayW4, List.range_succ,
      hseg1, hseg2, hseg3, hseg4, hlt30, hlt2030]
  have hfci : findClosestIntersection ctxW4.sq ctxW4.settings ctxW4.scene
      ctxW4.bvh eW4.ray eW4.medium =
      (⟨true, (20 : ℚ), ⟨20, 5⟩, ⟨0, 0⟩, some tgtW⟩, true) := by
    show findClosestIntersection sqZ defaultSettings ⟨[], [tgtW], []⟩ none
        rayW4 none = _
    have htt : tgtW.isTarget = true := rfl
    norm_num [findClosestIntersection, findClosestIntersectionBruteForce,
      skipsShape, hpoly, Intersection.closest, Intersection.noHit,
      defaultSettings, htt, List.filterMap_cons, List.filterMap_nil,
      List.foldl_cons, List.foldl_nil]
  have hcbd : getCanvasBoundaryDistance ctxW4.settings eW4.ray =
      some 800 := by
    show getCanvasBoundaryDistance defaultSettings rayW4 = _
    norm_num [getCanvasBoundaryDistance, defaultSettings, rayW4,
      List.min?]
  have htgt : closestCandidate
      (findClosestIntersection ctxW4.sq ctxW4.settings ctxW4.scene
        ctxW4.bvh eW4.ray eW4.medium).1
      (findClosestIntersection ctxW4.sq ctxW4.settings ctxW4.scene
        ctxW4.bvh eW4.ray eW4.medium).2
      (getCanvasBoundaryDistance ctxW4.settings eW4.ray) =
      some .target := by
    rw [hfci, hcbd]
    norm_num [closestCandidate, tgtW]
    intro hcon
    rw [show (800 : WithTop ℚ) = ((800 : ℚ) : WithTop ℚ) by norm_cast,
      show (20 : WithTop ℚ) = ((20 : ℚ) : WithTop ℚ) by norm_cast,
      WithTop.coe_lt_coe] at hcon
    norm_num at hcon
  have hp : ∀ q, QEntry.parent eW4 = some q → q < stW4.arena.length := by
    intro q hq
    simp only [eW4, Option.some.injEq] at hq
    simp [stW4, ← hq]
  have hPL : ParentLt stW4.arena := by
    intro j s q hj hq
    cases j with
    | zero =>
        simp only [stW4, List.get?, Option.some.injEq] at hj
        rw [← hj] at hq
        simp [seg0W] at hq
    | succ n =>
        simp [stW4, List.get?] at hj
  have h := C4_target_propagation ctxW4 eW4 stW4 hok htgt hp hPL
  refine ⟨htgt, ?_, ?_⟩
  · have h1 := h.1
    rw [hfci] at h1 ⊢
    exact h1
  · exact h.2.2.2.1 0 (h.2.2.2.2.1 0 rfl)

/-- C5: in every segment forest `traceRay` returns — assuming each
reachable material's reflectivity lies in `[0, 1]`, the starting
medium's too, and the primary intensity is nonnegative — every emitted
segment's intensity is at least `minIntensity`, every child segment's
intensity is at most its parent's, and a queue entry below the cutoff is
dropped by the loop body without emitting a segment or enqueuing
children (the state is returned untouched). -/
theorem C5_intensity (ctx : Ctx) (ray : Ray) (maxDistance : ℚ)
    (med : Option Shape)
    (hrefl : ReflOK ctx) (hmed : MediumOK med)
    (h0 : 0 ≤ ray.intensity) :
    (∀ j s, (traceRay ctx ray maxDistance med).arena.get? j = some s →
      ctx.settings.minIntensity ≤ s.intensity) ∧
    (∀ j s, (traceRay ctx ray maxDistance med).arena.get? j = some s →
      ∀ q, s.parent = some q →
        ∀ sp, (traceRay ctx ray maxDistance med).arena.get? q = some sp →
          s.intensity ≤ sp.intensity) ∧
    (∀ (e : QEntry) (st0 : TState),
      e.ray.intensity < ctx.settings.minIntensity →
        traceStep ctx e st0 = st0) := by
  have hInv : Inv5 ctx (traceRay ctx ray maxDistance med) := by
    apply traceLoop_Inv5 ctx _ hrefl
    · refine ⟨?_, ?_⟩
      · intro j s q hj hq
        cases j <;> cases hj
      · intro e' he' q hq
        simp only [List.mem_singleton] at he'
        rw [he'] at hq
        cases hq
    · refine ⟨?_, ?_, ?_, ?_, ?_⟩
      · intro j s hj
        cases j <;> cases hj
      · intro j s hj
        cases j <;> cases hj
      · intro e' he'
        simp only [List.mem_singleton] at he'
        rw [he']
        exact h0
      · intro e' he'
        simp only [List.mem_singleton] at he'
        rw [he']
        exact hmed
      · intro e' he' q hq
        simp only [List.mem_singleton] at he'
        rw [he'] at hq
        cases hq
  exact ⟨hInv.1, hInv.2.1, fun e st0 hlt => traceStep_drop ctx e st0 hlt⟩

/-- C5 witness: the target scene satisfies the reflectivity bounds, and
an entry at intensity `1/1000 < 1/100` is processed to the untouched
state. -/
theorem C5_witness :
    ReflOK ctxW4 ∧ MediumOK none ∧ (0 : ℚ) ≤ 1 ∧
      traceStep ctxW4 ⟨⟨⟨0, 0⟩, ⟨1, 0⟩, 1 / 1000, 0⟩, none, 100, ⟨0, 0⟩,
        none⟩ ⟨[], [], []⟩ = ⟨[], [], []⟩ := by
  have hrefl : ReflOK ctxW4 := by
    intro sh hsh
    rcases hsh with hm | ⟨b, hb, _⟩
    · have hm' : sh ∈ [tgtW] := hm
      rw [List.mem_singleton] at hm'
      rw [hm']
      norm_num [tgtW, matA]
    · cases hb
  have hmed : MediumOK none := by
    intro m hm
    cases hm
  have h0 : (0 : ℚ) ≤ 1 := by norm_num
  refine ⟨hrefl, hmed, h0, ?_⟩
  exact (C5_intensity ctxW4 rayW4 10000 none hrefl hmed (by
      norm_num [rayW4])).2.2
    ⟨⟨⟨0, 0⟩, ⟨1, 0⟩, 1 / 1000, 0⟩, none, 100, ⟨0, 0⟩, none⟩
    ⟨[], [], []⟩
    (by norm_num [ctxW4, defaultSettings])

/-- C1: for any scene whose shapes' bounding boxes contain their
vertices, traversing the BVH built over `objects ++ targets` (as
`rebuildBVH` builds it) agrees with the brute-force scan over the same
shapes skipping the current medium: the hit flags are equal and the hit
distances are equal (exactly — the embedding computes in `ℚ`). -/
theorem C1_bvh_refines_bruteForce (sq : ℚ → ℚ) (ray : Ray)
    (med : Option Shape) (scene : Scene) (m : ℕ)
    (hv : ∀ sh ∈ scene.objects ++ scene.targets, ∀ v ∈ sh.vertices,
      inAABB v sh.bbox) :
    ((BVH.new (scene.objects ++ scene.targets) m).traverse sq ray
        med).hit =
      (findClosestIntersectionBruteForce sq scene ray med).hit ∧
    ((BVH.new (scene.objects ++ scene.targets) m).traverse sq ray
        med).distance =
      (findClosestIntersectionBruteForce sq scene ray med).distance := by
  rw [bruteForce_eq, closest_hit, closest_distance]
  have hroot : (BVH.new (scene.objects ++ scene.targets) m).root =
      if (scene.objects ++ scene.targets).length > 0 then
        some (build m (scene.objects ++ scene.targets))
      else none := rfl
  unfold BVH.traverse
  rw [hroot]
  by_cases hlen : (scene.objects ++ scene.targets).length > 0
  · rw [if_pos hlen]
    exact traverse_build_spec sq ray med m
      (scene.objects ++ scene.targets) hv
  · rw [if_neg hlen]
    have hnil : scene.objects ++ scene.targets = [] :=
      List.length_eq_zero.mp (by omega)
    rw [hnil]
    exact ⟨rfl, rfl⟩

/-- C1 witness: a two-shape scene (an obstacle and a target square,
boxes containing their vertices); the BVH traversal and the brute-force
scan agree on hit flag and distance. -/
theorem C1_witness :
    (∀ sh ∈ (⟨[shapeA], [tgtW], []⟩ : Scene).objects ++
        (⟨[shapeA], [tgtW], []⟩ : Scene).targets,
      ∀ v ∈ sh.vertices, inAABB v sh.bbox) ∧
    ((BVH.new ((⟨[shapeA], [tgtW], []⟩ : Scene).objects ++
        (⟨[shapeA], [tgtW], []⟩ : Scene).targets) 4).traverse sqZ rayW4
        none).hit =
      (findClosestIntersectionBruteForce sqZ ⟨[shapeA], [tgtW], []⟩
        rayW4 none).hit ∧
    ((BVH.new ((⟨[shapeA], [tgtW], []⟩ : Scene).objects ++
        (⟨[shapeA], [tgtW], []⟩ : Scene).targets) 4).traverse sqZ rayW4
        none).distance =
      (findClosestIntersectionBruteForce sqZ ⟨[shapeA], [tgtW], []⟩
        rayW4 none).distance := by
  have hv : ∀ sh ∈ (⟨[shapeA], [tgtW], []⟩ : Scene).objects ++
      (⟨[shapeA], [tgtW], []⟩ : Scene).targets,
      ∀ v ∈ sh.vertices, inAABB v sh.bbox := by
    intro sh hsh
    have hsh2 : sh = shapeA ∨ sh = tgtW := by
      rcases List.mem_append.mp hsh with h1 | h1
      · rw [List.mem_singleton] at h1
        exact Or.inl h1
      · rw [List.mem_singleton] at h1
        exact Or.inr h1
    intro v hv'
    rcases hsh2 with h2 | h2 <;> rw [h2] at hv' ⊢ <;>
      · simp only [shapeA, tgtW, List.mem_cons, List.not_mem_nil,
          or_false] at hv'
        rcases hv' with h3 | h3 | h3 | h3 <;> rw [h3] <;>
          norm_num [inAABB, shapeA, tgtW]
  have h := C1_bvh_refines_bruteForce sqZ rayW4 none
    ⟨[shapeA], [tgtW], []⟩ 4 hv
  exact ⟨hv, h.1, h.2⟩

end RayTrace
